import Mathlib

/-!
# Timed-callback scheduler of the DASH7 stack (d7aoss/framework/timer_new.c)

A shallow embedding of the event stack of `timer_new.c` and of the hardware
timer port it drives, followed by theorems about admission, renormalization,
next-event selection, arming and completion.

Conventions of the embedding
* `int32_t`, `uint32_t` and `uint8_t` values are integers; every conversion or
  arithmetic result the C code stores in such a variable goes through
  `toInt32`, `toUInt32` or `toUInt8` (two's complement wrap-around).
* A function that can spin in `while(1);`, call through a NULL pointer, index
  outside the array or read a variable that was never assigned returns
  `Except.error`, and the error carries the state at that moment.
* Callbacks are zero-argument C functions. What a callback does to the
  scheduler is the list of events it hands to `timer_add_event`; every
  invocation is recorded, with the state the callback observes, in `Sys.fired`.
* The tick count of the hardware timer is a `uint32_t`. Where the code
  compares it with an `int32_t`, as in `timer_configure_next_event`, C converts
  both operands to `uint32_t`; the embedding does the same with `toUInt32`.
* `timer_add_event`, `timer_completed` and `timer_configure_next_event` call
  each other; the embedding bounds the call depth by a fuel argument and
  returns `Fault.fuel` when it is exhausted.
-/

namespace Timer

/-- Number of slots of the event stack (`#define TIMER_EVENT_STACK_SIZE 20`). -/
def TIMER_EVENT_STACK_SIZE : Nat := 20

/-- Value of an integer after conversion to `int32_t`. -/
def toInt32 (x : Int) : Int := (x + 2147483648) % 4294967296 - 2147483648

/-- Value of an integer after conversion to `uint32_t`. -/
def toUInt32 (x : Int) : Nat := (x % 4294967296).toNat

/-- Value of an integer after conversion to `uint8_t`. -/
def toUInt8 (x : Int) : Nat := (x % 256).toNat

/-- Modelled from the spec: the event record declared in timer.h, which is not
among the sources. A callback reference (`none` is the NULL pointer, `some c`
the function with identity `c`) and a relative deadline in signed ticks, held
in the `int32_t` the scheduler copies it into. -/
structure timer_event where
  f : Option Nat
  next_event : Int
deriving DecidableEq, Repr

/-- Modelled from the spec: the registers of the hardware timer port (its
driver is not among the sources): the elapsed-tick counter, the compare
register and the interrupt-enable bit. -/
structure Hal where
  counter : Nat
  compare : Nat
  interrupt_enabled : Bool
deriving DecidableEq, Repr

/-- The scheduler globals of timer_new.c together with the hardware timer
port they drive. -/
@[ext]
structure State where
  timer_event_stack : Fin 20 → timer_event
  timer_next_event_position : Nat
  timer_event_count : Nat
  timer_event_running : Bool
  hal : Hal

/-- Ways in which a call fails to return: the `while(1);` trap, behaviour the
C standard leaves undefined (call through NULL, index outside the array, use
of an unassigned variable), and exhaustion of the call-depth bound. -/
inductive Fault where
  | trap
  | undefined
  | fuel
deriving DecidableEq, Repr

/-- Scheduler state plus the record of callback invocations: each entry is
the callback invoked and the state it observed when it was entered. -/
@[ext]
structure Sys where
  st : State
  fired : List (Nat × State)

/-- What a callback does: given its identity and the state it observes, the
events it passes to `timer_add_event`, in order. -/
abbrev Callbacks := Nat → State → List timer_event

/-- The slot indices in the order of `for( i=0 ; i<TIMER_EVENT_STACK_SIZE ; i++ )`. -/
def slots : List (Fin 20) :=
  [0, 1, 2, 3, 4, 5, 6, 7, 8, 9, 10, 11, 12, 13, 14, 15, 16, 17, 18, 19]

/-- Number of slots whose callback is not NULL. -/
def occupied_count (s : State) : Nat :=
  slots.countP (fun i => (s.timer_event_stack i).f.isSome)

/-- Modelled from the spec: `get_counter_value() -> ticks`, the elapsed ticks
since the last reset (hal/timer.h is not among the sources). The value is a
`uint32_t`, as timer_new.c uses it: `uint32_t timer_get_counter_value`
returns it, `timer_update_stack` casts it with `(int32_t)` and the compare
register is written with `(uint32_t)event_time`. -/
def hal_timer_getvalue (s : State) : Nat := s.hal.counter

/-- Modelled from the spec: `set_compare(ticks)` programs the next-fire
deadline. -/
def hal_timer_setvalue (v : Nat) (s : State) : State :=
  { s with hal := { s.hal with compare := v } }

/-- Modelled from the spec: `enable_interrupt()`. -/
def hal_timer_enable_interrupt (s : State) : State :=
  { s with hal := { s.hal with interrupt_enabled := true } }

/-- Modelled from the spec: `disable_interrupt()`. -/
def hal_timer_disable_interrupt (s : State) : State :=
  { s with hal := { s.hal with interrupt_enabled := false } }

/-- Modelled from the spec: `reset_counter()` zeroes the hardware counter and
does not by itself disarm the interrupt. -/
def hal_timer_counter_reset (s : State) : State :=
  { s with hal := { s.hal with counter := 0 } }

/-- Body of `timer_init`. The one-time peripheral set-up `hal_timer_init` is
not among the sources and is taken as a parameter acting on the port. -/
def timer_init (hal_timer_init : Hal → Hal) (s : State) : State :=
  let s := { s with hal := hal_timer_init s.hal }
  let s := { s with timer_event_count := 0 }
  let s := { s with timer_event_running := false }
  { s with timer_event_stack := fun i => { (s.timer_event_stack i) with f := none } }

/-- Write of `timer_event_stack[i]`. -/
def set_slot (s : State) (i : Fin 20) (e : timer_event) : State :=
  { s with timer_event_stack := Function.update s.timer_event_stack i e }

/-- The loop of `timer_update_stack` from index `i` on: `current_time` is the
elapsed time read before the reset, `event_count` the occupied slots seen so
far. Leaving the loop without having seen `timer_event_count` occupied slots
ends in the trap. -/
def timer_update_stack_loop (current_time : Int) :
    List (Fin 20) → Nat → State → Except (Fault × State) State
  | [], _, s => .error (.trap, s)
  | i :: rest, event_count, s =>
    if (s.timer_event_stack i).f ≠ none then
      let s := set_slot s i ⟨(s.timer_event_stack i).f,
        toInt32 ((s.timer_event_stack i).next_event - current_time)⟩
      let event_count := event_count + 1
      if event_count ≥ s.timer_event_count then .ok s
      else timer_update_stack_loop current_time rest event_count s
    else timer_update_stack_loop current_time rest event_count s

/-- Renormalization, `timer_update_stack`. The C function returns `true`
whenever it returns, so only the state is kept. -/
def timer_update_stack (s : State) : Except (Fault × State) State :=
  if s.timer_event_count = 0 then
    .ok (hal_timer_counter_reset s)
  else
    let current_time := toInt32 (hal_timer_getvalue s)
    let s := hal_timer_counter_reset s
    timer_update_stack_loop current_time slots 0 s

/-- The scan of `timer_get_next_event` from index `i` on.
`next_event_position` is `none` while the C variable is unassigned. -/
def timer_get_next_event_loop (s : State) :
    List (Fin 20) → Int → Option Nat → Nat → Except (Fault × State) Nat
  | [], _, _, _ => .error (.trap, s)
  | i :: rest, next_event_time, next_event_position, event_count =>
    if (s.timer_event_stack i).f ≠ none then
      if s.timer_event_count = 1 then .ok i.val
      else
        let next_event_time_temp := (s.timer_event_stack i).next_event
        let upd := decide (next_event_time_temp ≤ next_event_time)
        let next_event_time := if upd then next_event_time_temp else next_event_time
        let next_event_position := if upd then some i.val else next_event_position
        let event_count := event_count + 1
        if event_count ≥ s.timer_event_count then
          match next_event_position with
          | some p => .ok p
          | none => .error (.undefined, s)
        else timer_get_next_event_loop s rest next_event_time next_event_position event_count
    else timer_get_next_event_loop s rest next_event_time next_event_position event_count

/-- Selection of the next event, `timer_get_next_event`: the index returned
and the renormalized state. -/
def timer_get_next_event (s : State) : Except (Fault × State) (Nat × State) :=
  if s.timer_event_count = 0 then .error (.trap, s)
  else
    match timer_update_stack s with
    | .error e => .error e
    | .ok s =>
      match timer_get_next_event_loop s slots 16777215 none 0 with
      | .error e => .error e
      | .ok p => .ok (p, s)

/-- The search of `timer_add_event_in_stack` from index `i` on. -/
def timer_add_event_in_stack_loop (new_event : timer_event) :
    List (Fin 20) → State → Except (Fault × State) (Bool × State)
  | [], s => .ok (false, s)
  | i :: rest, s =>
    if (s.timer_event_stack i).f = none then
      match timer_update_stack s with
      | .error e => .error e
      | .ok s =>
        let s := set_slot s i new_event
        let s := { s with timer_event_count := toUInt8 (s.timer_event_count + 1) }
        .ok (true, s)
    else timer_add_event_in_stack_loop new_event rest s

/-- Insertion into the first free slot, `timer_add_event_in_stack`. -/
def timer_add_event_in_stack (new_event : timer_event) (s : State) :
    Except (Fault × State) (Bool × State) :=
  timer_add_event_in_stack_loop new_event slots s

/-- Attach the invocation record to a fault raised below the callback level. -/
def liftFault (fired : List (Nat × State)) : Fault × State → Fault × Sys
  | (e, s) => (e, ⟨s, fired⟩)

/-- The state `timer_completed` has built when it calls the callback of slot
`p`: running flag set, slot `p` cleared, count decremented. -/
def dispatch_state (s : State) (p : Fin 20) : State :=
  let s := { s with timer_event_running := true }
  let s := set_slot s p ⟨none, (s.timer_event_stack p).next_event⟩
  { s with timer_event_count := toUInt8 ((s.timer_event_count : Int) - 1) }

/-- The else branch of `timer_configure_next_event`: disable the interrupt,
program the compare register with `(uint32_t)event_time`, enable the
interrupt. -/
def arm (event_time : Int) (s : State) : State :=
  let s := hal_timer_disable_interrupt s
  let s := hal_timer_setvalue (toUInt32 event_time) s
  hal_timer_enable_interrupt s

/-- The end of `timer_completed`: clear the running flag. -/
def end_running (w : Sys) : Sys := ⟨{ w.st with timer_event_running := false }, w.fired⟩

/-- The test `event_time <= hal_timer_getvalue()` of
`timer_configure_next_event`. It has an `int32_t` on the left and a `uint32_t`
on the right, so C converts both operands to `uint32_t` and compares them
unsigned. -/
abbrev found_elapsed (event_time : Int) (ticks : Nat) : Prop :=
  toUInt32 event_time ≤ toUInt32 ticks

mutual
/-- Admission, `timer_add_event`. -/
def timer_add_event (cbs : Callbacks) : Nat → timer_event → Sys → Except (Fault × Sys) (Bool × Sys)
  | 0, _, w => .error (.fuel, w)
  | n + 1, event, w =>
    let new_event : timer_event := ⟨event.f, event.next_event⟩
    match timer_add_event_in_stack new_event w.st with
    | .error e => .error (liftFault w.fired e)
    | .ok (false, s) => .ok (false, ⟨s, w.fired⟩)
    | .ok (true, s) =>
      if s.timer_event_running = false then
        match timer_configure_next_event cbs n ⟨s, w.fired⟩ with
        | .error e => .error e
        | .ok w => .ok (true, w)
      else .ok (true, ⟨s, w.fired⟩)

/-- The calls of `timer_add_event` a callback makes, in order; the callback
ignores the results. -/
def run_callback (cbs : Callbacks) : Nat → List timer_event → Sys → Except (Fault × Sys) Sys
  | 0, _, w => .error (.fuel, w)
  | _ + 1, [], w => .ok w
  | n + 1, event :: more, w =>
    match timer_add_event cbs n event w with
    | .error e => .error e
    | .ok (_, w) => run_callback cbs n more w

/-- Completion, `timer_completed`. The callback `c` of the armed slot is
entered in the state `dispatch_state` and recorded in `fired`. -/
def timer_completed (cbs : Callbacks) : Nat → Sys → Except (Fault × Sys) Sys
  | 0, w => .error (.fuel, w)
  | n + 1, w =>
    if h : w.st.timer_next_event_position < 20 then
      let event_position : Fin 20 := ⟨w.st.timer_next_event_position, h⟩
      let event_f := (w.st.timer_event_stack event_position).f
      let s := dispatch_state w.st event_position
      match event_f with
      | none => .error (.undefined, ⟨s, w.fired⟩)
      | some c =>
        match run_callback cbs n (cbs c s) ⟨s, w.fired ++ [(c, s)]⟩ with
        | .error e => .error e
        | .ok w =>
          if w.st.timer_event_count > 0 then
            match timer_configure_next_event cbs n w with
            | .error e => .error e
            | .ok w => .ok (end_running w)
          else
            .ok (end_running ⟨hal_timer_disable_interrupt w.st, w.fired⟩)
    else .error (.undefined, ⟨{ w.st with timer_event_running := true }, w.fired⟩)

/-- Arming, `timer_configure_next_event`. -/
def timer_configure_next_event (cbs : Callbacks) : Nat → Sys → Except (Fault × Sys) Sys
  | 0, w => .error (.fuel, w)
  | n + 1, w =>
    match timer_get_next_event w.st with
    | .error e => .error (liftFault w.fired e)
    | .ok (p, s) =>
      let s := { s with timer_next_event_position := p }
      if h : p < 20 then
        let event_time := toInt32 ((s.timer_event_stack ⟨p, h⟩).next_event - 1)
        if found_elapsed event_time (hal_timer_getvalue s) then
          timer_completed cbs n ⟨s, w.fired⟩
        else
          .ok ⟨arm event_time s, w.fired⟩
      else .error (.undefined, ⟨s, w.fired⟩)
end

/-- A slot after renormalization by `cur` elapsed ticks. -/
def renorm_slot (cur : Int) (e : timer_event) : timer_event :=
  ⟨e.f, toInt32 (e.next_event - cur)⟩

/-- The store after renormalizing the occupied slots among `l`. -/
def renorm_on (cur : Int) (l : List (Fin 20)) (s : State) : State :=
  { s with timer_event_stack := fun i =>
      if i ∈ l ∧ (s.timer_event_stack i).f ≠ none then renorm_slot cur (s.timer_event_stack i)
      else s.timer_event_stack i }

/-- The running minimum kept by the scan of `timer_get_next_event`: the pair
of `next_event_time` and `next_event_position` after the slots of `l`. -/
def scan_min (s : State) : List (Fin 20) → Int → Option Nat → Int × Option Nat
  | [], net, pos => (net, pos)
  | i :: rest, net, pos =>
    if (s.timer_event_stack i).f ≠ none ∧ (s.timer_event_stack i).next_event ≤ net then
      scan_min s rest (s.timer_event_stack i).next_event (some i.val)
    else scan_min s rest net pos

/-- The store after `timer_update_stack` when the count matches the occupied
slots: counter at zero, every occupied deadline reduced by the elapsed time. -/
def renormalize (s : State) : State :=
  { s with
    hal := { s.hal with counter := 0 }
    timer_event_stack := fun i =>
      if (s.timer_event_stack i).f ≠ none then
        renorm_slot (toInt32 s.hal.counter) (s.timer_event_stack i)
      else s.timer_event_stack i }

/-- The count of occupied slots equals `timer_event_count`. -/
def count_invariant (s : State) : Prop := s.timer_event_count = occupied_count s

instance (s : State) : Decidable (count_invariant s) :=
  inferInstanceAs (Decidable (s.timer_event_count = occupied_count s))

/-- The store after writing `ev` into slot `i` and incrementing the count. -/
def insert_at (s : State) (i : Fin 20) (ev : timer_event) : State :=
  { set_slot s i ev with timer_event_count := toUInt8 ((set_slot s i ev).timer_event_count + 1) }

/-- A store holding the listed events in its first slots, the others empty. -/
def store_of (l : List timer_event) : Fin 20 → timer_event :=
  fun i => l.getD i.val ⟨none, 0⟩

/-- Two pending events, 100 and 50 ticks, with 40 ticks elapsed on the counter
and the first one armed. -/
def two_pending : State :=
  ⟨store_of [⟨some 1, 100⟩, ⟨some 2, 50⟩], 1, 2, false, ⟨40, 49, true⟩⟩

/-- Two pending events whose deadlines both exceed the maximum counter value
0xFFFFFF. -/
def two_far : State :=
  ⟨store_of [⟨some 1, 16777216⟩, ⟨some 2, 33554432⟩], 0, 2, false, ⟨0, 16777215, true⟩⟩

/-- The system a call leaves behind: the one returned, or the one at the
point where the call stopped. -/
def outcome : Except (Fault × Sys) Sys → Sys
  | .ok w => w
  | .error (_, w) => w

/-- The system a call of `timer_add_event` leaves behind. -/
def outcome_add : Except (Fault × Sys) (Bool × Sys) → Sys
  | .ok (_, w) => w
  | .error (_, w) => w

/-- The state `timer_get_next_event` leaves behind, returned or not. -/
def selected (s : State) : State :=
  match timer_get_next_event s with
  | .ok (_, s') => s'
  | .error (_, s') => s'

/-- Callbacks that admit nothing. -/
def no_callbacks : Callbacks := fun _ _ => []

/-- One pending event whose deadline of one tick has elapsed in the sense of
`timer_configure_next_event`. -/
def one_due : State :=
  ⟨store_of [⟨some 7, 1⟩], 0, 1, false, ⟨0, 0, false⟩⟩

/-- The states reachable from `timer_init` by calls of `timer_add_event` and
`timer_completed` that return, with the hardware counter free to move in
between. -/
inductive Reachable (cbs : Callbacks) (hal_timer_init : Hal → Hal) : Sys → Prop
  | init (s : State) : Reachable cbs hal_timer_init ⟨timer_init hal_timer_init s, []⟩
  | add_event (w w' : Sys) (n : Nat) (event : timer_event) (b : Bool) :
      Reachable cbs hal_timer_init w → timer_add_event cbs n event w = .ok (b, w') →
      Reachable cbs hal_timer_init w'
  | completed (w w' : Sys) (n : Nat) :
      Reachable cbs hal_timer_init w → timer_completed cbs n w = .ok w' →
      Reachable cbs hal_timer_init w'
  | elapse (w : Sys) (c : Nat) :
      Reachable cbs hal_timer_init w →
      Reachable cbs hal_timer_init ⟨{ w.st with hal := { w.st.hal with counter := c } }, w.fired⟩

/-- A store whose count claims more events than there are occupied slots;
every renormalization of such a store ends in the trap. -/
def overcounted (s : State) : Prop :=
  occupied_count s < s.timer_event_count ∧ s.timer_event_count ≤ 255

/-- Slot `j` holds an event. -/
abbrev occ (s : State) (j : Fin 20) : Prop := (s.timer_event_stack j).f ≠ none

/-- The deadline stored in slot `j`. -/
abbrev dl (s : State) (j : Fin 20) : Int := (s.timer_event_stack j).next_event

/-- The hardware counter advances by `t` ticks while the scheduler is idle. -/
def advance (t : Nat) (w : Sys) : Sys :=
  ⟨{ w.st with hal := { w.st.hal with counter := w.st.hal.counter + t } }, w.fired⟩

/-- Consecutive calls of `timer_add_event`, one per listed event, with no
elapsed time in between. -/
def admit_all (cbs : Callbacks) (fuel : Nat) : List timer_event → Sys → Except (Fault × Sys) Sys
  | [], w => .ok w
  | event :: more, w =>
    match timer_add_event cbs fuel event w with
    | .error e => .error e
    | .ok (_, w) => admit_all cbs fuel more w

/-- The hardware interrupt: the counter has advanced to the compare value and
the interrupt vector calls `timer_completed`. -/
def interrupt (cbs : Callbacks) (fuel : Nat) (w : Sys) : Except (Fault × Sys) Sys :=
  timer_completed cbs fuel
    ⟨{ w.st with hal := { w.st.hal with counter := w.st.hal.compare } }, w.fired⟩

/-- Interrupts taken one after the other until the store is empty, at most
`rounds` of them. -/
def drain (cbs : Callbacks) (fuel : Nat) : Nat → Sys → Except (Fault × Sys) Sys
  | 0, w => if w.st.timer_event_count = 0 then .ok w else .error (.fuel, w)
  | rounds + 1, w =>
    if w.st.timer_event_count = 0 then .ok w
    else
      match interrupt cbs fuel w with
      | .error e => .error e
      | .ok w => drain cbs fuel rounds w

/-- Slot `p` is the armed slot, holds a minimal deadline of at least one tick,
and the counter has reached its compare value; no deadline exceeds 0xFFFFFF. -/
def due (s : State) (p : Fin 20) : Prop :=
  s.timer_next_event_position = p.val ∧ occ s p ∧ 1 ≤ dl s p ∧
  (s.hal.counter : Int) = dl s p - 1 ∧
  ∀ j, occ s j → dl s p ≤ dl s j ∧ dl s j ≤ 16777215

/-- Every pending event is the one admitted into its slot, its deadline
reduced by the time `delta` renormalized away so far. -/
def tracks (orig : Fin 20 → timer_event) (delta : Int) (s : State) : Prop :=
  ∀ j, occ s j → (s.timer_event_stack j).f = (orig j).f ∧ dl s j = (orig j).next_event - delta

/-- The store between calls: consistent count, nothing running, every pending
deadline between 2 and 0xFFFFFF, and, when events are pending, the counter at
zero with a slot of minimal deadline armed. -/
def settled (s : State) : Prop :=
  count_invariant s ∧ s.timer_event_running = false ∧
  (∀ j, occ s j → 2 ≤ dl s j ∧ dl s j ≤ 16777215) ∧
  (0 < s.timer_event_count → s.hal.counter = 0 ∧
    ∃ p : Fin 20, s.timer_next_event_position = p.val ∧ occ s p ∧
      (s.hal.compare : Int) = dl s p - 1 ∧ ∀ j, occ s j → dl s p ≤ dl s j)

/-- Three events admitted with deadlines 50, 10 and 30 ticks. -/
def three_events : List timer_event := [⟨some 1, 50⟩, ⟨some 2, 10⟩, ⟨some 3, 30⟩]

/-- A store in which a callback is running and the count claims one event
although every slot is empty (the state a callback leaves after admitting an
event whose callback is NULL). -/
def phantom_running : State :=
  ⟨store_of [], 0, 1, true, ⟨0, 0, false⟩⟩

/-- The fault a call ended in, if it did not return. -/
def fault_of {α : Type} : Except (Fault × Sys) α → Option Fault
  | .ok _ => none
  | .error (e, _) => some e

/-- The two-event store while a callback is running. -/
def firing_store : State :=
  { two_pending with timer_event_running := true }

/-- Callbacks that call `timer_add_event` once for themselves with the
deadline `d`. -/
def reschedule (d : Int) : Callbacks := fun c _ => [⟨some c, d⟩]

/-- Three pending events, 30, 10 and 10 ticks: slots 1 and 2 share the
minimum deadline. -/
def tied_pending : State :=
  ⟨store_of [⟨some 1, 30⟩, ⟨some 2, 10⟩, ⟨some 3, 10⟩], 0, 3, false, ⟨0, 0, false⟩⟩

/-- The armed-slot property: when events are pending,
`timer_next_event_position` indexes an occupied slot of minimal deadline, the
compare register holds `(uint32_t)event_time` for that slot, `event_time`
being its deadline minus one as computed in `int32_t` (the deadline minus one
itself for every deadline of at least one tick), and the interrupt is
enabled. -/
def armed (s : State) : Prop :=
  0 < s.timer_event_count →
    ∃ p : Fin 20, s.timer_next_event_position = p.val ∧ occ s p ∧
      (∀ j, occ s j → dl s p ≤ dl s j) ∧
      s.hal.compare = toUInt32 (toInt32 (dl s p - 1)) ∧
      (1 ≤ dl s p → (s.hal.compare : Int) = dl s p - 1) ∧
      s.hal.interrupt_enabled = true

/-- The system after `timer_init` and the admission of one event of 50 ticks. -/
def after_one_admission : Sys :=
  outcome_add (timer_add_event no_callbacks 2 ⟨some 1, 50⟩ ⟨timer_init id one_due, []⟩)

/-- The system after `timer_init` and the admission of one event whose
deadline lies 50 ticks in the past. -/
def after_overdue_admission : Sys :=
  outcome_add (timer_add_event no_callbacks 2 ⟨some 1, -50⟩ ⟨timer_init id one_due, []⟩)

/-- A full store whose events in slots 0 and 1 share the deadline of 10 ticks,
the other eighteen being due after 1000 ticks; slot 1 is armed and the counter
has reached the compare value 9. -/
def full_two_due : State :=
  ⟨store_of ([⟨some 0, 10⟩, ⟨some 1, 10⟩] ++ (List.range 18).map (fun k => ⟨some (k + 2), 1000⟩)),
    1, 20, false, ⟨9, 9, true⟩⟩

/-- A full store whose event in slot 0 is due after 10 ticks, the other
nineteen after 1000 ticks; slot 0 is armed and the counter has reached the
compare value 9. -/
def full_one_due : State :=
  ⟨store_of (⟨some 0, 10⟩ :: (List.range 19).map (fun k => ⟨some (k + 1), 1000⟩)),
    0, 20, false, ⟨9, 9, true⟩⟩

/-- Two pending events, 100 and 50 ticks, with 60 ticks elapsed on the counter:
the second event is overdue by 10 ticks. -/
def overdue_pending : State :=
  ⟨store_of [⟨some 1, 100⟩, ⟨some 2, 50⟩], 1, 2, false, ⟨60, 49, true⟩⟩

/-- A full store whose event in slot 0 is due after 10 ticks, the other
nineteen after 20000000 ticks, beyond the maximum counter value 0xFFFFFF;
slot 0 is armed and the counter has reached the compare value 9. -/
def full_far : State :=
  ⟨store_of (⟨some 0, 10⟩ :: (List.range 19).map (fun k => ⟨some (k + 1), 20000000⟩)),
    0, 20, false, ⟨9, 9, true⟩⟩

/-- The deadline of slot `j` once the elapsed time is subtracted, as
`timer_update_stack` computes it in `int32_t`. -/
abbrev remaining (s : State) (j : Fin 20) : Int :=
  toInt32 ((s.timer_event_stack j).next_event - toInt32 s.hal.counter)

/-! ## Properties of the loops -/

theorem slots_nodup : slots.Nodup := by decide

theorem mem_slots (i : Fin 20) : i ∈ slots := by revert i; decide

theorem slots_sorted : slots.Pairwise (fun a b => a < b) := by decide

theorem toInt32_of_range (x : Int) (h1 : -2147483648 ≤ x) (h2 : x ≤ 2147483647) :
    toInt32 x = x := by
  unfold toInt32; omega

theorem toInt32_range (x : Int) : -2147483648 ≤ toInt32 x ∧ toInt32 x ≤ 2147483647 := by
  unfold toInt32; omega

theorem occ_count_congr (l : List (Fin 20)) (f g : Fin 20 → timer_event)
    (h : ∀ i ∈ l, (f i).f = (g i).f) :
    l.countP (fun i => (f i).f.isSome) = l.countP (fun i => (g i).f.isSome) := by
  induction l with
  | nil => rfl
  | cons a l ih =>
    have ha := h a (List.mem_cons_self _ _)
    have hl := ih (fun i hi => h i (List.mem_cons_of_mem _ hi))
    simp only [List.countP_cons, ha, hl]

theorem occ_count_zero (l : List (Fin 20)) (f : Fin 20 → timer_event)
    (h : l.countP (fun i => (f i).f.isSome) = 0) : ∀ i ∈ l, (f i).f = none := by
  intro i hi
  rw [List.countP_eq_zero] at h
  have := h i hi
  simpa using this

theorem update_loop_ok (cur : Int) : ∀ (l : List (Fin 20)) (ec : Nat) (s : State),
    l.Nodup →
    ec + l.countP (fun i => (s.timer_event_stack i).f.isSome) = s.timer_event_count →
    ec < s.timer_event_count →
    timer_update_stack_loop cur l ec s = .ok (renorm_on cur l s) := by
  intro l
  induction l with
  | nil => intro ec s _ h1 h2; simp at h1; omega
  | cons a l ih =>
    intro ec s hnd h1 h2
    have hal : a ∉ l := (List.nodup_cons.mp hnd).1
    have hl : l.Nodup := (List.nodup_cons.mp hnd).2
    unfold timer_update_stack_loop
    by_cases hocc : (s.timer_event_stack a).f = none
    · simp only [hocc, ne_eq, not_true_eq_false, if_false]
      have h1' : ec + l.countP (fun i => (s.timer_event_stack i).f.isSome)
          = s.timer_event_count := by
        simpa [List.countP_cons, hocc] using h1
      rw [ih ec s hl h1' h2]
      congr 1
      apply State.ext <;> simp only [renorm_on]
      funext j
      by_cases hj : j = a
      · subst hj; simp [hocc]
      · simp [hj]
    · have hsome : (s.timer_event_stack a).f.isSome = true := by
        cases h : (s.timer_event_stack a).f <;> simp_all
      simp only [ne_eq, hocc, not_false_eq_true, if_true]
      have h1' : ec + 1 + l.countP (fun i => (s.timer_event_stack i).f.isSome)
          = s.timer_event_count := by
        simp only [List.countP_cons, hsome, if_true] at h1; omega
      have hcongr : l.countP (fun i => ((set_slot s a ⟨(s.timer_event_stack a).f,
            toInt32 ((s.timer_event_stack a).next_event - cur)⟩).timer_event_stack i).f.isSome)
          = l.countP (fun i => (s.timer_event_stack i).f.isSome) := by
        apply occ_count_congr
        intro i hi
        have : i ≠ a := fun h => hal (h ▸ hi)
        simp [set_slot, Function.update_noteq this]
      by_cases hge : ec + 1 ≥ s.timer_event_count
      · have hz : l.countP (fun i => (s.timer_event_stack i).f.isSome) = 0 := by omega
        have hnone := occ_count_zero l _ hz
        have : (set_slot s a ⟨(s.timer_event_stack a).f,
            toInt32 ((s.timer_event_stack a).next_event - cur)⟩).timer_event_count
            = s.timer_event_count := rfl
        simp only [this, hge, if_true]
        congr 1
        apply State.ext <;> simp only [renorm_on, set_slot]
        funext j
        by_cases hj : j = a
        · subst hj; simp [hocc, renorm_slot]
        · by_cases hjl : j ∈ l
          · simp [hj, hnone j hjl]
          · simp [hj, hjl]
      · have : (set_slot s a ⟨(s.timer_event_stack a).f,
            toInt32 ((s.timer_event_stack a).next_event - cur)⟩).timer_event_count
            = s.timer_event_count := rfl
        simp only [this, hge, if_false]
        rw [ih (ec + 1) _ hl (by rw [hcongr]; exact h1') (by rw [this]; omega)]
        congr 1
        apply State.ext <;> simp only [renorm_on, set_slot]
        funext j
        by_cases hj : j = a
        · subst hj; simp [hocc, hal, renorm_slot]
        · simp [hj]

theorem update_loop_trap (cur : Int) : ∀ (l : List (Fin 20)) (ec : Nat) (s : State),
    ec + l.countP (fun i => (s.timer_event_stack i).f.isSome) < s.timer_event_count →
    ∃ s', timer_update_stack_loop cur l ec s = .error (.trap, s') := by
  intro l
  induction l with
  | nil => intro ec s _; exact ⟨s, rfl⟩
  | cons a l ih =>
    intro ec s h1
    unfold timer_update_stack_loop
    by_cases hocc : (s.timer_event_stack a).f = none
    · simp only [hocc, ne_eq, not_true_eq_false, if_false]
      apply ih
      simpa [List.countP_cons, hocc] using h1
    · have hsome : (s.timer_event_stack a).f.isSome = true := by
        cases h : (s.timer_event_stack a).f <;> simp_all
      simp only [ne_eq, hocc, not_false_eq_true, if_true]
      simp only [List.countP_cons, hsome, if_true] at h1
      have hcongr : l.countP (fun i => ((set_slot s a ⟨(s.timer_event_stack a).f,
            toInt32 ((s.timer_event_stack a).next_event - cur)⟩).timer_event_stack i).f.isSome)
          = l.countP (fun i => (s.timer_event_stack i).f.isSome) := by
        apply occ_count_congr
        intro i _
        by_cases hi : i = a
        · subst hi; simp [set_slot]
        · simp [set_slot, Function.update_noteq hi]
      have hc : (set_slot s a ⟨(s.timer_event_stack a).f,
            toInt32 ((s.timer_event_stack a).next_event - cur)⟩).timer_event_count
            = s.timer_event_count := rfl
      have hge : ¬ (ec + 1 ≥ s.timer_event_count) := by omega
      simp only [hc, hge, if_false]
      apply ih
      rw [hcongr, hc]; omega

theorem update_stack_zero (s : State) (h : s.timer_event_count = 0) :
    timer_update_stack s = .ok (hal_timer_counter_reset s) := by
  simp [timer_update_stack, h]

theorem update_stack_trap (s : State) (h : occupied_count s < s.timer_event_count) :
    ∃ s', timer_update_stack s = .error (.trap, s') := by
  have h0 : s.timer_event_count ≠ 0 := by omega
  simp only [timer_update_stack, h0, if_false]
  apply update_loop_trap
  simpa [hal_timer_counter_reset, occupied_count] using h

theorem update_stack_ok (s : State) (h : count_invariant s) :
    timer_update_stack s = .ok (renormalize s) := by
  unfold count_invariant occupied_count at h
  by_cases h0 : s.timer_event_count = 0
  · rw [update_stack_zero s h0]
    congr 1
    have hnone := occ_count_zero slots s.timer_event_stack (by omega)
    apply State.ext <;> simp only [renormalize, hal_timer_counter_reset]
    funext i
    simp [hnone i (mem_slots i)]
  · simp only [timer_update_stack, h0, if_false]
    rw [update_loop_ok _ _ _ _ slots_nodup (by simpa [hal_timer_counter_reset] using h.symm)
      (by simp only [hal_timer_counter_reset]; omega)]
    congr 1
    apply State.ext <;> simp only [renormalize, hal_timer_counter_reset, renorm_on, hal_timer_getvalue]
    funext i
    simp [mem_slots i]

theorem scan_min_no_occ (s : State) : ∀ (l : List (Fin 20)) (net : Int) (pos : Option Nat),
    (∀ i ∈ l, (s.timer_event_stack i).f = none) → scan_min s l net pos = (net, pos) := by
  intro l
  induction l with
  | nil => intros; rfl
  | cons a l ih =>
    intro net pos h
    have ha := h a (List.mem_cons_self _ _)
    simp only [scan_min, ha, ne_eq, not_true_eq_false, false_and, if_false]
    exact ih net pos (fun i hi => h i (List.mem_cons_of_mem _ hi))

theorem get_next_loop_many (s : State) (hc : s.timer_event_count ≠ 1) :
    ∀ (l : List (Fin 20)) (net : Int) (pos : Option Nat) (ec : Nat),
    ec + l.countP (fun i => (s.timer_event_stack i).f.isSome) = s.timer_event_count →
    ec < s.timer_event_count →
    timer_get_next_event_loop s l net pos ec =
      match (scan_min s l net pos).2 with
      | some p => .ok p
      | none => .error (.undefined, s) := by
  intro l
  induction l with
  | nil => intro net pos ec h1 h2; simp at h1; omega
  | cons a l ih =>
    intro net pos ec h1 h2
    unfold timer_get_next_event_loop
    by_cases hocc : (s.timer_event_stack a).f = none
    · simp only [hocc, ne_eq, not_true_eq_false, if_false, scan_min, false_and]
      apply ih
      · simpa [List.countP_cons, hocc] using h1
      · exact h2
    · have hsome : (s.timer_event_stack a).f.isSome = true := by
        cases h : (s.timer_event_stack a).f <;> simp_all
      simp only [List.countP_cons, hsome, if_true] at h1
      simp only [ne_eq, hocc, not_false_eq_true, if_true, hc, if_false, scan_min, true_and]
      by_cases hge : ec + 1 ≥ s.timer_event_count
      · have hz : l.countP (fun i => (s.timer_event_stack i).f.isSome) = 0 := by omega
        have hnone := occ_count_zero l _ hz
        simp only [hge, if_true]
        by_cases hle : (s.timer_event_stack a).next_event ≤ net
        · simp [hle, scan_min_no_occ s l _ _ hnone]
        · simp [hle, scan_min_no_occ s l _ _ hnone]
      · simp only [hge, if_false]
        by_cases hle : (s.timer_event_stack a).next_event ≤ net
        · simp only [hle, decide_True, if_true]
          exact ih _ _ _ (by omega) (by omega)
        · simp only [hle, decide_False, if_false]
          exact ih _ _ _ (by omega) (by omega)

theorem get_next_loop_one (s : State) (hc : s.timer_event_count = 1) :
    ∀ (l : List (Fin 20)) (net : Int) (pos : Option Nat) (ec : Nat),
    (∃ i ∈ l, (s.timer_event_stack i).f ≠ none) →
    ∃ i ∈ l, (s.timer_event_stack i).f ≠ none ∧
      timer_get_next_event_loop s l net pos ec = .ok i.val := by
  intro l
  induction l with
  | nil => intro net pos ec h; obtain ⟨i, hi, _⟩ := h; simp at hi
  | cons a l ih =>
    intro net pos ec h
    unfold timer_get_next_event_loop
    by_cases hocc : (s.timer_event_stack a).f = none
    · simp only [hocc, ne_eq, not_true_eq_false, if_false]
      obtain ⟨i, hi, hio⟩ := h
      have hil : i ∈ l := by
        rcases List.mem_cons.mp hi with h | h
        · subst h; exact absurd hocc hio
        · exact h
      obtain ⟨j, hj, hjo, hres⟩ := ih net pos ec ⟨i, hil, hio⟩
      exact ⟨j, List.mem_cons_of_mem _ hj, hjo, hres⟩
    · exact ⟨a, List.mem_cons_self _ _, hocc, by simp [hocc, hc]⟩

theorem scan_min_cons_le (s : State) (a : Fin 20) (l : List (Fin 20)) (net : Int)
    (pos : Option Nat)
    (hc : (s.timer_event_stack a).f ≠ none ∧ (s.timer_event_stack a).next_event ≤ net) :
    scan_min s (a :: l) net pos
      = scan_min s l (s.timer_event_stack a).next_event (some a.val) := by
  simp only [scan_min]; rw [if_pos hc]

theorem scan_min_cons_skip (s : State) (a : Fin 20) (l : List (Fin 20)) (net : Int)
    (pos : Option Nat)
    (hc : ¬ ((s.timer_event_stack a).f ≠ none ∧ (s.timer_event_stack a).next_event ≤ net)) :
    scan_min s (a :: l) net pos = scan_min s l net pos := by
  simp only [scan_min]; rw [if_neg hc]

theorem scan_min_spec (s : State) : ∀ (l : List (Fin 20)) (net : Int) (pos : Option Nat),
    (scan_min s l net pos).1 ≤ net ∧
    (∀ i ∈ l, (s.timer_event_stack i).f ≠ none →
      (scan_min s l net pos).1 ≤ (s.timer_event_stack i).next_event) ∧
    (scan_min s l net pos = (net, pos) ∨
      ∃ i ∈ l, (s.timer_event_stack i).f ≠ none ∧
        scan_min s l net pos = ((s.timer_event_stack i).next_event, some i.val)) := by
  intro l
  induction l with
  | nil => intro net pos; simp [scan_min]
  | cons a l ih =>
    intro net pos
    by_cases hc : (s.timer_event_stack a).f ≠ none ∧ (s.timer_event_stack a).next_event ≤ net
    · rw [scan_min_cons_le s a l net pos hc]
      obtain ⟨h1, h2, h3⟩ := ih (s.timer_event_stack a).next_event (some a.val)
      refine ⟨le_trans h1 hc.2, ?_, ?_⟩
      · intro i hi hio
        rcases List.mem_cons.mp hi with h | h
        · subst h; exact h1
        · exact h2 i h hio
      · right
        rcases h3 with h | ⟨i, hi, hio, h⟩
        · exact ⟨a, List.mem_cons_self _ _, hc.1, h⟩
        · exact ⟨i, List.mem_cons_of_mem _ hi, hio, h⟩
    · rw [scan_min_cons_skip s a l net pos hc]
      obtain ⟨h1, h2, h3⟩ := ih net pos
      refine ⟨h1, ?_, ?_⟩
      · intro i hi hio
        rcases List.mem_cons.mp hi with h | h
        · subst h
          have : ¬ (s.timer_event_stack i).next_event ≤ net := fun hle => hc ⟨hio, hle⟩
          omega
        · exact h2 i h hio
      · rcases h3 with h | ⟨i, hi, hio, h⟩
        · left; exact h
        · right; exact ⟨i, List.mem_cons_of_mem _ hi, hio, h⟩

theorem scan_min_found (s : State) : ∀ (l : List (Fin 20)) (net : Int) (pos : Option Nat),
    (∃ i ∈ l, (s.timer_event_stack i).f ≠ none ∧ (s.timer_event_stack i).next_event ≤ net) →
    ∃ i ∈ l, (s.timer_event_stack i).f ≠ none ∧
      scan_min s l net pos = ((s.timer_event_stack i).next_event, some i.val) := by
  intro l
  induction l with
  | nil => intro net pos ⟨i, hi, _⟩; simp at hi
  | cons a l ih =>
    intro net pos ⟨i, hi, hio, hle⟩
    by_cases hc : (s.timer_event_stack a).f ≠ none ∧ (s.timer_event_stack a).next_event ≤ net
    · rw [scan_min_cons_le s a l net pos hc]
      rcases (scan_min_spec s l (s.timer_event_stack a).next_event (some a.val)).2.2 with h | h
      · exact ⟨a, List.mem_cons_self _ _, hc.1, h⟩
      · obtain ⟨j, hj, hjo, h⟩ := h
        exact ⟨j, List.mem_cons_of_mem _ hj, hjo, h⟩
    · rw [scan_min_cons_skip s a l net pos hc]
      have hil : i ∈ l := by
        rcases List.mem_cons.mp hi with h | h
        · subst h; exact absurd ⟨hio, hle⟩ hc
        · exact h
      obtain ⟨j, hj, hjo, h⟩ := ih net pos ⟨i, hil, hio, hle⟩
      exact ⟨j, List.mem_cons_of_mem _ hj, hjo, h⟩

theorem occ_unique (s : State) (h : occupied_count s = 1) (i j : Fin 20)
    (hi : (s.timer_event_stack i).f ≠ none) (hj : (s.timer_event_stack j).f ≠ none) : i = j := by
  unfold occupied_count at h
  rw [List.countP_eq_length_filter, List.length_eq_one] at h
  obtain ⟨a, ha⟩ := h
  have hi' : i ∈ slots.filter (fun i => (s.timer_event_stack i).f.isSome) := by
    rw [List.mem_filter]
    exact ⟨mem_slots i, by cases h : (s.timer_event_stack i).f <;> simp_all⟩
  have hj' : j ∈ slots.filter (fun i => (s.timer_event_stack i).f.isSome) := by
    rw [List.mem_filter]
    exact ⟨mem_slots j, by cases h : (s.timer_event_stack j).f <;> simp_all⟩
  rw [ha] at hi' hj'
  simp at hi' hj'
  rw [hi', hj']

theorem occ_exists (s : State) (h : 1 ≤ occupied_count s) :
    ∃ i, (s.timer_event_stack i).f ≠ none := by
  unfold occupied_count at h
  have : 0 < slots.countP (fun i => (s.timer_event_stack i).f.isSome) := by omega
  rw [List.countP_pos_iff] at this
  obtain ⟨i, _, hi⟩ := this
  exact ⟨i, by cases h : (s.timer_event_stack i).f <;> simp_all⟩

theorem renormalize_f (s : State) (i : Fin 20) :
    ((renormalize s).timer_event_stack i).f = (s.timer_event_stack i).f := by
  simp only [renormalize, renorm_slot]
  split <;> rfl

theorem renormalize_occ (s : State) : occupied_count (renormalize s) = occupied_count s := by
  unfold occupied_count
  exact occ_count_congr _ _ _ (fun i _ => renormalize_f s i)

theorem renormalize_count (s : State) :
    (renormalize s).timer_event_count = s.timer_event_count := rfl

theorem renormalize_inv (s : State) (h : count_invariant s) : count_invariant (renormalize s) := by
  unfold count_invariant at *
  rw [renormalize_occ, renormalize_count, h]

/-- Selection on a consistent store: the renormalized state is returned with
an occupied slot of minimal deadline, provided a single event is pending or
some pending deadline does not exceed the maximum counter value. -/
theorem get_next_spec (s : State) (hinv : count_invariant s) (h1 : 1 ≤ s.timer_event_count)
    (hb : s.timer_event_count = 1 ∨ ∃ i, ((renormalize s).timer_event_stack i).f ≠ none ∧
      ((renormalize s).timer_event_stack i).next_event ≤ 16777215) :
    ∃ p : Fin 20, timer_get_next_event s = .ok (p.val, renormalize s) ∧
      ((renormalize s).timer_event_stack p).f ≠ none ∧
      ∀ j, ((renormalize s).timer_event_stack j).f ≠ none →
        ((renormalize s).timer_event_stack p).next_event
          ≤ ((renormalize s).timer_event_stack j).next_event := by
  have h0 : s.timer_event_count ≠ 0 := by omega
  have hinv' := renormalize_inv s hinv
  simp only [timer_get_next_event, h0, if_false, update_stack_ok s hinv]
  by_cases hc : s.timer_event_count = 1
  · have hocc1 : occupied_count (renormalize s) = 1 := by
      rw [← hinv', renormalize_count, hc]
    obtain ⟨i, hi⟩ := occ_exists (renormalize s) (by omega)
    obtain ⟨p, _, hpo, hres⟩ := get_next_loop_one (renormalize s) hc slots 16777215 none 0
      ⟨i, mem_slots i, hi⟩
    refine ⟨p, by rw [hres], hpo, ?_⟩
    intro j hj
    rw [occ_unique _ hocc1 p j hpo hj]
  · have hc' : (renormalize s).timer_event_count ≠ 1 := hc
    rw [get_next_loop_many (renormalize s) hc' slots 16777215 none 0
      (by rw [Nat.zero_add]; exact hinv'.symm) (by rw [renormalize_count]; omega)]
    rcases hb with hb | ⟨i, hio, hle⟩
    · exact absurd hb hc
    · obtain ⟨p, _, hpo, hres⟩ := scan_min_found (renormalize s) slots 16777215 none
        ⟨i, mem_slots i, hio, hle⟩
      refine ⟨p, by rw [hres], hpo, ?_⟩
      intro j hj
      have := (scan_min_spec (renormalize s) slots 16777215 none).2.1 j (mem_slots j) hj
      rw [hres] at this
      exact this

theorem add_loop_full (ev : timer_event) (s : State) : ∀ (l : List (Fin 20)),
    (∀ i ∈ l, (s.timer_event_stack i).f ≠ none) →
    timer_add_event_in_stack_loop ev l s = .ok (false, s) := by
  intro l
  induction l with
  | nil => intro _; rfl
  | cons a l ih =>
    intro h
    have ha := h a (List.mem_cons_self _ _)
    simp only [timer_add_event_in_stack_loop, ha, if_false]
    exact ih (fun i hi => h i (List.mem_cons_of_mem _ hi))

theorem add_loop_free (ev : timer_event) (s : State) : ∀ (l : List (Fin 20)),
    l.Pairwise (fun a b => a < b) →
    (∃ i ∈ l, (s.timer_event_stack i).f = none) →
    ∃ i ∈ l, (s.timer_event_stack i).f = none ∧
      (∀ j ∈ l, j < i → (s.timer_event_stack j).f ≠ none) ∧
      timer_add_event_in_stack_loop ev l s =
        match timer_update_stack s with
        | .error e => .error e
        | .ok s1 => .ok (true, insert_at s1 i ev) := by
  intro l
  induction l with
  | nil => intro _ ⟨i, hi, _⟩; simp at hi
  | cons a l ih =>
    intro hp ⟨i, hi, hfree⟩
    have hpa := (List.pairwise_cons.mp hp).1
    have hpl := (List.pairwise_cons.mp hp).2
    by_cases ha : (s.timer_event_stack a).f = none
    · refine ⟨a, List.mem_cons_self _ _, ha, ?_, ?_⟩
      · intro j hj hlt
        rcases List.mem_cons.mp hj with h | h
        · subst h; exact absurd hlt (lt_irrefl _)
        · exact absurd hlt (not_lt.mpr (le_of_lt (hpa j h)))
      · simp only [timer_add_event_in_stack_loop, ha, if_true]
        cases timer_update_stack s <;> rfl
    · have hil : i ∈ l := by
        rcases List.mem_cons.mp hi with h | h
        · subst h; exact absurd hfree ha
        · exact h
      obtain ⟨k, hk, hkf, hkm, hres⟩ := ih hpl ⟨i, hil, hfree⟩
      refine ⟨k, List.mem_cons_of_mem _ hk, hkf, ?_, ?_⟩
      · intro j hj hlt
        rcases List.mem_cons.mp hj with h | h
        · subst h; exact ha
        · exact hkm j h hlt
      · simp only [timer_add_event_in_stack_loop, ha, if_false]
        exact hres

theorem add_in_stack_full (ev : timer_event) (s : State)
    (h : ∀ i, (s.timer_event_stack i).f ≠ none) :
    timer_add_event_in_stack ev s = .ok (false, s) :=
  add_loop_full ev s slots (fun i _ => h i)

theorem add_in_stack_free (ev : timer_event) (s : State)
    (h : ∃ i, (s.timer_event_stack i).f = none) :
    ∃ i, (s.timer_event_stack i).f = none ∧
      (∀ j, j < i → (s.timer_event_stack j).f ≠ none) ∧
      timer_add_event_in_stack ev s =
        match timer_update_stack s with
        | .error e => .error e
        | .ok s1 => .ok (true, insert_at s1 i ev) := by
  obtain ⟨i, hi⟩ := h
  obtain ⟨k, _, hkf, hkm, hres⟩ := add_loop_free ev s slots slots_sorted ⟨i, mem_slots i, hi⟩
  exact ⟨k, hkf, fun j hj => hkm j (mem_slots j) hj, hres⟩

/-- Claim C1. `timer_add_event` returns false exactly when none of the 20
slots has a NULL callback, and whenever it returns false the whole state
(slots, count, running flag, armed position, hardware registers, record of
invocations) is the one before the call. -/
theorem timer_add_event_false_iff_full (cbs : Callbacks) (n : Nat) (event : timer_event)
    (w : Sys) :
    ((∃ w', timer_add_event cbs (n + 1) event w = .ok (false, w')) ↔
      ∀ i, (w.st.timer_event_stack i).f ≠ none) ∧
    (∀ w', timer_add_event cbs (n + 1) event w = .ok (false, w') → w' = w) := by
  by_cases hfull : ∀ i, (w.st.timer_event_stack i).f ≠ none
  · have hres : timer_add_event cbs (n + 1) event w = .ok (false, w) := by
      simp only [timer_add_event, add_in_stack_full _ w.st hfull]
    refine ⟨⟨fun _ => hfull, fun _ => ⟨w, hres⟩⟩, ?_⟩
    intro w' hw'
    rw [hres] at hw'
    injection hw' with h
    injection h with _ h
    exact h.symm
  · have hex : ∃ i, (w.st.timer_event_stack i).f = none := by
      by_contra hne
      exact hfull (fun i hi => hne ⟨i, hi⟩)
    obtain ⟨i, _, _, hres⟩ := add_in_stack_free ⟨event.f, event.next_event⟩ w.st hex
    have key : ∀ w', timer_add_event cbs (n + 1) event w ≠ .ok (false, w') := by
      intro w' hw'
      simp only [timer_add_event, hres] at hw'
      cases hu : timer_update_stack w.st with
      | error e => simp [hu] at hw'
      | ok s1 =>
        simp only [hu] at hw'
        split at hw'
        · cases hc : timer_configure_next_event cbs n ⟨insert_at s1 i ⟨event.f, event.next_event⟩, w.fired⟩ with
          | error e => simp [hc] at hw'
          | ok w2 => simp [hc] at hw'
        · simp at hw'
    exact ⟨⟨fun ⟨w', hw'⟩ => absurd hw' (key w'), fun h => absurd h hfull⟩,
      fun w' hw' => absurd hw' (key w')⟩
/-! ## Renormalization, selection and insertion -/

/-- Claim C3, counterexample. With two pending events whose deadlines both
exceed 0xFFFFFF the count matches the occupied slots, yet the scan never
assigns `next_event_position` and no slot index is returned. -/
theorem timer_get_next_event_far_deadlines :
    1 ≤ two_far.timer_event_count ∧ count_invariant two_far ∧
    ¬ ∃ p s', timer_get_next_event two_far = .ok (p, s') := by
  refine ⟨by decide, by decide, ?_⟩
  have h : (timer_get_next_event two_far).isOk = false := by decide
  rintro ⟨p, s', hp⟩
  rw [hp] at h
  exact Bool.noConfusion h

/-- Claim C3, amended. On a store whose count is at least one and matches the
occupied slots, when a single event is pending or some pending deadline is at
most 0xFFFFFF after the renormalization, `timer_get_next_event` renormalizes
and returns an index below 20 of an occupied slot whose deadline is less than
or equal to that of every occupied slot; with one pending event that is its
slot whatever the deadline. -/
theorem timer_get_next_event_minimum (s : State) (h1 : 1 ≤ s.timer_event_count)
    (hinv : s.timer_event_count = occupied_count s)
    (hb : s.timer_event_count = 1 ∨ ∃ i, (s.timer_event_stack i).f ≠ none ∧
      toInt32 ((s.timer_event_stack i).next_event - toInt32 s.hal.counter) ≤ 16777215) :
    ∃ (p : Fin 20) (s' : State), timer_get_next_event s = .ok (p.val, s') ∧
      timer_update_stack s = .ok s' ∧
      (s'.timer_event_stack p).f ≠ none ∧
      (∀ j, (s'.timer_event_stack j).f ≠ none →
        (s'.timer_event_stack p).next_event ≤ (s'.timer_event_stack j).next_event) ∧
      (s.timer_event_count = 1 → ∀ j, (s'.timer_event_stack j).f ≠ none → j = p) := by
  have hb' : s.timer_event_count = 1 ∨ ∃ i, ((renormalize s).timer_event_stack i).f ≠ none ∧
      ((renormalize s).timer_event_stack i).next_event ≤ 16777215 := by
    rcases hb with hb | ⟨i, hi, hle⟩
    · exact Or.inl hb
    · refine Or.inr ⟨i, by rw [renormalize_f]; exact hi, ?_⟩
      simpa [renormalize, hi, renorm_slot] using hle
  obtain ⟨p, hres, hpo, hmin⟩ := get_next_spec s hinv h1 hb'
  refine ⟨p, renormalize s, hres, update_stack_ok s hinv, hpo, hmin, ?_⟩
  intro hc j hj
  have hocc1 : occupied_count (renormalize s) = 1 := by
    rw [renormalize_occ, ← hinv, hc]
  exact occ_unique _ hocc1 j p hj hpo

/-- Claim C3, witness: the store with deadlines 100 and 50 and 40 ticks
elapsed. -/
theorem timer_get_next_event_minimum_witness :
    ∃ (p : Fin 20) (s' : State), timer_get_next_event two_pending = .ok (p.val, s') ∧
      timer_update_stack two_pending = .ok s' ∧
      (s'.timer_event_stack p).f ≠ none ∧
      (∀ j, (s'.timer_event_stack j).f ≠ none →
        (s'.timer_event_stack p).next_event ≤ (s'.timer_event_stack j).next_event) ∧
      (two_pending.timer_event_count = 1 →
        ∀ j, (s'.timer_event_stack j).f ≠ none → j = p) :=
  timer_get_next_event_minimum two_pending (by decide) (by decide) (by decide)

/-- Claim C4. `timer_update_stack` renormalizes exactly. On a store whose
count is at least one and matches the occupied slots, with the counter reading
`e`: the counter becomes 0, every occupied deadline becomes the `int32_t`
difference of its old value and `e` (the mathematical difference whenever that
is representable), and callbacks, empty slots, count, running flag, armed
position, compare register and interrupt bit are unchanged. With a count of 0
the call only resets the counter. -/
theorem timer_update_stack_renormalizes (s : State) :
    (1 ≤ s.timer_event_count → s.timer_event_count = occupied_count s →
      ∃ s', timer_update_stack s = .ok s' ∧ s'.hal.counter = 0 ∧
        (∀ i, (s.timer_event_stack i).f ≠ none →
          (s'.timer_event_stack i).next_event
            = toInt32 ((s.timer_event_stack i).next_event - toInt32 s.hal.counter)) ∧
        (∀ i, (s.timer_event_stack i).f ≠ none → (s.hal.counter : Int) ≤ 2147483647 →
          -2147483648 ≤ (s.timer_event_stack i).next_event - s.hal.counter →
          (s.timer_event_stack i).next_event - s.hal.counter ≤ 2147483647 →
          (s'.timer_event_stack i).next_event
            = (s.timer_event_stack i).next_event - s.hal.counter) ∧
        (∀ i, (s'.timer_event_stack i).f = (s.timer_event_stack i).f) ∧
        (∀ i, (s.timer_event_stack i).f = none →
          s'.timer_event_stack i = s.timer_event_stack i) ∧
        s'.timer_event_count = s.timer_event_count ∧
        s'.timer_event_running = s.timer_event_running ∧
        s'.timer_next_event_position = s.timer_next_event_position ∧
        s'.hal.compare = s.hal.compare ∧
        s'.hal.interrupt_enabled = s.hal.interrupt_enabled) ∧
    (s.timer_event_count = 0 →
      timer_update_stack s = .ok { s with hal := { s.hal with counter := 0 } }) := by
  refine ⟨?_, fun h0 => update_stack_zero s h0⟩
  intro _ hinv
  refine ⟨renormalize s, update_stack_ok s hinv, rfl, ?_, ?_, renormalize_f s, ?_,
    rfl, rfl, rfl, rfl, rfl⟩
  · intro i hi
    simp [renormalize, hi, renorm_slot]
  · intro i hi hc h1 h2
    have hcnt : toInt32 (s.hal.counter : Int) = s.hal.counter :=
      toInt32_of_range _ (by omega) hc
    simp only [renormalize, hi, renorm_slot, ne_eq, not_false_eq_true, if_true, hcnt]
    exact toInt32_of_range _ h1 h2
  · intro i hi
    simp [renormalize, hi]

/-- Claim C4, witness: deadlines 100 and 50 with 40 ticks elapsed. -/
theorem timer_update_stack_renormalizes_witness :
    ∃ s', timer_update_stack two_pending = .ok s' ∧ s'.hal.counter = 0 ∧
        (∀ i, (two_pending.timer_event_stack i).f ≠ none →
          (s'.timer_event_stack i).next_event
            = toInt32 ((two_pending.timer_event_stack i).next_event
                - toInt32 two_pending.hal.counter)) ∧
        (∀ i, (two_pending.timer_event_stack i).f ≠ none →
          (two_pending.hal.counter : Int) ≤ 2147483647 →
          -2147483648 ≤ (two_pending.timer_event_stack i).next_event - two_pending.hal.counter →
          (two_pending.timer_event_stack i).next_event - two_pending.hal.counter ≤ 2147483647 →
          (s'.timer_event_stack i).next_event
            = (two_pending.timer_event_stack i).next_event - two_pending.hal.counter) ∧
        (∀ i, (s'.timer_event_stack i).f = (two_pending.timer_event_stack i).f) ∧
        (∀ i, (two_pending.timer_event_stack i).f = none →
          s'.timer_event_stack i = two_pending.timer_event_stack i) ∧
        s'.timer_event_count = two_pending.timer_event_count ∧
        s'.timer_event_running = two_pending.timer_event_running ∧
        s'.timer_next_event_position = two_pending.timer_next_event_position ∧
        s'.hal.compare = two_pending.hal.compare ∧
        s'.hal.interrupt_enabled = two_pending.hal.interrupt_enabled :=
  (timer_update_stack_renormalizes two_pending).1 (by decide) (by decide)

theorem occupied_count_le (s : State) : occupied_count s ≤ 20 := by
  unfold occupied_count
  exact List.countP_le_length _

theorem occupied_count_lt_of_free (s : State) (i : Fin 20)
    (h : (s.timer_event_stack i).f = none) : occupied_count s < 20 := by
  unfold occupied_count
  have hlen := List.length_eq_countP_add_countP
    (fun i => (s.timer_event_stack i).f.isSome) slots
  have hpos : 0 < slots.countP (fun a => decide ¬ (s.timer_event_stack a).f.isSome = true) := by
    rw [List.countP_pos_iff]
    exact ⟨i, mem_slots i, by simp [h]⟩
  have : slots.length = 20 := rfl
  omega

theorem toUInt8_of_lt (n : Nat) (h : n < 256) : toUInt8 (n : Int) = n := by
  unfold toUInt8; omega

/-- Claim C5. On a store with a free slot whose count matches the occupied
slots, with the counter reading `e`, `timer_add_event_in_stack` returns true;
the lowest-index free slot then holds the new event with its deadline
unmodified, every slot occupied before keeps its callback and has the
`int32_t` difference of its deadline and `e` (the mathematical difference
whenever representable), every other free slot is untouched, the count is one
higher and the counter is 0. -/
theorem timer_add_event_in_stack_inserts (new_event : timer_event) (s : State)
    (hinv : s.timer_event_count = occupied_count s)
    (hfree : ∃ i, (s.timer_event_stack i).f = none) :
    ∃ (i : Fin 20) (s' : State), timer_add_event_in_stack new_event s = .ok (true, s') ∧
      (s.timer_event_stack i).f = none ∧
      (∀ j, j < i → (s.timer_event_stack j).f ≠ none) ∧
      s'.timer_event_stack i = new_event ∧
      (∀ j, (s.timer_event_stack j).f ≠ none →
        (s'.timer_event_stack j).f = (s.timer_event_stack j).f ∧
        (s'.timer_event_stack j).next_event
          = toInt32 ((s.timer_event_stack j).next_event - toInt32 s.hal.counter)) ∧
      (∀ j, (s.timer_event_stack j).f ≠ none → (s.hal.counter : Int) ≤ 2147483647 →
        -2147483648 ≤ (s.timer_event_stack j).next_event - s.hal.counter →
        (s.timer_event_stack j).next_event - s.hal.counter ≤ 2147483647 →
        (s'.timer_event_stack j).next_event
          = (s.timer_event_stack j).next_event - s.hal.counter) ∧
      (∀ j, j ≠ i → (s.timer_event_stack j).f = none →
        s'.timer_event_stack j = s.timer_event_stack j) ∧
      s'.timer_event_count = s.timer_event_count + 1 ∧
      s'.hal.counter = 0 := by
  obtain ⟨i, hif, himin, hres⟩ := add_in_stack_free new_event s hfree
  rw [update_stack_ok s hinv] at hres
  have hlt := occupied_count_lt_of_free s i hif
  refine ⟨i, insert_at (renormalize s) i new_event, hres, hif, himin, ?_, ?_, ?_, ?_, ?_, rfl⟩
  · simp [insert_at, set_slot]
  · intro j hj
    have hji : j ≠ i := fun h => hj (h ▸ hif)
    simp [insert_at, set_slot, Function.update_noteq hji, renormalize, hj, renorm_slot]
  · intro j hj hc h1 h2
    have hji : j ≠ i := fun h => hj (h ▸ hif)
    have hcnt : toInt32 (s.hal.counter : Int) = s.hal.counter :=
      toInt32_of_range _ (by omega) hc
    simp only [insert_at, set_slot, Function.update_noteq hji, renormalize, hj, renorm_slot,
      ne_eq, not_false_eq_true, if_true, hcnt]
    exact toInt32_of_range _ h1 h2
  · intro j hji hj
    simp [insert_at, set_slot, Function.update_noteq hji, renormalize, hj]
  · simp only [insert_at, set_slot, renormalize]
    unfold toUInt8; omega

/-- Claim C5, witness: a third event admitted to the store with deadlines 100
and 50 and 40 ticks elapsed. -/
theorem timer_add_event_in_stack_inserts_witness :
    ∃ (i : Fin 20) (s' : State),
      timer_add_event_in_stack ⟨some 3, 30⟩ two_pending = .ok (true, s') ∧
      (two_pending.timer_event_stack i).f = none ∧
      (∀ j, j < i → (two_pending.timer_event_stack j).f ≠ none) ∧
      s'.timer_event_stack i = ⟨some 3, 30⟩ ∧
      (∀ j, (two_pending.timer_event_stack j).f ≠ none →
        (s'.timer_event_stack j).f = (two_pending.timer_event_stack j).f ∧
        (s'.timer_event_stack j).next_event
          = toInt32 ((two_pending.timer_event_stack j).next_event
              - toInt32 two_pending.hal.counter)) ∧
      (∀ j, (two_pending.timer_event_stack j).f ≠ none →
        (two_pending.hal.counter : Int) ≤ 2147483647 →
        -2147483648 ≤ (two_pending.timer_event_stack j).next_event - two_pending.hal.counter →
        (two_pending.timer_event_stack j).next_event - two_pending.hal.counter ≤ 2147483647 →
        (s'.timer_event_stack j).next_event
          = (two_pending.timer_event_stack j).next_event - two_pending.hal.counter) ∧
      (∀ j, j ≠ i → (two_pending.timer_event_stack j).f = none →
        s'.timer_event_stack j = two_pending.timer_event_stack j) ∧
      s'.timer_event_count = two_pending.timer_event_count + 1 ∧
      s'.hal.counter = 0 :=
  timer_add_event_in_stack_inserts ⟨some 3, 30⟩ two_pending (by decide) (by decide)
/-! ## The record of invocations only grows -/

theorem timer_add_event_succ (cbs : Callbacks) (n : Nat) (ev : timer_event) (w : Sys) :
    timer_add_event cbs (n + 1) ev w =
      match timer_add_event_in_stack ⟨ev.f, ev.next_event⟩ w.st with
      | .error e => .error (liftFault w.fired e)
      | .ok (false, s) => .ok (false, ⟨s, w.fired⟩)
      | .ok (true, s) =>
        if s.timer_event_running = false then
          match timer_configure_next_event cbs n ⟨s, w.fired⟩ with
          | .error e => .error e
          | .ok w => .ok (true, w)
        else .ok (true, ⟨s, w.fired⟩) := by
  simp only [timer_add_event]

theorem timer_completed_succ (cbs : Callbacks) (n : Nat) (w : Sys)
    (h : w.st.timer_next_event_position < 20) (c : Nat)
    (hc : (w.st.timer_event_stack ⟨w.st.timer_next_event_position, h⟩).f = some c) :
    timer_completed cbs (n + 1) w =
      match run_callback cbs n (cbs c (dispatch_state w.st ⟨w.st.timer_next_event_position, h⟩))
          ⟨dispatch_state w.st ⟨w.st.timer_next_event_position, h⟩,
            w.fired ++ [(c, dispatch_state w.st ⟨w.st.timer_next_event_position, h⟩)]⟩ with
      | .error e => .error e
      | .ok w1 =>
        if w1.st.timer_event_count > 0 then
          match timer_configure_next_event cbs n w1 with
          | .error e => .error e
          | .ok w2 => .ok (end_running w2)
        else .ok (end_running ⟨hal_timer_disable_interrupt w1.st, w1.fired⟩) := by
  simp only [timer_completed, h, dite_true, hc]

theorem timer_completed_null (cbs : Callbacks) (n : Nat) (w : Sys)
    (h : w.st.timer_next_event_position < 20)
    (hc : (w.st.timer_event_stack ⟨w.st.timer_next_event_position, h⟩).f = none) :
    timer_completed cbs (n + 1) w =
      .error (.undefined, ⟨dispatch_state w.st ⟨w.st.timer_next_event_position, h⟩, w.fired⟩) := by
  simp only [timer_completed, h, dite_true, hc]

theorem timer_completed_oob (cbs : Callbacks) (n : Nat) (w : Sys)
    (h : ¬ w.st.timer_next_event_position < 20) :
    timer_completed cbs (n + 1) w =
      .error (.undefined, ⟨{ w.st with timer_event_running := true }, w.fired⟩) := by
  simp only [timer_completed, h, dite_false]

theorem timer_configure_succ (cbs : Callbacks) (n : Nat) (w : Sys) (p : Fin 20) (s : State)
    (hg : timer_get_next_event w.st = .ok (p.val, s)) :
    timer_configure_next_event cbs (n + 1) w =
      if toUInt32 (toInt32 ((s.timer_event_stack p).next_event - 1))
          ≤ toUInt32 (hal_timer_getvalue s) then
        timer_completed cbs n ⟨{ s with timer_next_event_position := p.val }, w.fired⟩
      else
        .ok ⟨arm (toInt32 ((s.timer_event_stack p).next_event - 1))
          { s with timer_next_event_position := p.val }, w.fired⟩ := by
  simp only [timer_configure_next_event, hg, p.isLt, dite_true]
  rfl

theorem toUInt32_of_range (x : Int) (h0 : 0 ≤ x) (h1 : x ≤ 4294967295) :
    ((toUInt32 x : Nat) : Int) = x := by
  unfold toUInt32
  omega

theorem unsigned_test_signed (x : Int) (c : Nat) (h0 : 0 ≤ x) (h1 : x ≤ 2147483647)
    (hc : c < 4294967296) : toUInt32 x ≤ toUInt32 (c : Int) ↔ x ≤ (c : Int) := by
  unfold toUInt32
  omega

theorem unsigned_test_zero (x : Int) (h0 : -2147483648 ≤ x) (h1 : x ≤ 2147483647) :
    toUInt32 x ≤ toUInt32 ((0 : Nat) : Int) ↔ x = 0 := by
  unfold toUInt32
  omega

theorem unsigned_test_gt (x : Int) (c : Nat) (h1 : x ≤ 2147483647) (hgt : (c : Int) < x) :
    ¬ toUInt32 x ≤ toUInt32 (c : Int) := by
  unfold toUInt32
  omega

theorem timer_configure_signed (cbs : Callbacks) (n : Nat) (w : Sys) (p : Fin 20) (s : State)
    (hg : timer_get_next_event w.st = .ok (p.val, s))
    (h0 : 0 ≤ toInt32 ((s.timer_event_stack p).next_event - 1))
    (hc : hal_timer_getvalue s < 4294967296) :
    timer_configure_next_event cbs (n + 1) w =
      if toInt32 ((s.timer_event_stack p).next_event - 1) ≤ (hal_timer_getvalue s : Int) then
        timer_completed cbs n ⟨{ s with timer_next_event_position := p.val }, w.fired⟩
      else
        .ok ⟨arm (toInt32 ((s.timer_event_stack p).next_event - 1))
          { s with timer_next_event_position := p.val }, w.fired⟩ := by
  rw [timer_configure_succ cbs n w p s hg]
  have hiff := unsigned_test_signed (toInt32 ((s.timer_event_stack p).next_event - 1))
    (hal_timer_getvalue s) h0 (toInt32_range _).2 hc
  by_cases h : toInt32 ((s.timer_event_stack p).next_event - 1) ≤ (hal_timer_getvalue s : Int)
  · rw [if_pos h, if_pos (hiff.mpr h)]
  · rw [if_neg h, if_neg (fun h2 => h (hiff.mp h2))]

theorem fired_grows (cbs : Callbacks) : ∀ n : Nat,
    (∀ ev w, ∃ ext, (outcome_add (timer_add_event cbs n ev w)).fired = w.fired ++ ext) ∧
    (∀ evs w, ∃ ext, (outcome (run_callback cbs n evs w)).fired = w.fired ++ ext) ∧
    (∀ w, ∃ ext, (outcome (timer_completed cbs n w)).fired = w.fired ++ ext) ∧
    (∀ w, ∃ ext, (outcome (timer_configure_next_event cbs n w)).fired = w.fired ++ ext) := by
  intro n
  induction n with
  | zero =>
    refine ⟨?_, ?_, ?_, ?_⟩ <;> intros <;> exact ⟨[], by simp [timer_add_event, run_callback,
      timer_completed, timer_configure_next_event, outcome, outcome_add]⟩
  | succ n ih =>
    obtain ⟨ihA, ihR, ihC, ihG⟩ := ih
    refine ⟨?_, ?_, ?_, ?_⟩
    · intro ev w
      rw [timer_add_event_succ]
      cases h : timer_add_event_in_stack ⟨ev.f, ev.next_event⟩ w.st with
      | error e => exact ⟨[], by obtain ⟨e1, e2⟩ := e; simp [outcome_add, liftFault]⟩
      | ok r =>
        obtain ⟨b, s⟩ := r
        cases b with
        | false => exact ⟨[], by simp [outcome_add]⟩
        | true =>
          simp only
          split
          · obtain ⟨ext, hext⟩ := ihG ⟨s, w.fired⟩
            cases hc : timer_configure_next_event cbs n ⟨s, w.fired⟩ with
            | error e =>
              obtain ⟨e1, e2⟩ := e
              rw [hc] at hext
              exact ⟨ext, by simpa [outcome, outcome_add] using hext⟩
            | ok w2 =>
              rw [hc] at hext
              exact ⟨ext, by simpa [outcome, outcome_add] using hext⟩
          · exact ⟨[], by simp [outcome_add]⟩
    · intro evs w
      cases evs with
      | nil => exact ⟨[], by simp [run_callback, outcome]⟩
      | cons ev more =>
        simp only [run_callback]
        obtain ⟨ext, hext⟩ := ihA ev w
        cases ha : timer_add_event cbs n ev w with
        | error e =>
          obtain ⟨e1, e2⟩ := e
          rw [ha] at hext
          exact ⟨ext, by simpa [outcome, outcome_add] using hext⟩
        | ok r =>
          obtain ⟨b, w1⟩ := r
          rw [ha] at hext
          simp only [outcome_add] at hext
          obtain ⟨ext2, hext2⟩ := ihR more w1
          exact ⟨ext ++ ext2, by simp only; rw [hext2, hext, List.append_assoc]⟩
    · intro w
      by_cases hp : w.st.timer_next_event_position < 20
      · cases hc : (w.st.timer_event_stack ⟨w.st.timer_next_event_position, hp⟩).f with
        | none => rw [timer_completed_null cbs n w hp hc]; exact ⟨[], by simp [outcome]⟩
        | some c =>
          rw [timer_completed_succ cbs n w hp c hc]
          generalize dispatch_state w.st ⟨w.st.timer_next_event_position, hp⟩ = s1
          obtain ⟨ext, hext⟩ := ihR (cbs c s1) ⟨s1, w.fired ++ [(c, s1)]⟩
          cases hr : run_callback cbs n (cbs c s1) ⟨s1, w.fired ++ [(c, s1)]⟩ with
          | error e =>
            obtain ⟨e1, e2⟩ := e
            rw [hr] at hext
            exact ⟨[(c, s1)] ++ ext, by simpa [outcome] using hext⟩
          | ok w1 =>
            rw [hr] at hext
            simp only [outcome] at hext
            simp only
            split
            · obtain ⟨ext2, hext2⟩ := ihG w1
              cases hg : timer_configure_next_event cbs n w1 with
              | error e =>
                obtain ⟨e1, e2⟩ := e
                rw [hg] at hext2
                simp only [outcome] at hext2
                exact ⟨[(c, s1)] ++ ext ++ ext2, by simp [outcome, hext2, hext]⟩
              | ok w2 =>
                rw [hg] at hext2
                simp only [outcome] at hext2
                exact ⟨[(c, s1)] ++ ext ++ ext2, by simp [outcome, end_running, hext2, hext]⟩
            · exact ⟨[(c, s1)] ++ ext, by simp [outcome, end_running, hext]⟩
      · rw [timer_completed_oob cbs n w hp]; exact ⟨[], by simp [outcome]⟩
    · intro w
      simp only [timer_configure_next_event]
      cases h : timer_get_next_event w.st with
      | error e => exact ⟨[], by obtain ⟨e1, e2⟩ := e; simp [outcome, liftFault]⟩
      | ok r =>
        obtain ⟨p, s⟩ := r
        simp only
        split
        · split
          · exact ihC _
          · exact ⟨[], by simp [outcome]⟩
        · exact ⟨[], by simp [outcome]⟩
/-! ## Frame properties that hold on every store -/

theorem update_loop_frame (cur : Int) : ∀ (l : List (Fin 20)) (ec : Nat) (s s' : State),
    timer_update_stack_loop cur l ec s = .ok s' →
    s'.hal = s.hal ∧ s'.timer_event_count = s.timer_event_count ∧
    s'.timer_event_running = s.timer_event_running ∧
    s'.timer_next_event_position = s.timer_next_event_position ∧
    ∀ i, (s'.timer_event_stack i).f = (s.timer_event_stack i).f := by
  intro l
  induction l with
  | nil => intro ec s s' h; simp [timer_update_stack_loop] at h
  | cons a l ih =>
    intro ec s s' h
    unfold timer_update_stack_loop at h
    by_cases hocc : (s.timer_event_stack a).f = none
    · simp only [hocc, ne_eq, not_true_eq_false, if_false] at h
      exact ih ec s s' h
    · simp only [ne_eq, hocc, not_false_eq_true, if_true] at h
      have hf : ∀ i, ((set_slot s a ⟨(s.timer_event_stack a).f,
          toInt32 ((s.timer_event_stack a).next_event - cur)⟩).timer_event_stack i).f
          = (s.timer_event_stack i).f := by
        intro i
        by_cases hi : i = a
        · subst hi; simp [set_slot]
        · simp [set_slot, Function.update_noteq hi]
      split at h
      · injection h with h
        subst h
        exact ⟨rfl, rfl, rfl, rfl, hf⟩
      · obtain ⟨h1, h2, h3, h4, h5⟩ := ih _ _ s' h
        exact ⟨h1, h2, h3, h4, fun i => by rw [h5 i, hf i]⟩

theorem update_stack_frame (s s' : State) (h : timer_update_stack s = .ok s') :
    s'.hal.counter = 0 ∧ s'.hal.compare = s.hal.compare ∧
    s'.hal.interrupt_enabled = s.hal.interrupt_enabled ∧
    s'.timer_event_count = s.timer_event_count ∧
    s'.timer_event_running = s.timer_event_running ∧
    s'.timer_next_event_position = s.timer_next_event_position ∧
    ∀ i, (s'.timer_event_stack i).f = (s.timer_event_stack i).f := by
  unfold timer_update_stack at h
  split at h
  · injection h with h
    subst h
    exact ⟨rfl, rfl, rfl, rfl, rfl, rfl, fun _ => rfl⟩
  · obtain ⟨h1, h2, h3, h4, h5⟩ := update_loop_frame _ _ _ _ _ h
    refine ⟨by rw [h1]; rfl, by rw [h1]; rfl, by rw [h1]; rfl, h2, h3, h4, h5⟩

theorem get_next_loop_result (s : State) :
    ∀ (l : List (Fin 20)) (net : Int) (pos : Option Nat) (ec : Nat) (p : Nat),
    (∀ q, pos = some q → ∃ i : Fin 20, i.val = q ∧ (s.timer_event_stack i).f ≠ none) →
    timer_get_next_event_loop s l net pos ec = .ok p →
    ∃ i : Fin 20, i.val = p ∧ (s.timer_event_stack i).f ≠ none := by
  intro l
  induction l with
  | nil => intro net pos ec p _ h; simp [timer_get_next_event_loop] at h
  | cons a l ih =>
    intro net pos ec p hpos h
    unfold timer_get_next_event_loop at h
    by_cases hocc : (s.timer_event_stack a).f = none
    · simp only [hocc, ne_eq, not_true_eq_false, if_false] at h
      exact ih net pos ec p hpos h
    · simp only [ne_eq, hocc, not_false_eq_true, if_true] at h
      split at h
      · injection h with h
        exact ⟨a, h, hocc⟩
      · have hpos' : ∀ q, (if decide ((s.timer_event_stack a).next_event ≤ net) = true
            then some a.val else pos) = some q →
            ∃ i : Fin 20, i.val = q ∧ (s.timer_event_stack i).f ≠ none := by
          intro q hq
          split at hq
          · injection hq with hq; exact ⟨a, hq, hocc⟩
          · exact hpos q hq
        split at h
        · split at h
          · rename_i q hq
            injection h with h
            subst h
            exact hpos' _ hq
          · simp at h
        · exact ih _ _ _ p hpos' h

theorem get_next_frame (s s' : State) (p : Nat) (h : timer_get_next_event s = .ok (p, s')) :
    timer_update_stack s = .ok s' ∧
    ∃ i : Fin 20, i.val = p ∧ (s'.timer_event_stack i).f ≠ none := by
  unfold timer_get_next_event at h
  split at h
  · simp at h
  · cases hu : timer_update_stack s with
    | error e => simp [hu] at h
    | ok s1 =>
      simp only [hu] at h
      cases hl : timer_get_next_event_loop s1 slots 16777215 none 0 with
      | error e => simp [hl] at h
      | ok q =>
        simp only [hl] at h
        injection h with h
        injection h with h1 h2
        subst h1 h2
        exact ⟨rfl, get_next_loop_result s1 slots 16777215 none 0 q (by simp) hl⟩

theorem occ_pos_of_occupied (s : State) (i : Fin 20) (h : (s.timer_event_stack i).f ≠ none) :
    1 ≤ occupied_count s := by
  unfold occupied_count
  have : 0 < slots.countP (fun i => (s.timer_event_stack i).f.isSome) := by
    rw [List.countP_pos_iff]
    exact ⟨i, mem_slots i, by cases h' : (s.timer_event_stack i).f <;> simp_all⟩
  omega

theorem completed_fired (cbs : Callbacks) (n : Nat) (w : Sys) (p : Fin 20)
    (hp : w.st.timer_next_event_position = p.val) (c : Nat)
    (hc : (w.st.timer_event_stack p).f = some c) :
    ∃ rest, (outcome (timer_completed cbs (n + 1) w)).fired
      = w.fired ++ (c, dispatch_state w.st p) :: rest := by
  have hlt : w.st.timer_next_event_position < 20 := by rw [hp]; exact p.isLt
  have hpe : (⟨w.st.timer_next_event_position, hlt⟩ : Fin 20) = p := Fin.ext hp
  rw [timer_completed_succ cbs n w hlt c (by rw [hpe]; exact hc), hpe]
  generalize dispatch_state w.st p = s1
  obtain ⟨ext, hext⟩ := (fired_grows cbs n).2.1 (cbs c s1) ⟨s1, w.fired ++ [(c, s1)]⟩
  cases hr : run_callback cbs n (cbs c s1) ⟨s1, w.fired ++ [(c, s1)]⟩ with
  | error e =>
    obtain ⟨e1, e2⟩ := e
    rw [hr] at hext
    exact ⟨ext, by simpa [outcome] using hext⟩
  | ok w1 =>
    rw [hr] at hext
    simp only [outcome] at hext
    simp only
    split
    · obtain ⟨ext2, hext2⟩ := (fired_grows cbs n).2.2.2 w1
      cases hg : timer_configure_next_event cbs n w1 with
      | error e =>
        obtain ⟨e1, e2⟩ := e
        rw [hg] at hext2
        simp only [outcome] at hext2
        exact ⟨ext ++ ext2, by simp [outcome, hext2, hext]⟩
      | ok w2 =>
        rw [hg] at hext2
        simp only [outcome] at hext2
        exact ⟨ext ++ ext2, by simp [outcome, end_running, hext2, hext]⟩
    · exact ⟨ext, by simp [outcome, end_running, hext]⟩

/-! ## Arming and completion -/

theorem configure_fires_on_test (cbs : Callbacks) (n : Nat) (w : Sys)
    (p : Fin 20) (s1 : State) (hg : timer_get_next_event w.st = .ok (p.val, s1))
    (hel : toUInt32 (toInt32 ((s1.timer_event_stack p).next_event - 1))
      ≤ toUInt32 (hal_timer_getvalue s1)) :
    timer_configure_next_event cbs (n + 2) w
      = timer_completed cbs (n + 1) ⟨{ s1 with timer_next_event_position := p.val }, w.fired⟩ ∧
    ∃ c snap rest, (s1.timer_event_stack p).f = some c ∧
      (outcome (timer_configure_next_event cbs (n + 2) w)).fired = w.fired ++ (c, snap) :: rest ∧
      (snap.timer_event_stack p).f = none ∧
      snap.timer_next_event_position = p.val ∧
      snap.hal.compare = w.st.hal.compare ∧
      snap.hal.interrupt_enabled = w.st.hal.interrupt_enabled := by
  have heq := timer_configure_succ cbs (n + 1) w p s1 hg
  rw [if_pos hel] at heq
  refine ⟨heq, ?_⟩
  obtain ⟨hu, i, hi, hocc⟩ := get_next_frame _ _ _ hg
  have hip : i = p := Fin.ext hi
  subst hip
  obtain ⟨_, hcmp, hirq, _⟩ := update_stack_frame _ _ hu
  cases hc : (s1.timer_event_stack i).f with
  | none => exact absurd hc hocc
  | some c =>
    obtain ⟨rest, hrest⟩ := completed_fired cbs n
      ⟨{ s1 with timer_next_event_position := i.val }, w.fired⟩ i rfl c hc
    refine ⟨c, _, rest, rfl, by rw [heq]; exact hrest, ?_, rfl, ?_, ?_⟩
    · simp [dispatch_state, set_slot]
    · simpa [dispatch_state, set_slot] using hcmp
    · simpa [dispatch_state, set_slot] using hirq

/-- Claim C7. When the slot `p` chosen by `timer_get_next_event` has
`next_event - 1`, as computed in `int32_t`, above the counter value,
`timer_configure_next_event` returns with `timer_next_event_position = p`,
the compare register equal to that value (to `next_event - 1` itself for
every deadline above the `int32_t` minimum), the interrupt enabled, no
callback invoked, and every slot's callback and the count unchanged. -/
theorem timer_configure_next_event_arms (cbs : Callbacks) (n : Nat) (w : Sys)
    (p : Fin 20) (s1 : State) (hg : timer_get_next_event w.st = .ok (p.val, s1))
    (hgt : toInt32 ((s1.timer_event_stack p).next_event - 1) > (hal_timer_getvalue s1 : Int)) :
    ∃ s', timer_configure_next_event cbs (n + 1) w = .ok ⟨s', w.fired⟩ ∧
      s'.timer_next_event_position = p.val ∧
      (s'.hal.compare : Int) = toInt32 ((s1.timer_event_stack p).next_event - 1) ∧
      (-2147483648 < (s1.timer_event_stack p).next_event →
        (s1.timer_event_stack p).next_event ≤ 2147483647 →
        (s'.hal.compare : Int) = (s1.timer_event_stack p).next_event - 1) ∧
      s'.hal.interrupt_enabled = true ∧
      s'.timer_event_stack = s1.timer_event_stack ∧
      (∀ i, (s'.timer_event_stack i).f = (w.st.timer_event_stack i).f) ∧
      s'.timer_event_count = w.st.timer_event_count := by
  have heq := timer_configure_succ cbs n w p s1 hg
  rw [if_neg (unsigned_test_gt _ _ (toInt32_range _).2 hgt)] at heq
  obtain ⟨hu, _⟩ := get_next_frame _ _ _ hg
  obtain ⟨_, _, _, hcnt, _, _, hf⟩ := update_stack_frame _ _ hu
  have hpos : (0 : Int) ≤ (hal_timer_getvalue s1 : Int) := Int.ofNat_nonneg _
  have hcmp : ((toUInt32 (toInt32 ((s1.timer_event_stack p).next_event - 1)) : Nat) : Int)
      = toInt32 ((s1.timer_event_stack p).next_event - 1) := by
    have hr := toInt32_range ((s1.timer_event_stack p).next_event - 1)
    unfold toUInt32
    omega
  refine ⟨_, heq, rfl, ?_, ?_, rfl, rfl, hf, hcnt⟩
  · simpa [arm, hal_timer_enable_interrupt, hal_timer_setvalue, hal_timer_disable_interrupt]
      using hcmp
  · intro h1 h2
    have : toInt32 ((s1.timer_event_stack p).next_event - 1)
        = (s1.timer_event_stack p).next_event - 1 := toInt32_of_range _ (by omega) (by omega)
    show ((toUInt32 (toInt32 ((s1.timer_event_stack p).next_event - 1)) : Nat) : Int)
      = (s1.timer_event_stack p).next_event - 1
    rw [hcmp, this]

/-- Claim C8. With the count matching the occupied slots and slot
`p = timer_next_event_position` occupied by callback `c`, the next callback
`timer_completed` invokes is `c`, and it is entered in a state where slot `p`
has a NULL callback, the count is one less than before the call and
`timer_event_running` is true. -/
theorem timer_completed_frees_before_dispatch (cbs : Callbacks) (n : Nat) (w : Sys)
    (p : Fin 20) (c : Nat)
    (hinv : w.st.timer_event_count = occupied_count w.st)
    (hp : w.st.timer_next_event_position = p.val)
    (hc : (w.st.timer_event_stack p).f = some c) :
    ∃ snap rest,
      (outcome (timer_completed cbs (n + 1) w)).fired = w.fired ++ (c, snap) :: rest ∧
      (snap.timer_event_stack p).f = none ∧
      snap.timer_event_count + 1 = w.st.timer_event_count ∧
      snap.timer_event_running = true := by
  obtain ⟨rest, hrest⟩ := completed_fired cbs n w p hp c hc
  have h1 : 1 ≤ occupied_count w.st := occ_pos_of_occupied w.st p (by rw [hc]; simp)
  have h20 := occupied_count_le w.st
  refine ⟨dispatch_state w.st p, rest, hrest, ?_, ?_, ?_⟩
  · simp [dispatch_state, set_slot]
  · simp only [dispatch_state, set_slot, toUInt8]
    omega
  · simp [dispatch_state, set_slot]

/-- Claim C6, evaluated at a failing input. In `overdue_pending` the slot
chosen by `timer_get_next_event` is slot 1, with a renormalized deadline of
-10 ticks and the counter back at 0, so `next_event - 1 = -11` is below the
counter value. `timer_configure_next_event` converts -11 to `uint32_t` for the
test, finds 4294967285 above the counter, and arms: it returns with no
callback invoked, slot 1 still occupied and the compare register at
4294967285. -/
theorem timer_configure_next_event_overdue_arms :
    timer_get_next_event overdue_pending = .ok (1, selected overdue_pending) ∧
    ((selected overdue_pending).timer_event_stack 1).next_event = -10 ∧
    hal_timer_getvalue (selected overdue_pending) = 0 ∧
    fault_of (timer_configure_next_event no_callbacks 3 ⟨overdue_pending, []⟩) = none ∧
    (outcome (timer_configure_next_event no_callbacks 3 ⟨overdue_pending, []⟩)).fired.length
      = 0 ∧
    ((outcome (timer_configure_next_event no_callbacks 3
      ⟨overdue_pending, []⟩)).st.timer_event_stack 1).f = some 2 ∧
    (outcome (timer_configure_next_event no_callbacks 3
      ⟨overdue_pending, []⟩)).st.hal.compare = 4294967285 ∧
    (outcome (timer_configure_next_event no_callbacks 3
      ⟨overdue_pending, []⟩)).st.hal.interrupt_enabled = true := by
  refine ⟨rfl, by decide, by decide, by decide, by decide, by decide, by decide, by decide⟩

/-- Claim C7, witness: deadlines 100 and 50 with 40 ticks elapsed; the second
event is armed at compare value 9. -/
theorem timer_configure_next_event_arms_witness :
    ∃ s', timer_configure_next_event no_callbacks (0 + 1) ⟨two_pending, []⟩ = .ok ⟨s', []⟩ ∧
      s'.timer_next_event_position = (1 : Fin 20).val ∧
      (s'.hal.compare : Int)
        = toInt32 (((selected two_pending).timer_event_stack 1).next_event - 1) ∧
      (-2147483648 < ((selected two_pending).timer_event_stack 1).next_event →
        ((selected two_pending).timer_event_stack 1).next_event ≤ 2147483647 →
        (s'.hal.compare : Int) = ((selected two_pending).timer_event_stack 1).next_event - 1) ∧
      s'.hal.interrupt_enabled = true ∧
      s'.timer_event_stack = (selected two_pending).timer_event_stack ∧
      (∀ i, (s'.timer_event_stack i).f = (two_pending.timer_event_stack i).f) ∧
      s'.timer_event_count = two_pending.timer_event_count :=
  timer_configure_next_event_arms no_callbacks 0 ⟨two_pending, []⟩ 1 (selected two_pending)
    rfl (by decide)

/-- Claim C8, witness: the armed second event of the two-event store. -/
theorem timer_completed_frees_before_dispatch_witness :
    ∃ snap rest,
      (outcome (timer_completed no_callbacks (0 + 1) ⟨two_pending, []⟩)).fired
        = [] ++ (2, snap) :: rest ∧
      (snap.timer_event_stack 1).f = none ∧
      snap.timer_event_count + 1 = two_pending.timer_event_count ∧
      snap.timer_event_running = true :=
  timer_completed_frees_before_dispatch no_callbacks 0 ⟨two_pending, []⟩ 1 2
    (by decide) rfl rfl
/-! ## The capacity invariant -/

theorem countP_update_mem (f : Fin 20 → timer_event) (i : Fin 20) (e : timer_event) :
    ∀ l : List (Fin 20), l.Nodup → i ∈ l →
    l.countP (fun j => (Function.update f i e j).f.isSome) + (if (f i).f.isSome then 1 else 0)
      = l.countP (fun j => (f j).f.isSome) + (if e.f.isSome then 1 else 0) := by
  intro l
  induction l with
  | nil => intro _ h; simp at h
  | cons a l ih =>
    intro hnd hi
    have hal : a ∉ l := (List.nodup_cons.mp hnd).1
    have hl : l.Nodup := (List.nodup_cons.mp hnd).2
    by_cases ha : a = i
    · subst ha
      have hrest : l.countP (fun j => (Function.update f a e j).f.isSome)
          = l.countP (fun j => (f j).f.isSome) := by
        apply occ_count_congr
        intro j hj
        have : j ≠ a := fun h => hal (h ▸ hj)
        rw [Function.update_noteq this]
      simp only [List.countP_cons, Function.update_same, hrest]
      omega
    · have hil : i ∈ l := by
        rcases List.mem_cons.mp hi with h | h
        · exact absurd h.symm ha
        · exact h
      have := ih hl hil
      simp only [List.countP_cons, Function.update_noteq ha]
      omega

theorem occ_set_slot (s : State) (i : Fin 20) (e : timer_event) :
    occupied_count (set_slot s i e) + (if (s.timer_event_stack i).f.isSome then 1 else 0)
      = occupied_count s + (if e.f.isSome then 1 else 0) :=
  countP_update_mem s.timer_event_stack i e slots slots_nodup (mem_slots i)

theorem occ_insert_at (s : State) (i : Fin 20) (e : timer_event)
    (hfree : (s.timer_event_stack i).f = none) :
    occupied_count (insert_at s i e) = occupied_count s + (if e.f.isSome then 1 else 0) := by
  have h := occ_set_slot s i e
  simp only [hfree, Option.isSome_none, Bool.false_eq_true, if_false, Nat.add_zero] at h
  exact h

theorem occ_dispatch (s : State) (p : Fin 20) (c : Nat)
    (hc : (s.timer_event_stack p).f = some c) :
    occupied_count (dispatch_state s p) + 1 = occupied_count s := by
  have h := occ_set_slot { s with timer_event_running := true } p
    ⟨none, (s.timer_event_stack p).next_event⟩
  simp only [hc, Option.isSome_some, if_true, Option.isSome_none, Bool.false_eq_true,
    if_false, Nat.add_zero] at h
  exact h

theorem dispatch_count (s : State) (p : Fin 20) :
    (dispatch_state s p).timer_event_count = toUInt8 ((s.timer_event_count : Int) - 1) := rfl

theorem add_in_stack_inv (ev : timer_event) (s s' : State) (b : Bool)
    (hinv : count_invariant s) (h : timer_add_event_in_stack ev s = .ok (b, s')) :
    (count_invariant s' ∨ overcounted s') ∧ s'.timer_event_running = s.timer_event_running ∧
    (b = false → s' = s) := by
  by_cases hfull : ∀ i, (s.timer_event_stack i).f ≠ none
  · rw [add_in_stack_full ev s hfull] at h
    injection h with h
    injection h with h1 h2
    subst h1 h2
    exact ⟨Or.inl hinv, rfl, fun _ => rfl⟩
  · have hex : ∃ i, (s.timer_event_stack i).f = none := by
      by_contra hne
      exact hfull (fun i hi => hne ⟨i, hi⟩)
    obtain ⟨i, hif, _, hres⟩ := add_in_stack_free ev s hex
    rw [update_stack_ok s hinv] at hres
    rw [hres] at h
    injection h with h
    injection h with h1 h2
    subst h1 h2
    have hlt := occupied_count_lt_of_free s i hif
    have hif' : ((renormalize s).timer_event_stack i).f = none := by
      rw [renormalize_f]; exact hif
    have hocc := occ_insert_at (renormalize s) i ev hif'
    rw [renormalize_occ] at hocc
    have hcnt : (insert_at (renormalize s) i ev).timer_event_count = s.timer_event_count + 1 := by
      unfold count_invariant at hinv
      simp only [insert_at, set_slot, renormalize, toUInt8]
      omega
    unfold count_invariant at hinv
    refine ⟨?_, rfl, fun hb => by simp at hb⟩
    by_cases hf : ev.f.isSome
    · left
      unfold count_invariant
      rw [hcnt, hocc, hinv]; simp [hf]
    · right
      unfold overcounted
      rw [hcnt, hocc]
      simp only [hf, Bool.false_eq_true, if_false]
      omega

theorem add_in_stack_overcounted (ev : timer_event) (s s' : State) (b : Bool)
    (hd : overcounted s) (h : timer_add_event_in_stack ev s = .ok (b, s')) :
    s' = s ∧ b = false := by
  by_cases hfull : ∀ i, (s.timer_event_stack i).f ≠ none
  · rw [add_in_stack_full ev s hfull] at h
    injection h with h
    injection h with h1 h2
    exact ⟨h2.symm, h1.symm⟩
  · have hex : ∃ i, (s.timer_event_stack i).f = none := by
      by_contra hne
      exact hfull (fun i hi => hne ⟨i, hi⟩)
    obtain ⟨i, _, _, hres⟩ := add_in_stack_free ev s hex
    obtain ⟨s2, hs2⟩ := update_stack_trap s hd.1
    rw [hs2] at hres
    rw [hres] at h
    simp at h

theorem get_next_inv (s s' : State) (p : Nat)
    (hj : count_invariant s ∨ overcounted s) (h : timer_get_next_event s = .ok (p, s')) :
    count_invariant s ∧ s' = renormalize s ∧ p < 20 := by
  obtain ⟨hu, i, hi, _⟩ := get_next_frame s s' p h
  rcases hj with hinv | hd
  · rw [update_stack_ok s hinv] at hu
    injection hu with hu
    exact ⟨hinv, hu.symm, by rw [← hi]; exact i.isLt⟩
  · obtain ⟨s2, hs2⟩ := update_stack_trap s hd.1
    rw [hs2] at hu
    simp at hu

theorem dispatch_inv (s : State) (p : Fin 20) (c : Nat)
    (hc : (s.timer_event_stack p).f = some c)
    (hj : count_invariant s ∨ overcounted s) :
    count_invariant (dispatch_state s p) ∨ overcounted (dispatch_state s p) := by
  have hocc := occ_dispatch s p c hc
  have h20 := occupied_count_le s
  rcases hj with hinv | hd
  · left
    unfold count_invariant at *
    rw [dispatch_count, toUInt8]
    omega
  · right
    unfold overcounted at *
    rw [dispatch_count, toUInt8]
    omega

theorem invariant_step (cbs : Callbacks) : ∀ n : Nat,
    (∀ ev w b w', (count_invariant w.st ∨ overcounted w.st) →
      timer_add_event cbs n ev w = .ok (b, w') →
      (count_invariant w'.st ∨ overcounted w'.st) ∧
      (count_invariant w.st → w.st.timer_event_running = false →
        count_invariant w'.st ∧ w'.st.timer_event_running = false)) ∧
    (∀ evs w w', (count_invariant w.st ∨ overcounted w.st) →
      run_callback cbs n evs w = .ok w' → (count_invariant w'.st ∨ overcounted w'.st)) ∧
    (∀ w w', (count_invariant w.st ∨ overcounted w.st) →
      timer_completed cbs n w = .ok w' →
      count_invariant w'.st ∧ w'.st.timer_event_running = false) ∧
    (∀ w w', (count_invariant w.st ∨ overcounted w.st) →
      timer_configure_next_event cbs n w = .ok w' →
      count_invariant w'.st ∧
      (w'.st.timer_event_running = false ∨
        w'.st.timer_event_running = w.st.timer_event_running)) := by
  intro n
  induction n with
  | zero =>
    refine ⟨?_, ?_, ?_, ?_⟩ <;> intros <;>
      simp_all [timer_add_event, run_callback, timer_completed, timer_configure_next_event]
  | succ n ih =>
    obtain ⟨ihA, ihR, ihC, ihG⟩ := ih
    refine ⟨?_, ?_, ?_, ?_⟩
    · intro ev w b w' hj h
      rw [timer_add_event_succ] at h
      cases hs : timer_add_event_in_stack ⟨ev.f, ev.next_event⟩ w.st with
      | error e => simp [hs] at h
      | ok r =>
        obtain ⟨b1, s⟩ := r
        rcases hj with hinv | hd
        · obtain ⟨hjs, hrun, hsame⟩ := add_in_stack_inv _ _ _ _ hinv hs
          cases b1 with
          | false =>
            simp only [hs] at h
            injection h with h
            injection h with h1 h2
            subst h2
            have := hsame rfl
            subst this
            exact ⟨Or.inl hinv, fun _ hr => ⟨hinv, hr⟩⟩
          | true =>
            simp only [hs] at h
            by_cases hr : s.timer_event_running = false
            · simp only [hr, if_true] at h
              cases hg : timer_configure_next_event cbs n ⟨s, w.fired⟩ with
              | error e => simp [hg] at h
              | ok w2 =>
                simp only [hg] at h
                injection h with h
                injection h with h1 h2
                subst h2
                obtain ⟨hi2, hr2⟩ := ihG ⟨s, w.fired⟩ w2 hjs hg
                refine ⟨Or.inl hi2, fun _ _ => ⟨hi2, ?_⟩⟩
                rcases hr2 with hr2 | hr2
                · exact hr2
                · rw [hr2]; exact hr
            · simp only [hr, if_false] at h
              injection h with h
              injection h with h1 h2
              subst h2
              refine ⟨hjs, fun _ hrw => ?_⟩
              rw [hrun] at hr
              exact absurd hrw hr
        · obtain ⟨hsame, hb⟩ := add_in_stack_overcounted _ _ _ _ hd hs
          subst hsame hb
          simp only [hs] at h
          injection h with h
          injection h with h1 h2
          subst h2
          refine ⟨Or.inr hd, fun hinv _ => ?_⟩
          unfold count_invariant at hinv
          unfold overcounted at hd
          omega
    · intro evs w w' hj h
      cases evs with
      | nil =>
        simp only [run_callback] at h
        injection h with h
        subst h
        exact hj
      | cons ev more =>
        simp only [run_callback] at h
        cases ha : timer_add_event cbs n ev w with
        | error e => simp [ha] at h
        | ok r =>
          obtain ⟨b, w1⟩ := r
          simp only [ha] at h
          exact ihR more w1 w' (ihA ev w b w1 hj ha).1 h
    · intro w w' hj h
      by_cases hp : w.st.timer_next_event_position < 20
      · cases hc : (w.st.timer_event_stack ⟨w.st.timer_next_event_position, hp⟩).f with
        | none => rw [timer_completed_null cbs n w hp hc] at h; simp at h
        | some c =>
          rw [timer_completed_succ cbs n w hp c hc] at h
          have hj1 := dispatch_inv w.st ⟨w.st.timer_next_event_position, hp⟩ c hc hj
          revert h
          generalize dispatch_state w.st ⟨w.st.timer_next_event_position, hp⟩ = s1 at hj1 ⊢
          intro h
          cases hr : run_callback cbs n (cbs c s1) ⟨s1, w.fired ++ [(c, s1)]⟩ with
          | error e => simp [hr] at h
          | ok w1 =>
            simp only [hr] at h
            have hj2 := ihR _ _ w1 hj1 hr
            by_cases hcnt : w1.st.timer_event_count > 0
            · simp only [hcnt, if_true] at h
              cases hg : timer_configure_next_event cbs n w1 with
              | error e => simp [hg] at h
              | ok w2 =>
                simp only [hg] at h
                injection h with h
                subst h
                exact ⟨(ihG w1 w2 hj2 hg).1, rfl⟩
            · simp only [hcnt, if_false] at h
              injection h with h
              subst h
              refine ⟨?_, rfl⟩
              rcases hj2 with hi | hd
              · exact hi
              · unfold overcounted at hd; omega
      · rw [timer_completed_oob cbs n w hp] at h; simp at h
    · intro w w' hj h
      cases hg : timer_get_next_event w.st with
      | error e => simp [timer_configure_next_event, hg] at h
      | ok r =>
        obtain ⟨p, s⟩ := r
        obtain ⟨hinv, hs, hp⟩ := get_next_inv _ _ _ hj hg
        rw [timer_configure_succ cbs n w ⟨p, hp⟩ s hg] at h
        have hinvs : count_invariant s := by rw [hs]; exact renormalize_inv _ hinv
        split at h
        · obtain ⟨h1, h2⟩ := ihC _ w' (Or.inl hinvs) h
          exact ⟨h1, Or.inl h2⟩
        · injection h with h
          subst h
          refine ⟨hinvs, Or.inr ?_⟩
          rw [hs]; rfl

theorem timer_init_inv (hal_timer_init : Hal → Hal) (s : State) :
    count_invariant (timer_init hal_timer_init s) ∧
    (timer_init hal_timer_init s).timer_event_running = false := by
  refine ⟨?_, rfl⟩
  unfold count_invariant occupied_count
  have : slots.countP (fun i => ((timer_init hal_timer_init s).timer_event_stack i).f.isSome)
      = 0 := by
    rw [List.countP_eq_zero]
    intro i _
    simp [timer_init]
  rw [this]
  rfl

theorem reachable_inv (cbs : Callbacks) (hal_timer_init : Hal → Hal) (w : Sys)
    (h : Reachable cbs hal_timer_init w) :
    count_invariant w.st ∧ w.st.timer_event_running = false := by
  induction h with
  | init s => exact timer_init_inv hal_timer_init s
  | add_event w w' n ev b _ hstep ih =>
    exact ((invariant_step cbs n).1 ev w b w' (Or.inl ih.1) hstep).2 ih.1 ih.2
  | completed w w' n _ hstep ih =>
    exact (invariant_step cbs n).2.2.1 w w' (Or.inl ih.1) hstep
  | elapse w c _ ih => exact ih

theorem renormalize_same (s : State) (h0 : s.hal.counter = 0)
    (hr : ∀ j, occ s j → -2147483648 ≤ dl s j ∧ dl s j ≤ 2147483647) :
    renormalize s = s := by
  apply State.ext
  · funext j
    simp only [renormalize]
    by_cases hj : (s.timer_event_stack j).f = none
    · simp [hj]
    · have := hr j hj
      simp only [ne_eq, hj, not_false_eq_true, if_true, renorm_slot, h0]
      have h1 : toInt32 ((0 : Nat) : Int) = 0 := by decide
      rw [h1, Int.sub_zero, toInt32_of_range _ this.1 this.2]
  · rfl
  · rfl
  · rfl
  · simp only [renormalize]
    cases hh : s.hal with
    | mk c cmp irq => rw [hh] at h0; simp at h0; subst h0; rfl

theorem first_free_unique (s : State) (i k : Fin 20)
    (hi : (s.timer_event_stack i).f = none) (hil : ∀ j, j < i → (s.timer_event_stack j).f ≠ none)
    (hk : (s.timer_event_stack k).f = none) (hkl : ∀ j, j < k → (s.timer_event_stack j).f ≠ none) :
    k = i := by
  rcases lt_trichotomy k i with h | h | h
  · exact absurd hk (hil k h)
  · exact h
  · exact absurd hi (hkl i h)

theorem insert_at_stack (s : State) (i : Fin 20) (ev : timer_event) (j : Fin 20) :
    (insert_at s i ev).timer_event_stack j = if j = i then ev else s.timer_event_stack j := by
  simp only [insert_at, set_slot, Function.update_apply]

theorem insert_at_inv (s : State) (i : Fin 20) (c : Nat) (d : Int)
    (hinv : count_invariant s) (hfree : (s.timer_event_stack i).f = none) :
    count_invariant (insert_at s i ⟨some c, d⟩) ∧
    (insert_at s i ⟨some c, d⟩).timer_event_count = s.timer_event_count + 1 := by
  have hlt := occupied_count_lt_of_free s i hfree
  have hocc := occ_insert_at s i ⟨some c, d⟩ hfree
  unfold count_invariant at *
  have hcnt : (insert_at s i ⟨some c, d⟩).timer_event_count = s.timer_event_count + 1 := by
    simp only [insert_at, set_slot, toUInt8]
    omega
  refine ⟨?_, hcnt⟩
  rw [hcnt, hocc, hinv]; simp

/-- A top-level admission into a consistent store whose pending deadlines,
old and new, are at least two ticks after renormalization: the event goes to
the first free slot and a slot of minimal deadline is armed. -/
theorem add_event_arms_near (cbs : Callbacks) (n : Nat) (w : Sys) (c : Nat) (d : Int)
    (hinv : count_invariant w.st) (hrun : w.st.timer_event_running = false)
    (i : Fin 20) (hif : (w.st.timer_event_stack i).f = none)
    (himin : ∀ j, j < i → (w.st.timer_event_stack j).f ≠ none)
    (hd : 2 ≤ d ∧ d ≤ 2147483647)
    (hnear : d ≤ 16777215 ∨ ∃ j, occ w.st j ∧ dl (renormalize w.st) j ≤ 16777215)
    (hpend : ∀ j, occ w.st j → 2 ≤ dl (renormalize w.st) j) :
    ∃ p : Fin 20,
      timer_add_event cbs (n + 2) ⟨some c, d⟩ w
        = .ok (true, ⟨arm (dl (insert_at (renormalize w.st) i ⟨some c, d⟩) p - 1)
            { insert_at (renormalize w.st) i ⟨some c, d⟩ with
              timer_next_event_position := p.val }, w.fired⟩) ∧
      occ (insert_at (renormalize w.st) i ⟨some c, d⟩) p ∧
      ∀ j, occ (insert_at (renormalize w.st) i ⟨some c, d⟩) j →
        dl (insert_at (renormalize w.st) i ⟨some c, d⟩) p
          ≤ dl (insert_at (renormalize w.st) i ⟨some c, d⟩) j := by
  obtain ⟨k, hkf, hkmin, hres⟩ := add_in_stack_free ⟨some c, d⟩ w.st ⟨i, hif⟩
  have hki := first_free_unique w.st i k hif himin hkf hkmin
  subst hki
  rw [update_stack_ok w.st hinv] at hres
  replace hres : timer_add_event_in_stack ⟨some c, d⟩ w.st
      = .ok (true, insert_at (renormalize w.st) k ⟨some c, d⟩) := hres
  generalize hs1 : insert_at (renormalize w.st) k ⟨some c, d⟩ = s1 at hres ⊢
  have hkf' : ((renormalize w.st).timer_event_stack k).f = none := by
    rw [renormalize_f]; exact hkf
  obtain ⟨hinv1, hcnt1⟩ := insert_at_inv (renormalize w.st) k c d (renormalize_inv _ hinv) hkf'
  rw [hs1] at hinv1 hcnt1
  have hstack : ∀ j, s1.timer_event_stack j
      = if j = k then ⟨some c, d⟩ else (renormalize w.st).timer_event_stack j := by
    intro j; rw [← hs1]; exact insert_at_stack _ _ _ _
  have hge2 : ∀ j, occ s1 j → 2 ≤ dl s1 j := by
    intro j hj
    simp only [occ, dl, hstack j] at hj ⊢
    by_cases hjk : j = k
    · simp only [hjk, if_true]; exact hd.1
    · simp only [hjk, if_false] at hj ⊢
      rw [renormalize_f] at hj
      exact hpend j hj
  have hrange : ∀ j, occ s1 j → -2147483648 ≤ dl s1 j ∧ dl s1 j ≤ 2147483647 := by
    intro j hj
    simp only [occ, dl, hstack j] at hj ⊢
    by_cases hjk : j = k
    · simp only [hjk, if_true]; omega
    · simp only [hjk, if_false] at hj ⊢
      rw [renormalize_f] at hj
      simp only [renormalize, ne_eq, hj, not_false_eq_true, if_true, renorm_slot]
      exact toInt32_range _
  have hc0 : s1.hal.counter = 0 := by rw [← hs1]; rfl
  have hsame := renormalize_same s1 hc0 hrange
  have hrun1 : s1.timer_event_running = false := by rw [← hs1]; exact hrun
  have hkocc : occ s1 k := by simp [occ, hstack k]
  have hkd : dl s1 k = d := by simp [dl, hstack k]
  have hnear1 : ∃ j, ((renormalize s1).timer_event_stack j).f ≠ none ∧
      ((renormalize s1).timer_event_stack j).next_event ≤ 16777215 := by
    rw [hsame]
    rcases hnear with hle | ⟨j, hj, hle⟩
    · exact ⟨k, hkocc, by show dl s1 k ≤ _; rw [hkd]; exact hle⟩
    · have hjk : j ≠ k := by
        intro hjk
        apply hj
        rw [hjk]; exact hkf
      refine ⟨j, ?_, ?_⟩
      · rw [hstack j, if_neg hjk, renormalize_f]; exact hj
      · rw [hstack j, if_neg hjk]; exact hle
  obtain ⟨p, hg, hpo, hpmin⟩ := get_next_spec s1 hinv1 (by omega) (Or.inr hnear1)
  rw [hsame] at hg hpo hpmin
  refine ⟨p, ?_, hpo, hpmin⟩
  rw [timer_add_event_succ, hres]
  dsimp only
  have h2 : 2 ≤ (s1.timer_event_stack p).next_event := hge2 p hpo
  have hr : -2147483648 ≤ (s1.timer_event_stack p).next_event ∧
      (s1.timer_event_stack p).next_event ≤ 2147483647 := hrange p hpo
  have het : toInt32 ((s1.timer_event_stack p).next_event - 1)
      = (s1.timer_event_stack p).next_event - 1 :=
    toInt32_of_range _ (by omega) (by omega)
  rw [if_pos hrun1, timer_configure_signed cbs n ⟨s1, w.fired⟩ p s1 hg
    (by rw [het]; omega) (by show s1.hal.counter < 4294967296; rw [hc0]; decide)]
  have hnot : ¬ (toInt32 ((s1.timer_event_stack p).next_event - 1)
      ≤ ((hal_timer_getvalue s1 : Nat) : Int)) := by
    rw [het]
    simp only [hal_timer_getvalue, hc0]
    omega
  rw [if_neg hnot, het]

theorem add_event_arms (cbs : Callbacks) (n : Nat) (w : Sys) (c : Nat) (d : Int)
    (hinv : count_invariant w.st) (hrun : w.st.timer_event_running = false)
    (i : Fin 20) (hif : (w.st.timer_event_stack i).f = none)
    (himin : ∀ j, j < i → (w.st.timer_event_stack j).f ≠ none)
    (hd : 2 ≤ d ∧ d ≤ 16777215)
    (hpend : ∀ j, occ w.st j → 2 ≤ dl (renormalize w.st) j) :
    ∃ p : Fin 20,
      timer_add_event cbs (n + 2) ⟨some c, d⟩ w
        = .ok (true, ⟨arm (dl (insert_at (renormalize w.st) i ⟨some c, d⟩) p - 1)
            { insert_at (renormalize w.st) i ⟨some c, d⟩ with
              timer_next_event_position := p.val }, w.fired⟩) ∧
      occ (insert_at (renormalize w.st) i ⟨some c, d⟩) p ∧
      ∀ j, occ (insert_at (renormalize w.st) i ⟨some c, d⟩) j →
        dl (insert_at (renormalize w.st) i ⟨some c, d⟩) p
          ≤ dl (insert_at (renormalize w.st) i ⟨some c, d⟩) j :=
  add_event_arms_near cbs n w c d hinv hrun i hif himin ⟨hd.1, by omega⟩ (Or.inl hd.2) hpend

theorem timer_init_free (hal_timer_init : Hal → Hal) (s : State) (j : Fin 20) :
    ((timer_init hal_timer_init s).timer_event_stack j).f = none := rfl

theorem count_invariant_congr (s s' : State)
    (hs : s'.timer_event_stack = s.timer_event_stack)
    (hc : s'.timer_event_count = s.timer_event_count) (h : count_invariant s) :
    count_invariant s' := by
  unfold count_invariant occupied_count at *
  rw [hc, hs]; exact h

/-- Claim C10. Renormalization across admissions: from a freshly initialised
scheduler with the counter at 0, after admitting a deadline `d1`, letting `t`
ticks elapse and admitting `d2` (with `1 < d2`, `t < d1 - 1`, all at most
0xFFFFFF; the counter value at initialisation is immaterial, the first
admission resets it), both admissions return true, the first event's deadline is
`d1 - t`, the second's is `d2`, the counter is 0, and the armed slot is one
holding the smaller of the two deadlines, with the compare register at that
deadline minus one and the interrupt enabled. -/
theorem renormalization_across_admissions (cbs : Callbacks) (hal_timer_init : Hal → Hal)
    (s : State) (c1 c2 d1 d2 t n m : Nat)
    (hd2 : 1 < d2) (ht : t < d1 - 1) (hb1 : d1 ≤ 16777215) (hb2 : d2 ≤ 16777215) :
    ∃ w1 w2 : Sys,
      timer_add_event cbs (n + 2) ⟨some c1, d1⟩ ⟨timer_init hal_timer_init s, []⟩
        = .ok (true, w1) ∧
      timer_add_event cbs (m + 2) ⟨some c2, d2⟩ (advance t w1) = .ok (true, w2) ∧
      w2.st.timer_event_stack 0 = ⟨some c1, (d1 : Int) - t⟩ ∧
      w2.st.timer_event_stack 1 = ⟨some c2, d2⟩ ∧
      w2.st.hal.counter = 0 ∧
      w2.st.timer_event_count = 2 ∧
      w2.fired = [] ∧
      w2.st.hal.interrupt_enabled = true ∧
      ∃ p : Fin 20, w2.st.timer_next_event_position = p.val ∧
        (p = 0 ∨ p = 1) ∧
        dl w2.st p = min ((d1 : Int) - t) d2 ∧
        (w2.st.hal.compare : Int) = min ((d1 : Int) - t) d2 - 1 ∧
        ((d1 : Int) - t < d2 → p = 0) ∧ ((d2 : Int) < (d1 : Int) - t → p = 1) := by
  have hinit := timer_init_inv hal_timer_init s
  generalize hw0 : timer_init hal_timer_init s = s0 at hinit
  have hfree0 : ∀ j, (s0.timer_event_stack j).f = none := by
    intro j; rw [← hw0]; rfl
  have hcnt0 : s0.timer_event_count = 0 := by rw [← hw0]; rfl
  -- first admission
  obtain ⟨p1, hadd1, _, _⟩ := add_event_arms cbs n ⟨s0, []⟩ c1 d1 hinit.1 hinit.2 0
    (hfree0 0) (fun j hj => absurd hj (Fin.not_lt_zero j)) ⟨by omega, by omega⟩
    (fun j hj => absurd (hfree0 j) hj)
  generalize hs1 : insert_at (renormalize s0) 0 ⟨some c1, (d1 : Int)⟩ = s1 at hadd1
  have hstack1 : ∀ j, s1.timer_event_stack j
      = if j = 0 then ⟨some c1, (d1 : Int)⟩ else s0.timer_event_stack j := by
    intro j
    rw [← hs1, insert_at_stack]
    by_cases hj : j = 0
    · simp [hj]
    · simp [hj, renormalize, hfree0 j]
  have hinv1 : count_invariant s1 ∧ s1.timer_event_count = 1 := by
    have := insert_at_inv (renormalize s0) 0 c1 d1 (renormalize_inv _ hinit.1)
      (by rw [renormalize_f]; exact hfree0 0)
    rw [hs1] at this
    refine ⟨this.1, ?_⟩
    rw [this.2, renormalize_count, hcnt0]
  have hrun1 : s1.timer_event_running = false := by rw [← hs1]; exact hinit.2
  -- the state after the first admission, with `t` ticks elapsed
  generalize hw1 : (⟨arm (dl s1 p1 - 1) { s1 with timer_next_event_position := p1.val },
    ([] : List (Nat × State))⟩ : Sys) = w1 at hadd1
  have hst2 : (advance t w1).st.timer_event_stack = s1.timer_event_stack := by
    rw [← hw1]; rfl
  have hcnt2 : (advance t w1).st.timer_event_count = s1.timer_event_count := by
    rw [← hw1]; rfl
  have hrun2 : (advance t w1).st.timer_event_running = false := by
    rw [← hw1]; exact hrun1
  have hctr2 : (advance t w1).st.hal.counter = t := by
    rw [← hw1, ← hs1]
    simp [advance, arm, hal_timer_enable_interrupt, hal_timer_setvalue,
      hal_timer_disable_interrupt, insert_at, set_slot, renormalize]
  have hfired2 : (advance t w1).fired = [] := by rw [← hw1]; rfl
  have hinv2 : count_invariant (advance t w1).st :=
    count_invariant_congr s1 _ hst2 hcnt2 hinv1.1
  have hren0 : (renormalize (advance t w1).st).timer_event_stack 0
      = ⟨some c1, (d1 : Int) - t⟩ := by
    have hc : toInt32 ((t : Nat) : Int) = t := toInt32_of_range _ (by omega) (by omega)
    simp only [renormalize, hst2, hstack1 0, if_true, ne_eq, reduceCtorEq, not_false_eq_true,
      renorm_slot, hctr2, hc]
    rw [toInt32_of_range _ (by omega) (by omega)]
  have hrenj : ∀ j : Fin 20, j ≠ 0 →
      (renormalize (advance t w1).st).timer_event_stack j = s0.timer_event_stack j := by
    intro j hj
    simp [renormalize, hst2, hstack1 j, hj, hfree0 j]
  -- second admission
  obtain ⟨p2, hadd2, hp2o, hp2min⟩ := add_event_arms cbs m (advance t w1) c2 d2 hinv2 hrun2 1
    (by rw [hst2, hstack1]; simp [hfree0])
    (fun j hj => by
      have : j = 0 := by
        apply Fin.ext
        have : j.val < 1 := hj
        simp only [Fin.val_zero]; omega
      subst this
      rw [hst2, hstack1]; simp)
    ⟨by omega, by omega⟩
    (fun j hj => by
      by_cases hj0 : j = 0
      · subst hj0
        show 2 ≤ ((renormalize (advance t w1).st).timer_event_stack 0).next_event
        rw [hren0]
        show (2 : Int) ≤ (d1 : Int) - t
        omega
      · exfalso
        simp only [occ, hst2, hstack1 j, hj0, if_false] at hj
        exact hj (hfree0 j))
  generalize hs3 : insert_at (renormalize (advance t w1).st) 1 ⟨some c2, (d2 : Int)⟩ = s3
    at hadd2 hp2o hp2min
  have hstack3 : ∀ j, s3.timer_event_stack j
      = if j = 1 then ⟨some c2, (d2 : Int)⟩
        else (renormalize (advance t w1).st).timer_event_stack j := by
    intro j; rw [← hs3]; exact insert_at_stack _ _ _ _
  have h30 : s3.timer_event_stack 0 = ⟨some c1, (d1 : Int) - t⟩ := by
    rw [hstack3 0, if_neg (by decide), hren0]
  have h31 : s3.timer_event_stack 1 = ⟨some c2, (d2 : Int)⟩ := by
    rw [hstack3 1, if_pos rfl]
  have hp2 : p2 = 0 ∨ p2 = 1 := by
    by_cases h1 : p2 = 1
    · exact Or.inr h1
    · by_cases h0' : p2 = 0
      · exact Or.inl h0'
      · exfalso
        simp only [occ, hstack3 p2, h1, if_false, hrenj p2 h0'] at hp2o
        exact hp2o (hfree0 p2)
  have hm0 : dl s3 p2 ≤ (d1 : Int) - t := by
    have := hp2min 0 (by simp [occ, h30])
    simpa [dl, h30] using this
  have hm1 : dl s3 p2 ≤ (d2 : Int) := by
    have := hp2min 1 (by simp [occ, h31])
    simpa [dl, h31] using this
  have hval : dl s3 p2 = min ((d1 : Int) - t) d2 := by
    rcases hp2 with h | h
    · subst h
      have : dl s3 0 = (d1 : Int) - t := by simp [dl, h30]
      rw [this] at hm1 ⊢
      rw [min_eq_left hm1]
    · subst h
      have : dl s3 1 = (d2 : Int) := by simp [dl, h31]
      rw [this] at hm0 ⊢
      rw [min_eq_right hm0]
  have hcnt3 : s3.timer_event_count = 2 := by
    have := insert_at_inv (renormalize (advance t w1).st) 1 c2 d2 (renormalize_inv _ hinv2)
      (by rw [renormalize_f, hst2, hstack1]; simp [hfree0])
    rw [hs3] at this
    rw [this.2, renormalize_count, hcnt2, hinv1.2]
  refine ⟨w1, _, hadd1, hadd2, h30, h31, ?_, hcnt3, hfired2, rfl, p2, rfl, hp2, hval, ?_, ?_, ?_⟩
  · rw [← hs3]; rfl
  · show ((toUInt32 (dl s3 p2 - 1) : Nat) : Int) = _
    rw [hval]
    unfold toUInt32
    have : (2 : Int) ≤ min ((d1 : Int) - t) d2 := by
      rw [le_min_iff]; omega
    omega
  · intro hlt
    rcases hp2 with h | h
    · exact h
    · exfalso
      subst h
      have : dl s3 1 = (d2 : Int) := by simp [dl, h31]
      rw [this] at hm0
      omega
  · intro hlt
    rcases hp2 with h | h
    · exfalso
      subst h
      have : dl s3 0 = (d1 : Int) - t := by simp [dl, h30]
      rw [this] at hm1
      omega
    · exact h

/-- Claim C10, witness: `d1 = 100`, `t = 40`, `d2 = 30`. -/
theorem renormalization_across_admissions_witness :
    ∃ w1 w2 : Sys,
      timer_add_event no_callbacks (0 + 2) ⟨some 1, (100 : Nat)⟩ ⟨timer_init id one_due, []⟩
        = .ok (true, w1) ∧
      timer_add_event no_callbacks (0 + 2) ⟨some 2, (30 : Nat)⟩ (advance 40 w1)
        = .ok (true, w2) ∧
      w2.st.timer_event_stack 0 = ⟨some 1, ((100 : Nat) : Int) - (40 : Nat)⟩ ∧
      w2.st.timer_event_stack 1 = ⟨some 2, (30 : Nat)⟩ ∧
      w2.st.hal.counter = 0 ∧
      w2.st.timer_event_count = 2 ∧
      w2.fired = [] ∧
      w2.st.hal.interrupt_enabled = true ∧
      ∃ p : Fin 20, w2.st.timer_next_event_position = p.val ∧
        (p = 0 ∨ p = 1) ∧
        dl w2.st p = min (((100 : Nat) : Int) - (40 : Nat)) (30 : Nat) ∧
        (w2.st.hal.compare : Int) = min (((100 : Nat) : Int) - (40 : Nat)) (30 : Nat) - 1 ∧
        (((100 : Nat) : Int) - (40 : Nat) < (30 : Nat) → p = 0) ∧
        (((30 : Nat) : Int) < ((100 : Nat) : Int) - (40 : Nat) → p = 1) :=
  renormalization_across_admissions no_callbacks id one_due 1 2 100 30 40 0 0
    (by decide) (by decide) (by decide) (by decide)
/-! ## Earliest deadline fires first -/

theorem dispatch_stack (s : State) (p j : Fin 20) :
    (dispatch_state s p).timer_event_stack j
      = if j = p then ⟨none, (s.timer_event_stack p).next_event⟩ else s.timer_event_stack j := by
  simp only [dispatch_state, set_slot, Function.update_apply]

theorem dispatch_occ (s : State) (p j : Fin 20) :
    occ (dispatch_state s p) j ↔ (occ s j ∧ j ≠ p) := by
  simp only [occ, dispatch_stack]
  by_cases hj : j = p
  · simp [hj]
  · simp [hj]

theorem dispatch_inv_of_inv (s : State) (p : Fin 20) (c : Nat)
    (hc : (s.timer_event_stack p).f = some c) (hinv : count_invariant s) :
    count_invariant (dispatch_state s p) ∧
    (dispatch_state s p).timer_event_count + 1 = s.timer_event_count := by
  have hocc := occ_dispatch s p c hc
  have h20 := occupied_count_le s
  unfold count_invariant at *
  rw [dispatch_count, toUInt8]
  omega

theorem no_occ_of_count_zero (s : State) (hinv : count_invariant s)
    (h0 : s.timer_event_count = 0) (j : Fin 20) : ¬ occ s j := by
  intro hj
  have := occ_pos_of_occupied s j hj
  unfold count_invariant at hinv
  omega

theorem run_callback_nil (cbs : Callbacks) (n : Nat) (w : Sys) :
    run_callback cbs (n + 1) [] w = .ok w := by
  simp only [run_callback]

theorem completed_due (orig : Fin 20 → timer_event) : ∀ (k n : Nat) (w : Sys) (p : Fin 20)
    (delta : Int),
    w.st.timer_event_count = k → 2 * k + 1 ≤ n → count_invariant w.st → due w.st p →
    tracks orig delta w.st →
    ∃ (w' : Sys) (delta' : Int) (fs : List (Fin 20)),
      timer_completed no_callbacks n w = .ok w' ∧ settled w'.st ∧ tracks orig delta' w'.st ∧
      w'.fired.map (fun e => some e.1)
        = w.fired.map (fun e => some e.1) ++ fs.map (fun q => (orig q).f) ∧
      fs.Nodup ∧
      (∀ q ∈ fs, occ w.st q ∧ (orig q).next_event = (orig p).next_event) ∧
      (∀ j, occ w'.st j ↔ (occ w.st j ∧ j ∉ fs)) ∧
      w'.st.timer_event_count < w.st.timer_event_count := by
  intro k
  induction k with
  | zero =>
    intro n w p delta hk _ hinv hdue _
    exact absurd hdue.2.1 (no_occ_of_count_zero w.st hinv hk p)
  | succ k ih =>
    intro n w p delta hk hn hinv hdue htr
    obtain ⟨hpos, hpocc, hp1, hctr, hmin⟩ := hdue
    obtain ⟨m, rfl⟩ : ∃ m, n = m + 2 := ⟨n - 2, by omega⟩
    have hlt : w.st.timer_next_event_position < 20 := by rw [hpos]; exact p.isLt
    have hpe : (⟨w.st.timer_next_event_position, hlt⟩ : Fin 20) = p := Fin.ext hpos
    obtain ⟨c, hc⟩ : ∃ c, (w.st.timer_event_stack p).f = some c := by
      cases h : (w.st.timer_event_stack p).f with
      | none => exact absurd h hpocc
      | some c => exact ⟨c, rfl⟩
    have hcf : (orig p).f = some c := by rw [← (htr p hpocc).1, hc]
    rw [timer_completed_succ no_callbacks (m + 1) w hlt c (by rw [hpe]; exact hc), hpe]
    have hcb : no_callbacks c (dispatch_state w.st p) = [] := rfl
    rw [hcb, run_callback_nil]
    dsimp only
    obtain ⟨hinv1, hcnt1⟩ := dispatch_inv_of_inv w.st p c hc hinv
    have hcnt1' : (dispatch_state w.st p).timer_event_count = k := by omega
    by_cases hk0 : k = 0
    · -- the store is empty after this event
      have hz : ¬ ((dispatch_state w.st p).timer_event_count > 0) := by omega
      rw [if_neg hz]
      have hnone : ∀ j, ¬ occ (dispatch_state w.st p) j :=
        no_occ_of_count_zero _ hinv1 (by omega)
      refine ⟨_, delta, [p], rfl, ?_, ?_, ?_, List.nodup_singleton p, ?_, ?_, ?_⟩
      rotate_right
      · show (dispatch_state w.st p).timer_event_count < w.st.timer_event_count
        omega
      · refine ⟨hinv1, rfl, fun j hj => absurd hj (hnone j), fun h => ?_⟩
        exact absurd h hz
      · intro j hj; exact absurd hj (hnone j)
      · simp [end_running, hcf]
      · intro q hq
        rw [List.mem_singleton] at hq
        subst hq
        exact ⟨hpocc, rfl⟩
      · intro j
        constructor
        · intro hj; exact absurd hj (hnone j)
        · rintro ⟨hj, hjp⟩
          rw [List.mem_singleton] at hjp
          exact absurd ((dispatch_occ w.st p j).mpr ⟨hj, hjp⟩) (hnone j)
    · -- other events are waiting: select and arm or fire
      have hpos1 : (dispatch_state w.st p).timer_event_count > 0 := by omega
      rw [if_pos hpos1]
      generalize hs1 : dispatch_state w.st p = s1 at hinv1 hcnt1 hcnt1' hpos1 ⊢
      have hocc1 : ∀ j, occ s1 j ↔ (occ w.st j ∧ j ≠ p) := by
        intro j; rw [← hs1]; exact dispatch_occ w.st p j
      have hst1 : ∀ j, j ≠ p → s1.timer_event_stack j = w.st.timer_event_stack j := by
        intro j hj; rw [← hs1, dispatch_stack, if_neg hj]
      have hctr1 : s1.hal.counter = w.st.hal.counter := by rw [← hs1]; rfl
      -- the renormalized store
      have he : toInt32 ((s1.hal.counter : Nat) : Int) = dl w.st p - 1 := by
        rw [hctr1, hctr]
        have hb : dl w.st p ≤ 16777215 := (hmin p hpocc).2
        exact toInt32_of_range _ (by clear * - hb hp1; omega) (by clear * - hb hp1; omega)
      have hren : ∀ j, occ s1 j →
          dl (renormalize s1) j = dl w.st j - (dl w.st p - 1) := by
        intro j hj
        have hjw := (hocc1 j).mp hj
        have hb : dl w.st p ≤ dl w.st j ∧ dl w.st j ≤ 16777215 := hmin j hjw.1
        have hval : (renormalize s1).timer_event_stack j
            = renorm_slot (toInt32 s1.hal.counter) (s1.timer_event_stack j) := by
          simp only [renormalize]
          rw [if_pos hj]
        show ((renormalize s1).timer_event_stack j).next_event = _
        rw [hval]
        show toInt32 ((s1.timer_event_stack j).next_event - toInt32 s1.hal.counter) = _
        rw [he, hst1 j hjw.2]
        show toInt32 (dl w.st j - (dl w.st p - 1)) = dl w.st j - (dl w.st p - 1)
        exact toInt32_of_range _ (by clear * - hb hp1; omega) (by clear * - hb hp1; omega)
      have hrenocc : ∀ j, occ (renormalize s1) j ↔ occ s1 j := by
        intro j; simp only [occ, renormalize_f]
      have hocc_pos : 1 ≤ occupied_count s1 := by
        have h := hinv1
        unfold count_invariant at h
        clear * - h hpos1
        omega
      obtain ⟨j0, hj0⟩ := occ_exists s1 hocc_pos
      have hj0' : occ s1 j0 := hj0
      have hj0b : dl (renormalize s1) j0 ≤ 16777215 := by
        have h1 := hren j0 hj0'
        have h2 : dl w.st p ≤ dl w.st j0 ∧ dl w.st j0 ≤ 16777215 :=
          hmin j0 ((hocc1 j0).mp hj0').1
        rw [h1]
        clear * - h2 hp1
        omega
      obtain ⟨p', hg, hp'o, hp'min⟩ := get_next_spec s1 hinv1 (by clear * - hpos1; omega)
        (Or.inr ⟨j0, (hrenocc j0).mpr hj0', hj0b⟩)
      have hp'1 : occ s1 p' := (hrenocc p').mp hp'o
      have hdp' : dl (renormalize s1) p' = dl w.st p' - (dl w.st p - 1) := hren p' hp'1
      have hbp' : dl w.st p ≤ dl w.st p' ∧ dl w.st p' ≤ 16777215 :=
        hmin p' ((hocc1 p').mp hp'1).1
      have het : toInt32 (((renormalize s1).timer_event_stack p').next_event - 1)
          = dl w.st p' - (dl w.st p - 1) - 1 := by
        show toInt32 (dl (renormalize s1) p' - 1) = _
        rw [hdp']
        exact toInt32_of_range _ (by clear * - hbp' hp1; omega) (by clear * - hbp' hp1; omega)
      rw [timer_configure_signed no_callbacks m ⟨s1, w.fired ++ [(c, s1)]⟩ p' (renormalize s1) hg
        (by rw [het]; clear * - hbp'; omega) (by show (0 : Nat) < 4294967296; decide)]
      have hc0 : ((hal_timer_getvalue (renormalize s1) : Nat) : Int) = 0 := rfl
      rw [het, hc0]
      have htr2 : tracks orig (delta + (dl w.st p - 1)) (renormalize s1) := by
        intro j hj
        have hj1 := (hrenocc j).mp hj
        have hjw := (hocc1 j).mp hj1
        have ht := htr j hjw.1
        refine ⟨?_, ?_⟩
        · rw [renormalize_f, hst1 j hjw.2]; exact ht.1
        · rw [hren j hj1, ht.2]
          clear * -
          omega
      have hcntr : (renormalize s1).timer_event_count = k := by
        rw [renormalize_count]; exact hcnt1'
      by_cases hfire : dl w.st p' - (dl w.st p - 1) - 1 ≤ 0
      · -- the next deadline has elapsed as well: fire it synchronously
        rw [if_pos hfire]
        have hdeq : dl w.st p' = dl w.st p := by clear * - hfire hbp'; omega
        have hdue2 : due { renormalize s1 with timer_next_event_position := p'.val } p' := by
          refine ⟨rfl, hp'o, ?_, ?_, ?_⟩
          · show 1 ≤ dl (renormalize s1) p'
            rw [hdp']; clear * - hbp'; omega
          · show (((renormalize s1).hal.counter : Nat) : Int) = dl (renormalize s1) p' - 1
            rw [hdp']
            show ((0 : Nat) : Int) = _
            clear * - hdeq; omega
          · intro j hj
            have hj1 : occ s1 j := (hrenocc j).mp hj
            refine ⟨hp'min j hj, ?_⟩
            show dl (renormalize s1) j ≤ _
            rw [hren j hj1]
            have hb : dl w.st p ≤ dl w.st j ∧ dl w.st j ≤ 16777215 :=
              hmin j ((hocc1 j).mp hj1).1
            clear * - hb hp1; omega
        obtain ⟨w2, delta2, fs2, hres, hset, htr', hfired, hnd, hfs, hocc', hlt2⟩ :=
          ih m ⟨{ renormalize s1 with timer_next_event_position := p'.val },
            w.fired ++ [(c, s1)]⟩ p' (delta + (dl w.st p - 1))
            hcntr (by clear * - hn; omega) (renormalize_inv _ hinv1) hdue2 htr2
        rw [hres]
        have hpfs : p ∉ fs2 := by
          intro hp
          have h1 := (hfs p hp).1
          have h2 := ((hocc1 p).mp ((hrenocc p).mp h1)).2
          exact h2 rfl
        have horig : (orig p').next_event = (orig p).next_event := by
          have h1 : dl w.st p' = (orig p').next_event - delta :=
            (htr p' ((hocc1 p').mp hp'1).1).2
          have h2 : dl w.st p = (orig p).next_event - delta := (htr p hpocc).2
          clear * - h1 h2 hdeq; omega
        refine ⟨end_running w2, delta2, p :: fs2, rfl, ?_, htr', ?_,
          List.nodup_cons.mpr ⟨hpfs, hnd⟩, ?_, ?_, ?_⟩
        rotate_right
        · show w2.st.timer_event_count < w.st.timer_event_count
          have hlt3 : w2.st.timer_event_count < (renormalize s1).timer_event_count := hlt2
          clear * - hlt3 hcntr hk; omega
        · obtain ⟨h1, _, h3, h4⟩ := hset
          exact ⟨h1, rfl, h3, h4⟩
        · show w2.fired.map (fun e => some e.1) = _
          rw [hfired]
          simp [hcf]
        · intro q hq
          rcases List.mem_cons.mp hq with h | h
          · subst h; exact ⟨hpocc, rfl⟩
          · have h1 := hfs q h
            refine ⟨((hocc1 q).mp ((hrenocc q).mp h1.1)).1, ?_⟩
            rw [h1.2, horig]
        · intro j
          show occ w2.st j ↔ _
          rw [hocc' j]
          show (occ (renormalize s1) j ∧ j ∉ fs2) ↔ _
          rw [hrenocc j, hocc1 j, List.mem_cons]
          constructor
          · rintro ⟨⟨h1, h2⟩, h3⟩
            exact ⟨h1, fun h => h.elim h2 h3⟩
          · rintro ⟨h1, h2⟩
            exact ⟨⟨h1, fun h => h2 (Or.inl h)⟩, fun h => h2 (Or.inr h)⟩
      · -- the next deadline lies ahead: arm it
        rw [if_neg hfire]
        refine ⟨_, delta + (dl w.st p - 1), [p], rfl, ?_, ?_, ?_, List.nodup_singleton p,
          ?_, ?_, ?_⟩
        rotate_right
        · show (renormalize s1).timer_event_count < w.st.timer_event_count
          clear * - hcntr hk; omega
        · refine ⟨?_, rfl, ?_, fun _ => ⟨rfl, p', rfl, hp'o, ?_, hp'min⟩⟩
          · exact count_invariant_congr (renormalize s1) _ rfl rfl (renormalize_inv _ hinv1)
          · intro j hj
            have hj1 : occ s1 j := (hrenocc j).mp hj
            have hjb : dl w.st p ≤ dl w.st j ∧ dl w.st j ≤ 16777215 :=
              hmin j ((hocc1 j).mp hj1).1
            have hjm' : dl (renormalize s1) p' ≤ dl (renormalize s1) j := hp'min j hj
            show 2 ≤ dl (renormalize s1) j ∧ dl (renormalize s1) j ≤ 16777215
            rw [hdp', hren j hj1] at hjm'
            rw [hren j hj1]
            clear * - hjm' hjb hfire hp1; omega
          · show ((toUInt32 (dl w.st p' - (dl w.st p - 1) - 1) : Nat) : Int)
              = dl (renormalize s1) p' - 1
            rw [hdp']
            unfold toUInt32
            clear * - hfire hbp' hp1; omega
        · exact htr2
        · simp [end_running, hcf]
        · intro q hq
          rw [List.mem_singleton] at hq
          subst hq
          exact ⟨hpocc, rfl⟩
        · intro j
          show occ (renormalize s1) j ↔ _
          rw [hrenocc j, hocc1 j, List.mem_singleton]

theorem settled_renormalize_stack (s : State) (h : settled s) :
    (renormalize s).timer_event_stack = s.timer_event_stack := by
  obtain ⟨hinv, _, hr, harm⟩ := h
  by_cases hc : 0 < s.timer_event_count
  · have := renormalize_same s (harm hc).1 (fun j hj => by have := hr j hj; omega)
    rw [this]
  · funext j
    have hno := no_occ_of_count_zero s hinv (by omega) j
    have hf : (s.timer_event_stack j).f = none := by
      by_contra h; exact hno h
    simp [renormalize, hf]

theorem store_of_lt (pre post : List timer_event) (j : Fin 20) (h : j.val < pre.length) :
    store_of (pre ++ post) j = store_of pre j := by
  simp only [store_of]
  exact List.getD_append pre post _ j.val h

theorem store_of_at (pre : List timer_event) (ev : timer_event) (post : List timer_event)
    (j : Fin 20) (h : j.val = pre.length) : store_of (pre ++ ev :: post) j = ev := by
  simp only [store_of]
  rw [List.getD_append_right pre (ev :: post) _ j.val (by omega), h]
  simp

theorem admit_all_settled (cbs : Callbacks) (n : Nat) :
    ∀ (evs pre : List timer_event) (w : Sys),
    pre.length + evs.length ≤ 20 →
    (∀ ev ∈ evs, ev.f ≠ none ∧ 2 ≤ ev.next_event ∧ ev.next_event ≤ 16777215) →
    settled w.st →
    (∀ j : Fin 20, j.val < pre.length → w.st.timer_event_stack j = store_of pre j ∧ occ w.st j) →
    (∀ j : Fin 20, pre.length ≤ j.val → (w.st.timer_event_stack j).f = none) →
    ∃ w', admit_all cbs (n + 2) evs w = .ok w' ∧ settled w'.st ∧ w'.fired = w.fired ∧
      (∀ j : Fin 20, j.val < (pre ++ evs).length →
        w'.st.timer_event_stack j = store_of (pre ++ evs) j ∧ occ w'.st j) ∧
      (∀ j : Fin 20, (pre ++ evs).length ≤ j.val → (w'.st.timer_event_stack j).f = none) := by
  intro evs
  induction evs with
  | nil =>
    intro pre w _ _ hset hlow hhigh
    refine ⟨w, rfl, hset, rfl, ?_, ?_⟩
    · intro j hj; rw [List.append_nil] at hj ⊢; exact hlow j hj
    · intro j hj; rw [List.append_nil] at hj; exact hhigh j hj
  | cons ev more ih =>
    intro pre w hlen hev hset hlow hhigh
    simp only [List.length_cons] at hlen
    obtain ⟨hevf, hev2, hevb⟩ := hev ev (List.mem_cons_self _ _)
    obtain ⟨c, d, rfl⟩ : ∃ c d, ev = ⟨some c, d⟩ := by
      cases ev with
      | mk f d =>
        cases f with
        | none => exact absurd rfl hevf
        | some c => exact ⟨c, d, rfl⟩
    replace hev2 : 2 ≤ d := hev2
    replace hevb : d ≤ 16777215 := hevb
    have hi : pre.length < 20 := by clear * - hlen; omega
    have hstk := settled_renormalize_stack w.st hset
    obtain ⟨hinv, hrun, hr, harm⟩ := hset
    obtain ⟨p, hadd, hpo, hpmin⟩ := add_event_arms cbs n w c d hinv hrun ⟨pre.length, hi⟩
      (hhigh ⟨pre.length, hi⟩ (le_refl _))
      (fun j hj => (hlow j hj).2)
      ⟨hev2, hevb⟩
      (fun j hj => by
        show 2 ≤ ((renormalize w.st).timer_event_stack j).next_event
        rw [hstk]; exact (hr j hj).1)
    generalize hs1 : insert_at (renormalize w.st) ⟨pre.length, hi⟩ ⟨some c, d⟩ = s1
      at hadd hpo hpmin
    have hstack1 : ∀ j, s1.timer_event_stack j
        = if j = ⟨pre.length, hi⟩ then ⟨some c, d⟩ else w.st.timer_event_stack j := by
      intro j; rw [← hs1, insert_at_stack, hstk]
    have hinv1 : count_invariant s1 ∧ s1.timer_event_count = w.st.timer_event_count + 1 := by
      have := insert_at_inv (renormalize w.st) ⟨pre.length, hi⟩ c d (renormalize_inv _ hinv)
        (by rw [renormalize_f]; exact hhigh ⟨pre.length, hi⟩ (le_refl _))
      rw [hs1] at this
      exact this
    have hrange1 : ∀ j, occ s1 j → 2 ≤ dl s1 j ∧ dl s1 j ≤ 16777215 := by
      intro j hj
      simp only [occ, dl, hstack1 j] at hj ⊢
      by_cases hji : j = ⟨pre.length, hi⟩
      · simp only [hji, if_true]; exact ⟨hev2, hevb⟩
      · simp only [hji, if_false] at hj ⊢
        exact hr j hj
    simp only [admit_all, hadd]
    obtain ⟨w', hres, hset', hfired', hlow', hhigh'⟩ := ih (pre ++ [⟨some c, d⟩])
      ⟨arm (dl s1 p - 1) { s1 with timer_next_event_position := p.val }, w.fired⟩
      (by simp only [List.length_append, List.length_singleton]; omega)
      (fun e he => hev e (List.mem_cons_of_mem _ he))
      (by
        refine ⟨count_invariant_congr s1 _ rfl rfl hinv1.1, ?_, hrange1,
          fun _ => ⟨?_, p, rfl, hpo, ?_, hpmin⟩⟩
        · show s1.timer_event_running = false
          rw [← hs1]; exact hrun
        · show s1.hal.counter = 0
          rw [← hs1]; rfl
        · show ((toUInt32 (dl s1 p - 1) : Nat) : Int) = dl s1 p - 1
          have hb : 2 ≤ dl s1 p ∧ dl s1 p ≤ 16777215 := hrange1 p hpo
          unfold toUInt32
          clear * - hb
          omega)
      (by
        intro j hj
        simp only [List.length_append, List.length_singleton] at hj
        show s1.timer_event_stack j = _ ∧ occ s1 j
        simp only [occ, hstack1 j]
        by_cases hji : j = ⟨pre.length, hi⟩
        · subst hji
          simp only [if_true]
          refine ⟨?_, by simp⟩
          rw [store_of_at pre ⟨some c, d⟩ [] _ rfl]
        · simp only [hji, if_false]
          have hjl : j.val < pre.length := by
            have : j.val ≠ pre.length := fun h => hji (Fin.ext h)
            omega
          rw [store_of_lt pre _ j hjl]
          exact hlow j hjl)
      (by
        intro j hj
        simp only [List.length_append, List.length_singleton] at hj
        show (s1.timer_event_stack j).f = none
        have hji : j ≠ ⟨pre.length, hi⟩ := by
          intro h
          have := congrArg Fin.val h
          simp at this
          omega
        rw [hstack1 j, if_neg hji]
        exact hhigh j (by omega))
    have happ : pre ++ [⟨some c, d⟩] ++ more = pre ++ ⟨some c, d⟩ :: more := by simp
    rw [happ] at hlow' hhigh'
    exact ⟨w', hres, hset', hfired', hlow', hhigh'⟩

theorem drain_settled (orig : Fin 20 → timer_event) (N F : Nat) (hF : 41 ≤ F) :
    ∀ (r : Nat) (w : Sys) (delta : Int) (fs : List (Fin 20)),
    w.st.timer_event_count ≤ r → settled w.st → tracks orig delta w.st →
    w.fired.map (fun e => some e.1) = fs.map (fun q => (orig q).f) →
    fs.Nodup →
    (∀ q ∈ fs, ¬ occ w.st q ∧ q.val < N ∧
      ∀ j, occ w.st j → (orig q).next_event ≤ (orig j).next_event) →
    (fs.map (fun q => (orig q).next_event)).Pairwise (fun a b => a ≤ b) →
    (∀ j : Fin 20, j.val < N → occ w.st j ∨ j ∈ fs) →
    (∀ j, occ w.st j → j.val < N) →
    ∃ (w' : Sys) (fs' : List (Fin 20)),
      drain no_callbacks F r w = .ok w' ∧ w'.st.timer_event_count = 0 ∧
      (∀ j, (w'.st.timer_event_stack j).f = none) ∧
      w'.fired.map (fun e => some e.1) = fs'.map (fun q => (orig q).f) ∧
      fs'.Nodup ∧ (∀ q ∈ fs', q.val < N) ∧
      (fs'.map (fun q => (orig q).next_event)).Pairwise (fun a b => a ≤ b) ∧
      (∀ j : Fin 20, j.val < N → j ∈ fs') := by
  have hdone : ∀ (w : Sys) (fs : List (Fin 20)), w.st.timer_event_count = 0 → settled w.st →
      w.fired.map (fun e => some e.1) = fs.map (fun q => (orig q).f) →
      fs.Nodup → (∀ q ∈ fs, ¬ occ w.st q ∧ q.val < N ∧
        ∀ j, occ w.st j → (orig q).next_event ≤ (orig j).next_event) →
      (fs.map (fun q => (orig q).next_event)).Pairwise (fun a b => a ≤ b) →
      (∀ j : Fin 20, j.val < N → occ w.st j ∨ j ∈ fs) →
      w.st.timer_event_count = 0 ∧
      (∀ j, (w.st.timer_event_stack j).f = none) ∧
      w.fired.map (fun e => some e.1) = fs.map (fun q => (orig q).f) ∧
      fs.Nodup ∧ (∀ q ∈ fs, q.val < N) ∧
      (fs.map (fun q => (orig q).next_event)).Pairwise (fun a b => a ≤ b) ∧
      (∀ j : Fin 20, j.val < N → j ∈ fs) := by
    intro w fs h0 hset hfired hnd hfs hsorted hall
    have hno := no_occ_of_count_zero w.st hset.1 h0
    refine ⟨h0, fun j => ?_, hfired, hnd, fun q hq => (hfs q hq).2.1, hsorted, fun j hj => ?_⟩
    · by_contra h; exact hno j h
    · rcases hall j hj with h | h
      · exact absurd h (hno j)
      · exact h
  intro r
  induction r with
  | zero =>
    intro w delta fs hr hset _ hfired hnd hfs hsorted hall _
    have h0 : w.st.timer_event_count = 0 := by omega
    exact ⟨w, fs, by simp [drain, h0], hdone w fs h0 hset hfired hnd hfs hsorted hall⟩
  | succ r ih =>
    intro w delta fs hr hset htr hfired hnd hfs hsorted hall hbound
    by_cases h0 : w.st.timer_event_count = 0
    · exact ⟨w, fs, by simp [drain, h0], hdone w fs h0 hset hfired hnd hfs hsorted hall⟩
    · obtain ⟨hinv, hrun, hrange, harm⟩ := hset
      obtain ⟨hctr, p, hpos, hpo, hcmp, hpmin⟩ := harm (by omega)
      have h20 : w.st.timer_event_count ≤ 20 := by
        have := occupied_count_le w.st
        unfold count_invariant at hinv
        omega
      have hp1 : 1 ≤ dl w.st p := by
        have h2 : 2 ≤ dl w.st p := (hrange p hpo).1
        clear * - h2; omega
      obtain ⟨w2, delta2, fs2, hres, hset2, htr2, hfired2, hnd2, hfs2, hocc2, hlt2⟩ :=
        completed_due orig w.st.timer_event_count F
          ⟨{ w.st with hal := { w.st.hal with counter := w.st.hal.compare } }, w.fired⟩ p delta
          rfl (by omega) (count_invariant_congr w.st _ rfl rfl hinv)
          ⟨hpos, hpo, hp1, hcmp, fun j hj => ⟨hpmin j hj, (hrange j hj).2⟩⟩
          htr
      have hocc2' : ∀ j, occ w2.st j ↔ (occ w.st j ∧ j ∉ fs2) := hocc2
      have hfs2' : ∀ q ∈ fs2, occ w.st q ∧ (orig q).next_event = (orig p).next_event := hfs2
      have hlt2' : w2.st.timer_event_count < w.st.timer_event_count := hlt2
      have horig_le : ∀ j, occ w.st j → (orig p).next_event ≤ (orig j).next_event := by
        intro j hj
        have h1 := (htr p hpo).2
        have h2 := (htr j hj).2
        have h3 := hpmin j hj
        omega
      obtain ⟨w', fs', hdr, hpost⟩ := ih w2 delta2 (fs ++ fs2) (by omega) hset2 htr2
        (by
          rw [hfired2, List.map_append]
          show w.fired.map (fun e => some e.1) ++ _ = _
          rw [hfired])
        (by
          rw [List.nodup_append]
          refine ⟨hnd, hnd2, ?_⟩
          intro q hq1 hq2
          exact (hfs q hq1).1 (hfs2' q hq2).1)
        (by
          intro q hq
          rcases List.mem_append.mp hq with h | h
          · refine ⟨fun ho => (hfs q h).1 ((hocc2' q).mp ho).1, (hfs q h).2.1, ?_⟩
            intro j hj
            exact (hfs q h).2.2 j ((hocc2' j).mp hj).1
          · refine ⟨fun ho => ((hocc2' q).mp ho).2 h, hbound q (hfs2' q h).1, ?_⟩
            intro j hj
            rw [(hfs2' q h).2]
            exact horig_le j ((hocc2' j).mp hj).1)
        (by
          rw [List.map_append, List.pairwise_append]
          refine ⟨hsorted, ?_, ?_⟩
          · apply List.pairwise_of_forall_mem_list
            intro a ha b hb
            obtain ⟨qa, hqa, rfl⟩ := List.mem_map.mp ha
            obtain ⟨qb, hqb, rfl⟩ := List.mem_map.mp hb
            show (orig qa).next_event ≤ (orig qb).next_event
            rw [(hfs2' qa hqa).2, (hfs2' qb hqb).2]
          · intro a ha b hb
            obtain ⟨qa, hqa, rfl⟩ := List.mem_map.mp ha
            obtain ⟨qb, hqb, rfl⟩ := List.mem_map.mp hb
            exact (hfs qa hqa).2.2 qb (hfs2' qb hqb).1)
        (by
          intro j hj
          rcases hall j hj with h | h
          · by_cases hj2 : j ∈ fs2
            · exact Or.inr (List.mem_append_right _ hj2)
            · exact Or.inl ((hocc2' j).mpr ⟨h, hj2⟩)
          · exact Or.inr (List.mem_append_left _ h))
        (fun j hj => hbound j ((hocc2' j).mp hj).1)
      refine ⟨w', fs', ?_, hpost⟩
      simp only [drain, h0, if_false, interrupt, hres]
      exact hdr

theorem slots_below (n : Nat) (h : n ≤ 20) :
    (slots.filter (fun j => decide (j.val < n))).map Fin.val = List.range n := by
  revert n
  decide

theorem map_getD_range (l : List timer_event) (d : timer_event) :
    (List.range l.length).map (fun k => l.getD k d) = l := by
  apply List.ext_getElem
  · simp
  · intro k h1 h2
    simp only [List.getElem_map, List.getElem_range]
    exact List.getD_eq_getElem _ _ h2

theorem fired_order_perm (evs : List timer_event) (hlen : evs.length ≤ 20)
    (fs : List (Fin 20)) (hnd : fs.Nodup) (hlt : ∀ q ∈ fs, q.val < evs.length)
    (hall : ∀ j : Fin 20, j.val < evs.length → j ∈ fs) :
    (fs.map (store_of evs)).Perm evs := by
  have hidx : (slots.filter (fun j => decide (j.val < evs.length))).Nodup :=
    List.Nodup.filter _ slots_nodup
  have hperm : fs.Perm (slots.filter (fun j => decide (j.val < evs.length))) := by
    rw [List.perm_ext_iff_of_nodup hnd hidx]
    intro a
    rw [List.mem_filter]
    constructor
    · intro ha; exact ⟨mem_slots a, by simpa using hlt a ha⟩
    · rintro ⟨_, ha⟩; exact hall a (by simpa using ha)
  have hmap : (slots.filter (fun j => decide (j.val < evs.length))).map (store_of evs) = evs := by
    have h1 : (slots.filter (fun j => decide (j.val < evs.length))).map (store_of evs)
        = ((slots.filter (fun j => decide (j.val < evs.length))).map Fin.val).map
            (fun k => evs.getD k ⟨none, 0⟩) := by
      rw [List.map_map]; rfl
    rw [h1, slots_below _ hlen, map_getD_range]
  have hp := hperm.map (store_of evs)
  rw [hmap] at hp
  exact hp

/-- Claim C9. Earliest fires first, exactly once: when at most 20 events with
non-NULL callbacks and deadlines greater than 1 and at most 0xFFFFFF are
admitted by consecutive `timer_add_event` calls into a freshly initialised
scheduler, with callbacks that admit nothing, all admissions return, and
letting the counter reach the compare value and calling `timer_completed`
until the store is empty returns with every slot empty; the callbacks invoked,
in order, are those of a rearrangement of the admitted events whose deadlines
are non-decreasing, so each admitted event fires exactly once. -/
theorem earliest_fires_first (hal_timer_init : Hal → Hal) (s : State)
    (evs : List timer_event) (fuel : Nat) (hlen : evs.length ≤ TIMER_EVENT_STACK_SIZE)
    (hev : ∀ ev ∈ evs, ev.f ≠ none ∧ 1 < ev.next_event ∧ ev.next_event ≤ 16777215) :
    ∃ (w1 w2 : Sys) (order : List timer_event),
      admit_all no_callbacks (fuel + 41) evs ⟨timer_init hal_timer_init s, []⟩ = .ok w1 ∧
      w1.fired = [] ∧
      drain no_callbacks (fuel + 41) TIMER_EVENT_STACK_SIZE w1 = .ok w2 ∧
      w2.st.timer_event_count = 0 ∧
      (∀ j, (w2.st.timer_event_stack j).f = none) ∧
      order.Perm evs ∧
      w2.fired.map (fun e => some e.1) = order.map (fun ev => ev.f) ∧
      (order.map (fun ev => ev.next_event)).Pairwise (fun a b => a ≤ b) := by
  have hlen' : evs.length ≤ 20 := hlen
  have hinit := timer_init_inv hal_timer_init s
  have hset0 : settled (timer_init hal_timer_init s) := by
    refine ⟨hinit.1, hinit.2, ?_, ?_⟩
    · intro j hj; exact absurd (timer_init_free hal_timer_init s j) hj
    · intro h; exact absurd h (by show ¬ (0 < 0); omega)
  obtain ⟨w1, hadm, hset1, hfired1, hlow1, hhigh1⟩ := admit_all_settled no_callbacks (fuel + 39)
    evs [] ⟨timer_init hal_timer_init s, []⟩ (by simpa using hlen')
    (fun ev he => ⟨(hev ev he).1, by have := (hev ev he).2.1; omega, (hev ev he).2.2⟩)
    hset0 (fun j hj => absurd hj (by simp))
    (fun j _ => timer_init_free hal_timer_init s j)
  simp only [List.nil_append] at hlow1 hhigh1
  have hfired1' : w1.fired = [] := hfired1
  have hbound : ∀ j, occ w1.st j → j.val < evs.length := by
    intro j hj
    by_contra hge
    exact hj (hhigh1 j (by omega))
  have htr : tracks (store_of evs) 0 w1.st := by
    intro j hj
    have := (hlow1 j (hbound j hj)).1
    refine ⟨by rw [this], ?_⟩
    show (w1.st.timer_event_stack j).next_event = _
    rw [this]; omega
  have hcnt : w1.st.timer_event_count ≤ 20 := by
    have := occupied_count_le w1.st
    have h := hset1.1
    unfold count_invariant at h
    omega
  obtain ⟨w2, fs, hdr, h0, hempty, hfired2, hnd, hlt, hsorted, hall⟩ :=
    drain_settled (store_of evs) evs.length (fuel + 41) (by omega) 20 w1 0 [] hcnt hset1 htr
      (by rw [hfired1']; rfl) List.nodup_nil (fun q hq => absurd hq (List.not_mem_nil q))
      List.Pairwise.nil (fun j hj => Or.inl (hlow1 j hj).2) hbound
  refine ⟨w1, w2, fs.map (store_of evs), hadm, hfired1', hdr, h0, hempty,
    fired_order_perm evs hlen' fs hnd hlt hall, ?_, ?_⟩
  · rw [hfired2, List.map_map]; rfl
  · rw [List.map_map]; exact hsorted

/-- Claim C9, witness: the deadlines 50, 10 and 30 are admitted and drained,
and the callbacks fire in the order of the deadlines 10, 30, 50. -/
theorem earliest_fires_first_witness :
    ∃ (w1 w2 : Sys),
      admit_all no_callbacks (0 + 41) three_events ⟨timer_init id one_due, []⟩ = .ok w1 ∧
      drain no_callbacks (0 + 41) TIMER_EVENT_STACK_SIZE w1 = .ok w2 ∧
      w2.st.timer_event_count = 0 ∧
      w2.fired.map (fun e => e.1) = [2, 3, 1] := by
  obtain ⟨w1, w2, order, hadm, _, hdr, h0, _, hperm, hfired, hsorted⟩ :=
    earliest_fires_first id one_due three_events 0 (by decide) (by decide)
  refine ⟨w1, w2, hadm, hdr, h0, ?_⟩
  have hd : order.map (fun ev => ev.next_event) = [10, 30, 50] := by
    have hp : (order.map (fun ev => ev.next_event)).Perm [10, 30, 50] :=
      (hperm.map _).trans (by decide)
    exact List.eq_of_perm_of_sorted hp hsorted (by decide)
  have hmem : ∀ ev ∈ order, ev = ⟨some 1, 50⟩ ∨ ev = ⟨some 2, 10⟩ ∨ ev = ⟨some 3, 30⟩ := by
    intro ev hev
    have := hperm.subset hev
    simpa [three_events] using this
  have horder : order.map (fun ev => ev.f) = [some 2, some 3, some 1] := by
    rcases order with _ | ⟨a, _ | ⟨b, _ | ⟨c, _ | ⟨x, rest⟩⟩⟩⟩
    · simp at hd
    · simp at hd
    · simp at hd
    · simp only [List.map_cons, List.map_nil, List.cons.injEq, and_true] at hd
      obtain ⟨ha, hb, hc⟩ := hd
      have ma := hmem a (by simp)
      have mb := hmem b (by simp)
      have mc := hmem c (by simp)
      rcases ma with rfl | rfl | rfl <;> simp at ha
      rcases mb with rfl | rfl | rfl <;> simp at hb
      rcases mc with rfl | rfl | rfl <;> simp at hc
      rfl
    · simp at hd
  rw [horder] at hfired
  have hinj : (w2.fired.map (fun e => e.1)).map some = [2, 3, 1].map some := by
    rw [List.map_map]
    exact hfired
  exact List.map_injective_iff.mpr (Option.some_injective _) hinj
/-! ## Admission while an event is firing -/

theorem update_loop_returns (cur : Int) : ∀ (l : List (Fin 20)) (ec : Nat) (s : State),
    ec < s.timer_event_count →
    s.timer_event_count ≤ ec + l.countP (fun i => (s.timer_event_stack i).f.isSome) →
    ∃ s', timer_update_stack_loop cur l ec s = .ok s' := by
  intro l
  induction l with
  | nil => intro ec s h1 h2; simp at h2; omega
  | cons a l ih =>
    intro ec s h1 h2
    unfold timer_update_stack_loop
    by_cases hocc : (s.timer_event_stack a).f = none
    · simp only [hocc, ne_eq, not_true_eq_false, if_false]
      apply ih ec s h1
      simpa [List.countP_cons, hocc] using h2
    · have hsome : (s.timer_event_stack a).f.isSome = true := by
        cases h : (s.timer_event_stack a).f <;> simp_all
      simp only [ne_eq, hocc, not_false_eq_true, if_true]
      simp only [List.countP_cons, hsome, if_true] at h2
      have hcongr : l.countP (fun i => ((set_slot s a ⟨(s.timer_event_stack a).f,
            toInt32 ((s.timer_event_stack a).next_event - cur)⟩).timer_event_stack i).f.isSome)
          = l.countP (fun i => (s.timer_event_stack i).f.isSome) := by
        apply occ_count_congr
        intro i _
        by_cases hi : i = a
        · subst hi; simp [set_slot]
        · simp [set_slot, Function.update_noteq hi]
      have hc : (set_slot s a ⟨(s.timer_event_stack a).f,
            toInt32 ((s.timer_event_stack a).next_event - cur)⟩).timer_event_count
            = s.timer_event_count := rfl
      by_cases hge : ec + 1 ≥ s.timer_event_count
      · simp only [hc, hge, if_true]
        exact ⟨_, rfl⟩
      · simp only [hc, hge, if_false]
        apply ih
        · rw [hc]; omega
        · rw [hcongr, hc]; omega

theorem update_stack_returns (s : State) (h : s.timer_event_count ≤ occupied_count s) :
    ∃ s', timer_update_stack s = .ok s' := by
  by_cases h0 : s.timer_event_count = 0
  · exact ⟨_, update_stack_zero s h0⟩
  · simp only [timer_update_stack, h0, if_false]
    apply update_loop_returns
    · simp only [hal_timer_counter_reset]; omega
    · simpa [hal_timer_counter_reset, occupied_count] using h

/-- Claim C11, counterexample. With `timer_event_running` true, every slot
free and a count of one, `timer_add_event` ends in the trap of
`timer_update_stack` instead of returning true. -/
theorem timer_add_event_running_overcounted :
    phantom_running.timer_event_running = true ∧
    (∃ i, (phantom_running.timer_event_stack i).f = none) ∧
    fault_of (timer_add_event no_callbacks 3 ⟨some 1, 10⟩ ⟨phantom_running, []⟩)
      = some Fault.trap := by
  refine ⟨rfl, ⟨0, rfl⟩, ?_⟩
  decide

/-- Claim C11, amended. With `timer_event_running` true, a free slot and a
count not exceeding the number of non-NULL slots, `timer_add_event` returns
true, writes the event into the lowest free slot and nothing else into any
callback, invokes no callback, raises the count by one and leaves
`timer_next_event_position`, the compare register, the interrupt bit and
`timer_event_running` unchanged. With `timer_event_running` false, a call
that returns true has run `timer_configure_next_event` on the store holding
the new event, and returns what that call returns. -/
theorem timer_add_event_while_running (cbs : Callbacks) (n : Nat) (event : timer_event)
    (w : Sys) :
    (w.st.timer_event_running = true → (∃ i, (w.st.timer_event_stack i).f = none) →
      w.st.timer_event_count ≤ occupied_count w.st →
      ∃ (i : Fin 20) (s' : State),
        timer_add_event cbs (n + 1) event w = .ok (true, ⟨s', w.fired⟩) ∧
        (w.st.timer_event_stack i).f = none ∧
        (∀ j, j < i → (w.st.timer_event_stack j).f ≠ none) ∧
        s'.timer_event_stack i = event ∧
        (∀ j, j ≠ i → (s'.timer_event_stack j).f = (w.st.timer_event_stack j).f) ∧
        s'.timer_event_count = w.st.timer_event_count + 1 ∧
        s'.timer_next_event_position = w.st.timer_next_event_position ∧
        s'.hal.compare = w.st.hal.compare ∧
        s'.hal.interrupt_enabled = w.st.hal.interrupt_enabled ∧
        s'.timer_event_running = true) ∧
    (w.st.timer_event_running = false →
      ∀ w', timer_add_event cbs (n + 1) event w = .ok (true, w') →
        ∃ s, timer_add_event_in_stack event w.st = .ok (true, s) ∧
          timer_configure_next_event cbs n ⟨s, w.fired⟩ = .ok w') := by
  have heta : (⟨event.f, event.next_event⟩ : timer_event) = event := rfl
  constructor
  · intro hrun hfree hcnt
    obtain ⟨i, hif, himin, hres⟩ := add_in_stack_free event w.st hfree
    obtain ⟨s1, hs1⟩ := update_stack_returns w.st hcnt
    rw [hs1] at hres
    replace hres : timer_add_event_in_stack event w.st = .ok (true, insert_at s1 i event) := hres
    obtain ⟨_, hcmp, hirq, hc, hr, hp, hf⟩ := update_stack_frame _ _ hs1
    have hlt := occupied_count_lt_of_free w.st i hif
    refine ⟨i, insert_at s1 i event, ?_, hif, himin, ?_, ?_, ?_, hp, hcmp, hirq, ?_⟩
    · rw [timer_add_event_succ, heta, hres]
      dsimp only
      have : (insert_at s1 i event).timer_event_running = true := by
        show s1.timer_event_running = true
        rw [hr]; exact hrun
      rw [if_neg (by rw [this]; simp)]
    · rw [insert_at_stack, if_pos rfl]
    · intro j hj
      rw [insert_at_stack, if_neg hj]
      exact hf j
    · show toUInt8 ((s1.timer_event_count : Nat) + 1) = w.st.timer_event_count + 1
      rw [hc]
      unfold toUInt8
      clear * - hcnt hlt
      omega
    · show s1.timer_event_running = true
      rw [hr]; exact hrun
  · intro hrun w' hw'
    rw [timer_add_event_succ, heta] at hw'
    cases hs : timer_add_event_in_stack event w.st with
    | error e => rw [hs] at hw'; simp at hw'
    | ok r =>
      obtain ⟨b, s⟩ := r
      rw [hs] at hw'
      cases b with
      | false => simp at hw'
      | true =>
        dsimp only at hw'
        refine ⟨s, rfl, ?_⟩
        split at hw'
        · cases hc : timer_configure_next_event cbs n ⟨s, w.fired⟩ with
          | error e => rw [hc] at hw'; simp at hw'
          | ok w2 =>
            rw [hc] at hw'
            simp only [Except.ok.injEq, Prod.mk.injEq, true_and] at hw'
            rw [hw']
        · rename_i hr
          exfalso
          apply hr
          by_cases hfull : ∀ i, (w.st.timer_event_stack i).f ≠ none
          · rw [add_in_stack_full event w.st hfull] at hs
            simp at hs
          · have hex : ∃ i, (w.st.timer_event_stack i).f = none := by
              by_contra hne
              exact hfull (fun i hi => hne ⟨i, hi⟩)
            obtain ⟨i, _, _, hres⟩ := add_in_stack_free event w.st hex
            rw [hs] at hres
            cases hu : timer_update_stack w.st with
            | error e => rw [hu] at hres; simp at hres
            | ok s1 =>
              rw [hu] at hres
              simp only [Except.ok.injEq, Prod.mk.injEq, true_and] at hres
              rw [hres]
              show s1.timer_event_running = false
              rw [(update_stack_frame _ _ hu).2.2.2.2.1]; exact hrun

/-- Claim C11, witness: a third event admitted while a callback runs on the
two-event store. -/
theorem timer_add_event_while_running_witness :
    ∃ (i : Fin 20) (s' : State),
      timer_add_event no_callbacks (0 + 1) ⟨some 3, 30⟩ ⟨firing_store, []⟩
        = .ok (true, ⟨s', []⟩) ∧
      (firing_store.timer_event_stack i).f = none ∧
      (∀ j, j < i → (firing_store.timer_event_stack j).f ≠ none) ∧
      s'.timer_event_stack i = ⟨some 3, 30⟩ ∧
      (∀ j, j ≠ i → (s'.timer_event_stack j).f = (firing_store.timer_event_stack j).f) ∧
      s'.timer_event_count = firing_store.timer_event_count + 1 ∧
      s'.timer_next_event_position = firing_store.timer_next_event_position ∧
      s'.hal.compare = firing_store.hal.compare ∧
      s'.hal.interrupt_enabled = firing_store.hal.interrupt_enabled ∧
      s'.timer_event_running = true :=
  (timer_add_event_while_running no_callbacks 0 ⟨some 3, 30⟩ ⟨firing_store, []⟩).1
    rfl (by decide) (by decide)
/-! ## The last event and the self-rescheduling callback -/

theorem completed_single (cbs : Callbacks) (n : Nat) (w : Sys) (p : Fin 20) (c : Nat)
    (hp : w.st.timer_next_event_position = p.val)
    (hc : (w.st.timer_event_stack p).f = some c) :
    timer_completed cbs (n + 1) w =
      match run_callback cbs n (cbs c (dispatch_state w.st p))
          ⟨dispatch_state w.st p, w.fired ++ [(c, dispatch_state w.st p)]⟩ with
      | .error e => .error e
      | .ok w1 =>
        if w1.st.timer_event_count > 0 then
          match timer_configure_next_event cbs n w1 with
          | .error e => .error e
          | .ok w2 => .ok (end_running w2)
        else .ok (end_running ⟨hal_timer_disable_interrupt w1.st, w1.fired⟩) := by
  have hlt : w.st.timer_next_event_position < 20 := by rw [hp]; exact p.isLt
  have hpe : (⟨w.st.timer_next_event_position, hlt⟩ : Fin 20) = p := Fin.ext hp
  rw [timer_completed_succ cbs n w hlt c (by rw [hpe]; exact hc), hpe]

/-- Claim C13. Empty-store disarm: with the count matching the occupied
slots, exactly one pending event, held in the armed slot, and a callback that
admits nothing, `timer_completed` returns with all 20 slots empty,
`timer_event_count = 0`, `timer_event_running = false` and the hardware
interrupt disabled; the callback has been invoked once. -/
theorem timer_completed_last_event (cbs : Callbacks) (n : Nat) (w : Sys) (p : Fin 20) (c : Nat)
    (hinv : w.st.timer_event_count = occupied_count w.st)
    (hone : w.st.timer_event_count = 1)
    (hp : w.st.timer_next_event_position = p.val)
    (hc : (w.st.timer_event_stack p).f = some c)
    (hcb : cbs c (dispatch_state w.st p) = []) :
    ∃ w', timer_completed cbs (n + 2) w = .ok w' ∧
      (∀ j, (w'.st.timer_event_stack j).f = none) ∧
      w'.st.timer_event_count = 0 ∧
      w'.st.timer_event_running = false ∧
      w'.st.hal.interrupt_enabled = false ∧
      w'.fired = w.fired ++ [(c, dispatch_state w.st p)] := by
  obtain ⟨hinv1, hcnt1⟩ := dispatch_inv_of_inv w.st p c hc hinv
  have h0 : (dispatch_state w.st p).timer_event_count = 0 := by omega
  have hnone := no_occ_of_count_zero _ hinv1 h0
  rw [completed_single cbs (n + 1) w p c hp hc, hcb, run_callback_nil]
  dsimp only
  rw [if_neg (by rw [h0]; decide)]
  refine ⟨_, rfl, ?_, h0, rfl, rfl, rfl⟩
  intro j
  by_contra h
  exact hnone j h

/-- Claim C13, witness: the single due event of `one_due`. -/
theorem timer_completed_last_event_witness :
    ∃ w', timer_completed no_callbacks (0 + 2) ⟨one_due, []⟩ = .ok w' ∧
      (∀ j, (w'.st.timer_event_stack j).f = none) ∧
      w'.st.timer_event_count = 0 ∧
      w'.st.timer_event_running = false ∧
      w'.st.hal.interrupt_enabled = false ∧
      w'.fired = [] ++ [(7, dispatch_state one_due 0)] :=
  timer_completed_last_event no_callbacks 0 ⟨one_due, []⟩ 0 7 (by decide) rfl rfl rfl rfl

/-- Claim C12. Reentrant self-rescheduling: when the only pending event is in
the armed slot and its callback calls `timer_add_event` once for itself with
a deadline `d`, `1 < d <= 0xFFFFFF`, one call of `timer_completed` invokes
that callback exactly once and returns with exactly one pending event
(`timer_event_count = 1`, in slot 0, holding that callback and `d`), armed
with compare register `d - 1`, the interrupt enabled and
`timer_event_running = false`. -/
theorem timer_completed_self_reschedule (cbs : Callbacks) (n : Nat) (w : Sys) (p : Fin 20)
    (c : Nat) (d : Int)
    (hinv : w.st.timer_event_count = occupied_count w.st)
    (hone : w.st.timer_event_count = 1)
    (hp : w.st.timer_next_event_position = p.val)
    (hc : (w.st.timer_event_stack p).f = some c)
    (hcb : cbs c (dispatch_state w.st p) = [⟨some c, d⟩])
    (hd : 1 < d ∧ d ≤ 16777215) :
    ∃ w', timer_completed cbs (n + 3) w = .ok w' ∧
      w'.fired = w.fired ++ [(c, dispatch_state w.st p)] ∧
      w'.st.timer_event_count = 1 ∧
      w'.st.timer_event_stack 0 = ⟨some c, d⟩ ∧
      (∀ j, j ≠ 0 → (w'.st.timer_event_stack j).f = none) ∧
      w'.st.timer_next_event_position = 0 ∧
      (w'.st.hal.compare : Int) = d - 1 ∧
      w'.st.hal.interrupt_enabled = true ∧
      w'.st.timer_event_running = false := by
  obtain ⟨hinv1, hcnt1⟩ := dispatch_inv_of_inv w.st p c hc hinv
  have h0 : (dispatch_state w.st p).timer_event_count = 0 := by omega
  have hnone := no_occ_of_count_zero _ hinv1 h0
  rw [completed_single cbs (n + 2) w p c hp hc, hcb]
  generalize hs1 : dispatch_state w.st p = s1 at hinv1 hcnt1 h0 hnone ⊢
  have hfree1 : ∀ j, (s1.timer_event_stack j).f = none := by
    intro j; by_contra h; exact hnone j h
  have hrun1 : s1.timer_event_running = true := by rw [← hs1]; rfl
  -- the admission made by the callback
  obtain ⟨i, hif, himin, hres⟩ := add_in_stack_free ⟨some c, d⟩ s1 ⟨0, hfree1 0⟩
  have hi0 : i = 0 := first_free_unique s1 0 i (hfree1 0)
    (fun j hj => absurd hj (Fin.not_lt_zero j)) hif himin
  subst hi0
  rw [update_stack_ok s1 hinv1] at hres
  replace hres : timer_add_event_in_stack ⟨some c, d⟩ s1
      = .ok (true, insert_at (renormalize s1) 0 ⟨some c, d⟩) := hres
  generalize hs2 : insert_at (renormalize s1) 0 ⟨some c, d⟩ = s2 at hres
  have hstack2 : ∀ j, s2.timer_event_stack j
      = if j = 0 then ⟨some c, d⟩ else s1.timer_event_stack j := by
    intro j
    rw [← hs2, insert_at_stack]
    by_cases hj : j = 0
    · simp [hj]
    · simp [hj, renormalize, hfree1 j]
  have hinv2 : count_invariant s2 ∧ s2.timer_event_count = 1 := by
    have := insert_at_inv (renormalize s1) 0 c d (renormalize_inv _ hinv1)
      (by rw [renormalize_f]; exact hfree1 0)
    rw [hs2] at this
    refine ⟨this.1, ?_⟩
    rw [this.2, renormalize_count, h0]
  have hrun2 : s2.timer_event_running = true := by rw [← hs2]; exact hrun1
  have hc2 : s2.hal.counter = 0 := by rw [← hs2]; rfl
  have hadd : timer_add_event cbs (n + 1) ⟨some c, d⟩ ⟨s1, w.fired ++ [(c, s1)]⟩
      = .ok (true, ⟨s2, w.fired ++ [(c, s1)]⟩) := by
    rw [timer_add_event_succ, hres]
    dsimp only
    rw [if_neg (by rw [hrun2]; simp)]
  have hcall : run_callback cbs (n + 2) [⟨some c, d⟩] ⟨s1, w.fired ++ [(c, s1)]⟩
      = .ok ⟨s2, w.fired ++ [(c, s1)]⟩ := by
    simp only [run_callback, hadd]
  rw [hcall]
  dsimp only
  rw [if_pos (by rw [hinv2.2]; decide)]
  -- selection and arming
  have hrange2 : ∀ j, occ s2 j → -2147483648 ≤ dl s2 j ∧ dl s2 j ≤ 2147483647 := by
    intro j hj
    simp only [occ, dl, hstack2 j] at hj ⊢
    by_cases hj0 : j = 0
    · simp only [hj0, if_true]
      obtain ⟨h1, h2⟩ := hd
      clear * - h1 h2
      omega
    · simp only [hj0, if_false] at hj
      exact absurd (hfree1 j) hj
  have hsame := renormalize_same s2 hc2 hrange2
  obtain ⟨p', hg, hp'o, _⟩ := get_next_spec s2 hinv2.1 (by rw [hinv2.2]) (Or.inl hinv2.2)
  rw [hsame] at hg hp'o
  have hp'0 : p' = 0 := by
    by_contra hne
    simp only [hstack2 p', hne, if_false] at hp'o
    exact hp'o (hfree1 p')
  subst hp'0
  have hd0 : (s2.timer_event_stack 0).next_event = d := by rw [hstack2 0]; simp
  have het : toInt32 ((s2.timer_event_stack 0).next_event - 1) = d - 1 := by
    rw [hd0]
    obtain ⟨h1, h2⟩ := hd
    exact toInt32_of_range _ (by clear * - h1; omega) (by clear * - h2; omega)
  rw [timer_configure_signed cbs (n + 1) ⟨s2, w.fired ++ [(c, s1)]⟩ 0 s2 hg
    (by rw [het]; obtain ⟨h1, _⟩ := hd; clear * - h1; omega)
    (by show s2.hal.counter < 4294967296; rw [hc2]; decide)]
  have hnot : ¬ (toInt32 ((s2.timer_event_stack 0).next_event - 1)
      ≤ ((hal_timer_getvalue s2 : Nat) : Int)) := by
    rw [het]
    simp only [hal_timer_getvalue, hc2]
    obtain ⟨h1, _⟩ := hd
    clear * - h1
    omega
  rw [if_neg hnot, het]
  refine ⟨_, rfl, rfl, hinv2.2, ?_, ?_, rfl, ?_, rfl, rfl⟩
  · show s2.timer_event_stack 0 = _
    rw [hstack2 0]; simp
  · intro j hj
    show (s2.timer_event_stack j).f = none
    rw [hstack2 j, if_neg hj]
    exact hfree1 j
  · show ((toUInt32 (d - 1) : Nat) : Int) = d - 1
    unfold toUInt32
    obtain ⟨h1, h2⟩ := hd
    clear * - h1 h2
    omega

/-- Claim C12, witness: the single event of `one_due` rescheduling itself 500
ticks ahead. -/
theorem timer_completed_self_reschedule_witness :
    ∃ w', timer_completed (reschedule 500) (0 + 3) ⟨one_due, []⟩ = .ok w' ∧
      w'.fired = [] ++ [(7, dispatch_state one_due 0)] ∧
      w'.st.timer_event_count = 1 ∧
      w'.st.timer_event_stack 0 = ⟨some 7, 500⟩ ∧
      (∀ j, j ≠ 0 → (w'.st.timer_event_stack j).f = none) ∧
      w'.st.timer_next_event_position = 0 ∧
      (w'.st.hal.compare : Int) = 500 - 1 ∧
      w'.st.hal.interrupt_enabled = true ∧
      w'.st.timer_event_running = false :=
  timer_completed_self_reschedule (reschedule 500) 0 ⟨one_due, []⟩ 0 7 500
    (by decide) rfl rfl rfl rfl (by decide)
/-! ## Empty and inconsistent stores -/

/-- Claim C15, the code at the failing input. On the store `timer_init`
leaves (count 0, every callback NULL) `timer_completed` has no guard: it sets
`timer_event_running`, decrements the count from 0 to 255 and calls through
the NULL pointer of the slot; it does not end in the `while(1)` trap. -/
theorem timer_completed_on_empty_store :
    (timer_init id one_due).timer_event_count = 0 ∧
    (∀ i, ((timer_init id one_due).timer_event_stack i).f = none) ∧
    fault_of (timer_completed no_callbacks 1 ⟨timer_init id one_due, []⟩)
      = some Fault.undefined ∧
    (outcome (timer_completed no_callbacks 1
      ⟨timer_init id one_due, []⟩)).st.timer_event_count = 255 ∧
    (outcome (timer_completed no_callbacks 1
      ⟨timer_init id one_due, []⟩)).st.timer_event_running = true := by
  refine ⟨rfl, fun _ => rfl, ?_, ?_, ?_⟩ <;> decide

theorem get_next_loop_trap (s : State) :
    ∀ (l : List (Fin 20)) (net : Int) (pos : Option Nat) (ec : Nat),
    ec + l.countP (fun i => (s.timer_event_stack i).f.isSome) < s.timer_event_count →
    timer_get_next_event_loop s l net pos ec = .error (.trap, s) := by
  intro l
  induction l with
  | nil => intro net pos ec _; rfl
  | cons a l ih =>
    intro net pos ec h
    unfold timer_get_next_event_loop
    by_cases hocc : (s.timer_event_stack a).f = none
    · simp only [hocc, ne_eq, not_true_eq_false, if_false]
      apply ih
      simpa [List.countP_cons, hocc] using h
    · have hsome : (s.timer_event_stack a).f.isSome = true := by
        cases h' : (s.timer_event_stack a).f <;> simp_all
      simp only [List.countP_cons, hsome, if_true] at h
      have h1 : s.timer_event_count ≠ 1 := by omega
      have hge : ¬ (ec + 1 ≥ s.timer_event_count) := by omega
      simp only [ne_eq, hocc, not_false_eq_true, if_true, h1, if_false, hge]
      apply ih
      omega

/-- Claim C16. With `timer_event_count = 0`, `timer_get_next_event` ends in
the trap before renormalizing or scanning, the state at the trap being the
state at entry (slots and hardware counter untouched). When the count claims
more events than there are non-NULL slots, `timer_get_next_event` ends in the
trap as well, never returning an index, and the scan of the slots on such a
store ends in the trap. -/
theorem timer_get_next_event_traps (s : State) :
    (s.timer_event_count = 0 → timer_get_next_event s = .error (.trap, s)) ∧
    (occupied_count s < s.timer_event_count →
      (∃ s', timer_get_next_event s = .error (.trap, s')) ∧
      timer_get_next_event_loop s slots 16777215 none 0 = .error (.trap, s)) := by
  constructor
  · intro h0
    simp [timer_get_next_event, h0]
  · intro h
    refine ⟨?_, get_next_loop_trap s slots 16777215 none 0 (by
      rw [Nat.zero_add]; exact h)⟩
    have h0 : s.timer_event_count ≠ 0 := by omega
    obtain ⟨s', hs'⟩ := update_stack_trap s h
    exact ⟨s', by simp [timer_get_next_event, h0, hs']⟩

/-- Claim C16, witness: the store left by `timer_init` (count 0) and the store
with a count of one and no occupied slot. -/
theorem timer_get_next_event_traps_witness :
    timer_get_next_event (timer_init id one_due)
      = .error (.trap, timer_init id one_due) ∧
    ((∃ s', timer_get_next_event phantom_running = .error (.trap, s')) ∧
      timer_get_next_event_loop phantom_running slots 16777215 none 0
        = .error (.trap, phantom_running)) :=
  ⟨(timer_get_next_event_traps (timer_init id one_due)).1 rfl,
    (timer_get_next_event_traps phantom_running).2 (by decide)⟩

/-- Claim C17. After `timer_init`, whatever the state before, every one of the
20 slots has a NULL callback, `timer_event_count = 0` and
`timer_event_running = false`, so the count invariant holds; the insertion of
a first `timer_add_event` writes the event into slot 0, and the call goes on
to `timer_configure_next_event` with the event there. -/
theorem timer_init_clears (hal_timer_init : Hal → Hal) (s : State) :
    (∀ i, ((timer_init hal_timer_init s).timer_event_stack i).f = none) ∧
    (timer_init hal_timer_init s).timer_event_count = 0 ∧
    (timer_init hal_timer_init s).timer_event_running = false ∧
    (timer_init hal_timer_init s).timer_event_count
      = occupied_count (timer_init hal_timer_init s) ∧
    ∀ event : timer_event, ∃ s1,
      timer_add_event_in_stack event (timer_init hal_timer_init s) = .ok (true, s1) ∧
      s1.timer_event_stack 0 = event ∧
      (∀ j, j ≠ 0 → (s1.timer_event_stack j).f = none) ∧
      s1.timer_event_count = 1 ∧
      ∀ (cbs : Callbacks) (n : Nat) (fired : List (Nat × State)),
        timer_add_event cbs (n + 1) event ⟨timer_init hal_timer_init s, fired⟩
          = match timer_configure_next_event cbs n ⟨s1, fired⟩ with
            | .error e => .error e
            | .ok w => .ok (true, w) := by
  have hinit := timer_init_inv hal_timer_init s
  refine ⟨fun _ => rfl, rfl, rfl, hinit.1, ?_⟩
  intro event
  generalize hs0 : timer_init hal_timer_init s = s0 at hinit
  have hfree0 : ∀ j, (s0.timer_event_stack j).f = none := by
    intro j; rw [← hs0]; rfl
  have hcnt0 : s0.timer_event_count = 0 := by rw [← hs0]; rfl
  obtain ⟨i, hif, himin, hres⟩ := add_in_stack_free event s0 ⟨0, hfree0 0⟩
  have hi0 : i = 0 := first_free_unique s0 0 i (hfree0 0)
    (fun j hj => absurd hj (Fin.not_lt_zero j)) hif himin
  subst hi0
  rw [update_stack_ok s0 hinit.1] at hres
  replace hres : timer_add_event_in_stack event s0
      = .ok (true, insert_at (renormalize s0) 0 event) := hres
  refine ⟨insert_at (renormalize s0) 0 event, hres, ?_, ?_, ?_, ?_⟩
  · rw [insert_at_stack, if_pos rfl]
  · intro j hj
    rw [insert_at_stack, if_neg hj, renormalize_f]
    exact hfree0 j
  · show toUInt8 (((renormalize s0).timer_event_count : Nat) + 1) = 1
    rw [renormalize_count, hcnt0]
    decide
  · intro cbs n fired
    have heta : (⟨event.f, event.next_event⟩ : timer_event) = event := rfl
    rw [timer_add_event_succ, heta]
    dsimp only
    rw [hres]
    dsimp only
    have hrun : (insert_at (renormalize s0) 0 event).timer_event_running = false := by
      show s0.timer_event_running = false
      exact hinit.2
    rw [if_pos hrun]
/-! ## Tie-break on equal deadlines -/

theorem scan_min_last (s : State) : ∀ (l : List (Fin 20)) (net : Int) (pos : Option Nat),
    l.Pairwise (fun a b => a < b) →
    ∀ i ∈ l, (s.timer_event_stack i).f ≠ none →
      (s.timer_event_stack i).next_event = (scan_min s l net pos).1 →
      ∃ p, (scan_min s l net pos).2 = some p ∧ i.val ≤ p := by
  intro l
  induction l with
  | nil => intro net pos _ i hi; simp at hi
  | cons a l ih =>
    intro net pos hp i hi hio hd
    have hpa := (List.pairwise_cons.mp hp).1
    have hpl := (List.pairwise_cons.mp hp).2
    by_cases hc : (s.timer_event_stack a).f ≠ none ∧ (s.timer_event_stack a).next_event ≤ net
    · rw [scan_min_cons_le s a l net pos hc] at hd ⊢
      rcases List.mem_cons.mp hi with h | h
      · subst h
        rcases (scan_min_spec s l (s.timer_event_stack i).next_event (some i.val)).2.2
          with h2 | ⟨j, hj, _, h2⟩
        · exact ⟨i.val, by rw [h2], le_refl _⟩
        · exact ⟨j.val, by rw [h2], le_of_lt (hpa j hj)⟩
      · exact ih _ _ hpl i h hio hd
    · rw [scan_min_cons_skip s a l net pos hc] at hd ⊢
      rcases List.mem_cons.mp hi with h | h
      · subst h
        exfalso
        have h1 := (scan_min_spec s l net pos).1
        apply hc
        refine ⟨hio, ?_⟩
        rw [hd]; exact h1
      · exact ih _ _ hpl i h hio hd

/-- Claim C18. Tie-break on equal deadlines: on a store whose count is at
least two and matches the occupied slots, with some pending deadline at most
0xFFFFFF after renormalization, `timer_get_next_event` returns an occupied
slot of minimal deadline whose index is greater than or equal to that of
every occupied slot sharing that deadline: the highest index among the tied
slots. The result is a function of the store. -/
theorem timer_get_next_event_tie_break (s : State) (h2 : 2 ≤ s.timer_event_count)
    (hinv : s.timer_event_count = occupied_count s)
    (hb : ∃ i, (s.timer_event_stack i).f ≠ none ∧
      toInt32 ((s.timer_event_stack i).next_event - toInt32 s.hal.counter) ≤ 16777215) :
    ∃ (p : Fin 20) (s' : State), timer_get_next_event s = .ok (p.val, s') ∧
      timer_update_stack s = .ok s' ∧
      (s'.timer_event_stack p).f ≠ none ∧
      (s'.timer_event_stack p).next_event ≤ 16777215 ∧
      (∀ j, (s'.timer_event_stack j).f ≠ none →
        (s'.timer_event_stack p).next_event ≤ (s'.timer_event_stack j).next_event) ∧
      (∀ j, (s'.timer_event_stack j).f ≠ none →
        (s'.timer_event_stack j).next_event = (s'.timer_event_stack p).next_event → j ≤ p) := by
  have h0 : s.timer_event_count ≠ 0 := by omega
  have hc1 : (renormalize s).timer_event_count ≠ 1 := by
    rw [renormalize_count]; omega
  have hinv' := renormalize_inv s hinv
  obtain ⟨i, hi, hle⟩ := hb
  have hi' : ((renormalize s).timer_event_stack i).f ≠ none := by
    rw [renormalize_f]; exact hi
  have hle' : ((renormalize s).timer_event_stack i).next_event ≤ 16777215 := by
    simpa [renormalize, hi, renorm_slot] using hle
  obtain ⟨p, _, hpo, hres⟩ := scan_min_found (renormalize s) slots 16777215 none
    ⟨i, mem_slots i, hi', hle'⟩
  have hspec := scan_min_spec (renormalize s) slots 16777215 none
  have hloop := get_next_loop_many (renormalize s) hc1 slots 16777215 none 0
    (by rw [Nat.zero_add]; exact hinv'.symm) (by rw [renormalize_count]; omega)
  refine ⟨p, renormalize s, ?_, update_stack_ok s hinv, hpo, ?_, ?_, ?_⟩
  · simp only [timer_get_next_event, h0, if_false, update_stack_ok s hinv, hloop, hres]
  · have := hspec.1
    rw [hres] at this
    exact this
  · intro j hj
    have := hspec.2.1 j (mem_slots j) hj
    rw [hres] at this
    exact this
  · intro j hj hd
    obtain ⟨q, hq, hjq⟩ := scan_min_last (renormalize s) slots 16777215 none slots_sorted
      j (mem_slots j) hj (by rw [hres]; exact hd)
    rw [hres] at hq
    have hqp : p.val = q := by simpa using hq
    exact Fin.le_def.mpr (by rw [hqp]; exact hjq)

/-- Claim C18, witness: deadlines 30, 10 and 10; slots 1 and 2 tie. -/
theorem timer_get_next_event_tie_break_witness :
    ∃ (p : Fin 20) (s' : State), timer_get_next_event tied_pending = .ok (p.val, s') ∧
      timer_update_stack tied_pending = .ok s' ∧
      (s'.timer_event_stack p).f ≠ none ∧
      (s'.timer_event_stack p).next_event ≤ 16777215 ∧
      (∀ j, (s'.timer_event_stack j).f ≠ none →
        (s'.timer_event_stack p).next_event ≤ (s'.timer_event_stack j).next_event) ∧
      (∀ j, (s'.timer_event_stack j).f ≠ none →
        (s'.timer_event_stack j).next_event = (s'.timer_event_stack p).next_event → j ≤ p) :=
  timer_get_next_event_tie_break tied_pending (by decide) (by decide) (by decide)

/-- The tie of `tied_pending` evaluated: slot 2, the later of the two slots
holding the deadline 10, is returned. -/
theorem tied_pending_selects_last :
    timer_get_next_event tied_pending = .ok (2, selected tied_pending) := rfl
/-! ## The armed-slot invariant -/

theorem get_next_ok_min (s s' : State) (p : Nat) (hinv : count_invariant s)
    (h : timer_get_next_event s = .ok (p, s')) :
    s' = renormalize s ∧ ∃ i : Fin 20, i.val = p ∧ occ s' i ∧
      ∀ j, occ s' j → dl s' i ≤ dl s' j := by
  obtain ⟨_, hs', _⟩ := get_next_inv s s' p (Or.inl hinv) h
  subst hs'
  refine ⟨rfl, ?_⟩
  obtain ⟨_, i, hi, hio⟩ := get_next_frame s _ p h
  refine ⟨i, hi, hio, ?_⟩
  have hinv' := renormalize_inv s hinv
  have h0 : s.timer_event_count ≠ 0 := by
    intro h0
    simp [timer_get_next_event, h0] at h
  by_cases hc : s.timer_event_count = 1
  · intro j hj
    have hocc1 : occupied_count (renormalize s) = 1 := by
      rw [← hinv', renormalize_count, hc]
    rw [occ_unique _ hocc1 i j hio hj]
  · have hc' : (renormalize s).timer_event_count ≠ 1 := hc
    have hloop := get_next_loop_many (renormalize s) hc' slots 16777215 none 0
      (by rw [Nat.zero_add]; exact hinv'.symm) (by rw [renormalize_count]; omega)
    simp only [timer_get_next_event, h0, if_false, update_stack_ok s hinv, hloop] at h
    have hspec := scan_min_spec (renormalize s) slots 16777215 none
    rcases hspec.2.2 with hr | ⟨k, _, hko, hr⟩
    · rw [hr] at h
      simp at h
    · rw [hr] at h
      simp only [Except.ok.injEq, Prod.mk.injEq, and_true] at h
      have hki : k = i := Fin.ext (by rw [h, hi])
      subst hki
      intro j hj
      have := hspec.2.1 j (mem_slots j) hj
      rw [hr] at this
      exact this

theorem renormalize_range (s : State) (j : Fin 20) (hj : occ (renormalize s) j) :
    -2147483648 ≤ dl (renormalize s) j ∧ dl (renormalize s) j ≤ 2147483647 := by
  have hj' : (s.timer_event_stack j).f ≠ none := by
    have := hj
    simp only [occ, renormalize_f] at this
    exact this
  simp only [dl, renormalize, ne_eq, hj', not_false_eq_true, if_true, renorm_slot]
  exact toInt32_range _

theorem armed_after_arm (s : State) (p : Fin 20) (hpo : occ s p)
    (hmin : ∀ j, occ s j → dl s p ≤ dl s j)
    (hr : dl s p ≤ 2147483647) :
    armed (arm (toInt32 ((s.timer_event_stack p).next_event - 1))
      { s with timer_next_event_position := p.val }) := by
  intro _
  refine ⟨p, rfl, hpo, hmin, rfl, ?_, rfl⟩
  intro hlo
  have hr' : (s.timer_event_stack p).next_event ≤ 2147483647 := hr
  have hlo' : 1 ≤ (s.timer_event_stack p).next_event := hlo
  have hex : toInt32 ((s.timer_event_stack p).next_event - 1)
      = (s.timer_event_stack p).next_event - 1 :=
    toInt32_of_range _ (by clear * - hlo'; omega) (by clear * - hr'; omega)
  show ((toUInt32 (toInt32 ((s.timer_event_stack p).next_event - 1)) : Nat) : Int)
    = (s.timer_event_stack p).next_event - 1
  rw [hex]
  exact toUInt32_of_range _ (by clear * - hlo'; omega) (by clear * - hr'; omega)

theorem armed_step (cbs : Callbacks) : ∀ n : Nat,
    (∀ w w', (count_invariant w.st ∨ overcounted w.st) →
      timer_completed cbs n w = .ok w' → armed w'.st) ∧
    (∀ w w', (count_invariant w.st ∨ overcounted w.st) →
      timer_configure_next_event cbs n w = .ok w' → armed w'.st) := by
  intro n
  induction n with
  | zero =>
    refine ⟨?_, ?_⟩ <;> intros <;>
      simp_all [timer_completed, timer_configure_next_event]
  | succ n ih =>
    obtain ⟨ihC, ihG⟩ := ih
    refine ⟨?_, ?_⟩
    · intro w w' hj h
      by_cases hp : w.st.timer_next_event_position < 20
      · cases hc : (w.st.timer_event_stack ⟨w.st.timer_next_event_position, hp⟩).f with
        | none => rw [timer_completed_null cbs n w hp hc] at h; simp at h
        | some c =>
          rw [timer_completed_succ cbs n w hp c hc] at h
          have hj1 := dispatch_inv w.st ⟨w.st.timer_next_event_position, hp⟩ c hc hj
          revert h
          generalize dispatch_state w.st ⟨w.st.timer_next_event_position, hp⟩ = s1 at hj1 ⊢
          intro h
          cases hr : run_callback cbs n (cbs c s1) ⟨s1, w.fired ++ [(c, s1)]⟩ with
          | error e => simp [hr] at h
          | ok w1 =>
            simp only [hr] at h
            have hj2 := (invariant_step cbs n).2.1 _ _ w1 hj1 hr
            by_cases hcnt : w1.st.timer_event_count > 0
            · simp only [hcnt, if_true] at h
              cases hg : timer_configure_next_event cbs n w1 with
              | error e => simp [hg] at h
              | ok w2 =>
                simp only [hg] at h
                injection h with h
                subst h
                exact ihG w1 w2 hj2 hg
            · simp only [hcnt, if_false] at h
              injection h with h
              subst h
              intro hpos
              exact absurd hpos hcnt
      · rw [timer_completed_oob cbs n w hp] at h; simp at h
    · intro w w' hj h
      cases hg : timer_get_next_event w.st with
      | error e => simp [timer_configure_next_event, hg] at h
      | ok r =>
        obtain ⟨p, s⟩ := r
        obtain ⟨hinv, _, _⟩ := get_next_inv _ _ _ hj hg
        obtain ⟨hs, i, hi, hio, hmin⟩ := get_next_ok_min _ _ _ hinv hg
        subst hi
        rw [timer_configure_succ cbs n w i s hg] at h
        have hinvs : count_invariant s := by rw [hs]; exact renormalize_inv _ hinv
        split at h
        · exact ihC _ w' (Or.inl hinvs) h
        · rename_i hgt
          injection h with h
          subst h
          have hr : dl s i ≤ 2147483647 := by
            have hio' := hio
            rw [hs] at hio' ⊢
            exact (renormalize_range _ i hio').2
          exact armed_after_arm s i hio hmin hr

theorem reachable_armed (cbs : Callbacks) (hal_timer_init : Hal → Hal) (w : Sys)
    (h : Reachable cbs hal_timer_init w) : armed w.st := by
  induction h with
  | init s =>
    intro hpos
    exact absurd hpos (by show ¬ (0 < 0); omega)
  | add_event w w' n ev b hreach hstep ih =>
    obtain ⟨hinv, hrun⟩ := reachable_inv cbs hal_timer_init w hreach
    cases n with
    | zero => simp [timer_add_event] at hstep
    | succ n =>
      rw [timer_add_event_succ] at hstep
      cases hs : timer_add_event_in_stack ⟨ev.f, ev.next_event⟩ w.st with
      | error e => simp [hs] at hstep
      | ok r =>
        obtain ⟨b1, s⟩ := r
        obtain ⟨hjs, hrun1, hsame⟩ := add_in_stack_inv _ _ _ _ hinv hs
        simp only [hs] at hstep
        cases b1 with
        | false =>
          simp only [Except.ok.injEq, Prod.mk.injEq] at hstep
          have hss := hsame rfl
          subst hss
          rw [← hstep.2]
          exact ih
        | true =>
          have hr : s.timer_event_running = false := by rw [hrun1]; exact hrun
          simp only [hr, if_true] at hstep
          cases hg : timer_configure_next_event cbs n ⟨s, w.fired⟩ with
          | error e => simp [hg] at hstep
          | ok w2 =>
            simp only [hg, Except.ok.injEq, Prod.mk.injEq] at hstep
            rw [← hstep.2]
            exact (armed_step cbs n).2 ⟨s, w.fired⟩ w2 hjs hg
  | completed w w' n hreach hstep _ =>
    obtain ⟨hinv, _⟩ := reachable_inv cbs hal_timer_init w hreach
    exact (armed_step cbs n).1 w w' (Or.inl hinv) hstep
  | elapse w c _ ih => exact ih

/-- The armed-slot property holds in every state reached from `timer_init`,
here at the state after one admission of 50 ticks. -/
theorem after_one_admission_armed : armed after_one_admission.st :=
  reachable_armed no_callbacks id after_one_admission
    (Reachable.add_event ⟨timer_init id one_due, []⟩ after_one_admission 2 ⟨some 1, 50⟩ true
      (Reachable.init one_due) rfl)

/-- Claim C19, evaluated at a failing input. After `timer_init` and one
`timer_add_event` of an event whose deadline lies 50 ticks in the past, the
call has returned with the event pending in slot 0, no callback invoked and
the interrupt enabled, and the compare register holds 4294967245, which is
`(uint32_t)(-51)` and not the deadline minus one. -/
theorem armed_slot_overdue_compare :
    Reachable no_callbacks id after_overdue_admission ∧
    0 < after_overdue_admission.st.timer_event_count ∧
    after_overdue_admission.st.timer_next_event_position = 0 ∧
    (after_overdue_admission.st.timer_event_stack 0).f = some 1 ∧
    (after_overdue_admission.st.timer_event_stack 0).next_event = -50 ∧
    after_overdue_admission.st.hal.compare = 4294967245 ∧
    (after_overdue_admission.st.hal.compare : Int)
      ≠ (after_overdue_admission.st.timer_event_stack 0).next_event - 1 ∧
    after_overdue_admission.st.hal.interrupt_enabled = true ∧
    after_overdue_admission.fired.length = 0 := by
  refine ⟨?_, by decide, by decide, by decide, by decide, by decide, by decide, by decide,
    by decide⟩
  exact Reachable.add_event ⟨timer_init id one_due, []⟩ after_overdue_admission 2
    ⟨some 1, -50⟩ true (Reachable.init one_due) (by with_unfolding_all rfl)

/-! ## Bounded synchronous dispatch -/

theorem scan_min_far (s : State) : ∀ (l : List (Fin 20)) (net : Int) (pos : Option Nat),
    (∀ i ∈ l, occ s i → net < dl s i) → scan_min s l net pos = (net, pos) := by
  intro l
  induction l with
  | nil => intros; rfl
  | cons a l ih =>
    intro net pos h
    have ha : ¬ ((s.timer_event_stack a).f ≠ none ∧ (s.timer_event_stack a).next_event ≤ net) := by
      rintro ⟨h1, h2⟩
      have h3 : net < (s.timer_event_stack a).next_event := h a (List.mem_cons_self _ _) h1
      omega
    simp only [scan_min, ha, if_false]
    exact ih net pos (fun i hi => h i (List.mem_cons_of_mem _ hi))

theorem get_next_far (s : State) (hinv : count_invariant s) (h2 : 2 ≤ s.timer_event_count)
    (hfar : ∀ j, occ (renormalize s) j → 16777215 < dl (renormalize s) j) :
    timer_get_next_event s = .error (.undefined, renormalize s) := by
  have h0 : s.timer_event_count ≠ 0 := by omega
  have hinv' := renormalize_inv s hinv
  have hc' : (renormalize s).timer_event_count ≠ 1 := by
    rw [renormalize_count]; omega
  simp only [timer_get_next_event, h0, if_false, update_stack_ok s hinv]
  rw [get_next_loop_many (renormalize s) hc' slots 16777215 none 0
    (by rw [Nat.zero_add]; exact hinv'.symm) (by rw [renormalize_count]; omega),
    scan_min_far (renormalize s) slots 16777215 none (fun i _ hi => hfar i hi)]

theorem timer_configure_error (cbs : Callbacks) (n : Nat) (w : Sys) (e : Fault × State)
    (hg : timer_get_next_event w.st = .error e) :
    timer_configure_next_event cbs (n + 1) w = .error (liftFault w.fired e) := by
  simp only [timer_configure_next_event, hg]

theorem renormalize_dispatch_slot (s : State) (p j : Fin 20) (hj : occ s j) (hjp : j ≠ p) :
    occ (renormalize (dispatch_state s p)) j ∧
    dl (renormalize (dispatch_state s p)) j = toInt32 (dl s j - toInt32 s.hal.counter) := by
  have hjd : occ (dispatch_state s p) j := (dispatch_occ s p j).mpr ⟨hj, hjp⟩
  have hst : (dispatch_state s p).timer_event_stack j = s.timer_event_stack j := by
    rw [dispatch_stack, if_neg hjp]
  have hv : (renormalize (dispatch_state s p)).timer_event_stack j
      = renorm_slot (toInt32 (dispatch_state s p).hal.counter)
          ((dispatch_state s p).timer_event_stack j) := by
    simp only [renormalize]
    rw [if_pos hjd]
  constructor
  · show ((renormalize (dispatch_state s p)).timer_event_stack j).f ≠ none
    rw [renormalize_f]; exact hjd
  · show ((renormalize (dispatch_state s p)).timer_event_stack j).next_event = _
    rw [hv, hst]
    rfl

theorem occ_other (s : State) (i : Fin 20) (h : 2 ≤ occupied_count s) :
    ∃ j, j ≠ i ∧ occ s j := by
  by_contra hno
  have hall : ∀ j, occ s j → j = i := by
    intro j hj
    by_contra hji
    exact hno ⟨j, hji, hj⟩
  have h1 : slots.countP (fun j => (s.timer_event_stack j).f.isSome)
      ≤ slots.countP (fun j => j == i) := by
    apply List.countP_mono_left
    intro j _ hj
    have hjo : occ s j := by
      intro hn
      rw [hn] at hj
      exact absurd hj (by simp)
    rw [hall j hjo]
    exact beq_self_eq_true i
  have h2 : slots.countP (fun j => j == i) ≤ 1 :=
    List.nodup_iff_count_le_one.mp slots_nodup i
  unfold occupied_count at h
  omega

theorem completed_bounded (cbs : Callbacks) : ∀ (k n : Nat) (w : Sys) (p : Fin 20),
    w.st.timer_event_count = k → 2 * k + 1 ≤ n → count_invariant w.st →
    w.st.timer_next_event_position = p.val → occ w.st p →
    (∀ j c, (w.st.timer_event_stack j).f = some c → ∀ s, cbs c s = []) →
    (∃ w', timer_completed cbs n w = .ok w' ∧ count_invariant w'.st ∧
      w'.st.timer_event_count < k ∧
      w'.fired.length + w'.st.timer_event_count = w.fired.length + k ∧
      w'.st.timer_event_running = false) ∨
    (∃ w', timer_completed cbs n w = .error (.undefined, w') ∧
      2 ≤ w'.st.timer_event_count ∧
      (∀ j, occ w'.st j → 16777215 < dl w'.st j) ∧
      w'.fired.length + w'.st.timer_event_count = w.fired.length + k ∧
      count_invariant w'.st ∧
      (∀ j, occ w'.st j → occ w.st j ∧ dl w'.st j = remaining w.st j)) := by
  intro k
  induction k with
  | zero =>
    intro n w p hk _ hinv _ hpo _
    exact absurd hpo (no_occ_of_count_zero w.st hinv hk p)
  | succ k ih =>
    intro n w p hk hn hinv hpos hpocc hcb
    obtain ⟨m, rfl⟩ : ∃ m, n = m + 2 := ⟨n - 2, by omega⟩
    obtain ⟨c, hc⟩ : ∃ c, (w.st.timer_event_stack p).f = some c := by
      cases h : (w.st.timer_event_stack p).f with
      | none => exact absurd h hpocc
      | some c => exact ⟨c, rfl⟩
    rw [completed_single cbs (m + 1) w p c hpos hc, hcb p c hc, run_callback_nil]
    dsimp only
    obtain ⟨hinv1, hcnt1⟩ := dispatch_inv_of_inv w.st p c hc hinv
    have hcnt1' : (dispatch_state w.st p).timer_event_count = k := by omega
    by_cases hk0 : k = 0
    · have hz : ¬ ((dispatch_state w.st p).timer_event_count > 0) := by omega
      rw [if_neg hz]
      left
      refine ⟨_, rfl, hinv1, ?_, ?_, rfl⟩
      · show (dispatch_state w.st p).timer_event_count < k + 1
        omega
      · show (w.fired ++ [(c, dispatch_state w.st p)]).length
          + (dispatch_state w.st p).timer_event_count = w.fired.length + (k + 1)
        rw [List.length_append, List.length_singleton]
        omega
    · have hpos1 : (dispatch_state w.st p).timer_event_count > 0 := by omega
      rw [if_pos hpos1]
      have htrack1 : ∀ j, occ (renormalize (dispatch_state w.st p)) j →
          occ w.st j ∧ dl (renormalize (dispatch_state w.st p)) j = remaining w.st j := by
        intro j hj
        have hj' : occ (dispatch_state w.st p) j := by
          show ((dispatch_state w.st p).timer_event_stack j).f ≠ none
          rw [← renormalize_f]; exact hj
        obtain ⟨hjo, hjp⟩ := (dispatch_occ w.st p j).mp hj'
        exact ⟨hjo, (renormalize_dispatch_slot w.st p j hjo hjp).2⟩
      generalize hs1 : dispatch_state w.st p = s1 at hinv1 hcnt1 hcnt1' hpos1 htrack1 ⊢
      have hocc1 : ∀ j, occ s1 j ↔ (occ w.st j ∧ j ≠ p) := by
        intro j; rw [← hs1]; exact dispatch_occ w.st p j
      have hst1 : ∀ j, j ≠ p → s1.timer_event_stack j = w.st.timer_event_stack j := by
        intro j hj; rw [← hs1, dispatch_stack, if_neg hj]
      have hcntr : (renormalize s1).timer_event_count = k := by
        rw [renormalize_count]; exact hcnt1'
      by_cases hnear : s1.timer_event_count = 1 ∨
          ∃ i, ((renormalize s1).timer_event_stack i).f ≠ none ∧
            ((renormalize s1).timer_event_stack i).next_event ≤ 16777215
      · obtain ⟨p', hg, hp'o, _⟩ := get_next_spec s1 hinv1 (by clear * - hpos1; omega) hnear
        rw [timer_configure_succ cbs m ⟨s1, w.fired ++ [(c, s1)]⟩ p' (renormalize s1) hg]
        by_cases hfire : toUInt32 (toInt32 (((renormalize s1).timer_event_stack p').next_event - 1))
            ≤ toUInt32 ((hal_timer_getvalue (renormalize s1) : Nat) : Int)
        · -- the test finds the next deadline elapsed as well
          rw [if_pos hfire]
          have hstep := ih m ⟨{ renormalize s1 with timer_next_event_position := p'.val },
              w.fired ++ [(c, s1)]⟩ p' hcntr (by clear * - hn; omega)
              (renormalize_inv _ hinv1) rfl hp'o
              (by
                intro j c' hj s
                have hj' : ((renormalize s1).timer_event_stack j).f = some c' := hj
                rw [renormalize_f] at hj'
                have hjo : occ s1 j := by
                  show (s1.timer_event_stack j).f ≠ none
                  rw [hj']; simp
                rw [hst1 j ((hocc1 j).mp hjo).2] at hj'
                exact hcb j c' hj' s)
          rcases hstep with ⟨w2, hres, hinv2, hlt2, hlen2, _⟩ |
            ⟨w2, hres, h22, hfar2, hlen2, hinv2, htr2⟩
          · rw [hres]
            left
            refine ⟨end_running w2, rfl, hinv2, ?_, ?_, rfl⟩
            · show w2.st.timer_event_count < k + 1
              clear * - hlt2
              omega
            · show w2.fired.length + w2.st.timer_event_count = w.fired.length + (k + 1)
              have hlen2' : w2.fired.length + w2.st.timer_event_count
                  = (w.fired ++ [(c, s1)]).length + k := hlen2
              rw [List.length_append, List.length_singleton] at hlen2'
              clear * - hlen2'
              omega
          · rw [hres]
            right
            refine ⟨w2, rfl, h22, hfar2, ?_, hinv2, ?_⟩
            · have hlen2' : w2.fired.length + w2.st.timer_event_count
                  = (w.fired ++ [(c, s1)]).length + k := hlen2
              rw [List.length_append, List.length_singleton] at hlen2'
              clear * - hlen2'
              omega
            · intro j hj
              obtain ⟨hjS, hjd⟩ := htr2 j hj
              have hjR : occ (renormalize s1) j := hjS
              obtain ⟨hjo, hjv⟩ := htrack1 j hjR
              refine ⟨hjo, ?_⟩
              have hr := renormalize_range s1 j hjR
              have h0 : toInt32 ((0 : Nat) : Int) = 0 := by decide
              have hjd' : dl w2.st j
                  = toInt32 (dl (renormalize s1) j - toInt32 ((0 : Nat) : Int)) := hjd
              rw [hjd', h0, Int.sub_zero, toInt32_of_range _ hr.1 hr.2]
              exact hjv
        · -- the next deadline lies ahead for the test
          rw [if_neg hfire]
          left
          refine ⟨_, rfl, ?_, ?_, ?_, rfl⟩
          · exact count_invariant_congr (renormalize s1) _ rfl rfl (renormalize_inv _ hinv1)
          · show (renormalize s1).timer_event_count < k + 1
            rw [hcntr]; omega
          · show (w.fired ++ [(c, s1)]).length + (renormalize s1).timer_event_count
              = w.fired.length + (k + 1)
            rw [List.length_append, List.length_singleton, hcntr]
            omega
      · -- two or more events are left and every deadline exceeds 0xFFFFFF
        have hne1 : s1.timer_event_count ≠ 1 := fun h => hnear (Or.inl h)
        have hfar : ∀ j, occ (renormalize s1) j → 16777215 < dl (renormalize s1) j := by
          intro j hj
          by_contra hle
          exact hnear (Or.inr ⟨j, hj, by
            show dl (renormalize s1) j ≤ 16777215
            clear * - hle
            omega⟩)
        have h2 : 2 ≤ s1.timer_event_count := by clear * - hpos1 hne1; omega
        rw [timer_configure_error cbs m ⟨s1, w.fired ++ [(c, s1)]⟩ _
          (get_next_far s1 hinv1 h2 hfar)]
        right
        refine ⟨⟨renormalize s1, w.fired ++ [(c, s1)]⟩, rfl, ?_, hfar, ?_,
          renormalize_inv _ hinv1, htrack1⟩
        · show 2 ≤ (renormalize s1).timer_event_count
          rw [hcntr, ← hcnt1']; exact h2
        · show (w.fired ++ [(c, s1)]).length + (renormalize s1).timer_event_count
            = w.fired.length + (k + 1)
          rw [List.length_append, List.length_singleton, hcntr]
          omega

theorem add_event_bounded (cbs : Callbacks) (F : Nat) (w : Sys) (c : Nat) (d : Int)
    (hF : 2 * w.st.timer_event_count + 3 ≤ F)
    (hinv : count_invariant w.st)
    (hcb : ∀ j c', (w.st.timer_event_stack j).f = some c' → ∀ s, cbs c' s = [])
    (hc : ∀ s, cbs c s = []) :
    (∃ b w', timer_add_event cbs (F + 2) ⟨some c, d⟩ w = .ok (b, w') ∧
      w'.fired.length + w'.st.timer_event_count
        = w.fired.length + w.st.timer_event_count + (if b = true then 1 else 0)) ∨
    (∃ w', timer_add_event cbs (F + 2) ⟨some c, d⟩ w = .error (.undefined, w') ∧
      2 ≤ w'.st.timer_event_count ∧
      (∀ j, occ w'.st j → 16777215 < dl w'.st j) ∧
      w'.fired.length + w'.st.timer_event_count
        = w.fired.length + w.st.timer_event_count + 1 ∧
      count_invariant w'.st ∧
      ∃ i, ∀ j, occ w'.st j → j = i ∨ (occ w.st j ∧ dl w'.st j = remaining w.st j)) := by
  by_cases hfull : ∀ i, (w.st.timer_event_stack i).f ≠ none
  · left
    refine ⟨false, w, ?_, by simp⟩
    rw [timer_add_event_succ, add_in_stack_full _ w.st hfull]
  · have hex : ∃ i, (w.st.timer_event_stack i).f = none := by
      by_contra hne
      exact hfull (fun i hi => hne ⟨i, hi⟩)
    obtain ⟨i, hif, _, hres⟩ := add_in_stack_free ⟨some c, d⟩ w.st hex
    rw [update_stack_ok w.st hinv] at hres
    replace hres : timer_add_event_in_stack ⟨some c, d⟩ w.st
        = .ok (true, insert_at (renormalize w.st) i ⟨some c, d⟩) := hres
    have hif' : ((renormalize w.st).timer_event_stack i).f = none := by
      rw [renormalize_f]; exact hif
    obtain ⟨hinv1, hcnt1⟩ := insert_at_inv (renormalize w.st) i c d (renormalize_inv _ hinv) hif'
    rw [renormalize_count] at hcnt1
    generalize hs1 : insert_at (renormalize w.st) i ⟨some c, d⟩ = s1 at hres hinv1 hcnt1
    have hstack1 : ∀ j, s1.timer_event_stack j
        = if j = i then ⟨some c, d⟩ else (renormalize w.st).timer_event_stack j := by
      intro j; rw [← hs1]; exact insert_at_stack _ _ _ _
    have hctr1 : s1.hal.counter = 0 := by rw [← hs1]; rfl
    have htrackS : ∀ j, occ (renormalize s1) j →
        j = i ∨ (occ w.st j ∧ dl (renormalize s1) j = remaining w.st j) := by
      intro j hj
      by_cases hji : j = i
      · exact Or.inl hji
      · right
        have hj1 : (s1.timer_event_stack j).f ≠ none := by
          rw [← renormalize_f]; exact hj
        have hst : s1.timer_event_stack j = (renormalize w.st).timer_event_stack j := by
          rw [hstack1 j, if_neg hji]
        have hjw : occ w.st j := by
          show (w.st.timer_event_stack j).f ≠ none
          rw [← renormalize_f, ← hst]; exact hj1
        have hvw : (renormalize w.st).timer_event_stack j
            = renorm_slot (toInt32 w.st.hal.counter) (w.st.timer_event_stack j) := by
          simp only [renormalize]
          rw [if_pos hjw]
        have hvs : (renormalize s1).timer_event_stack j
            = renorm_slot (toInt32 s1.hal.counter) (s1.timer_event_stack j) := by
          simp only [renormalize]
          rw [if_pos hj1]
        refine ⟨hjw, ?_⟩
        show ((renormalize s1).timer_event_stack j).next_event = remaining w.st j
        rw [hvs, hst, hvw, hctr1]
        show toInt32 (remaining w.st j - toInt32 ((0 : Nat) : Int)) = remaining w.st j
        have h0 : toInt32 ((0 : Nat) : Int) = 0 := by decide
        have hr := toInt32_range ((w.st.timer_event_stack j).next_event - toInt32 w.st.hal.counter)
        rw [h0, Int.sub_zero]
        exact toInt32_of_range _ hr.1 hr.2
    rw [timer_add_event_succ, hres]
    dsimp only
    by_cases hrun : s1.timer_event_running = false
    · rw [if_pos hrun]
      by_cases hnear : s1.timer_event_count = 1 ∨
          ∃ j, ((renormalize s1).timer_event_stack j).f ≠ none ∧
            ((renormalize s1).timer_event_stack j).next_event ≤ 16777215
      · obtain ⟨p, hg, hpo, _⟩ := get_next_spec s1 hinv1 (by rw [hcnt1]; omega) hnear
        rw [timer_configure_succ cbs F ⟨s1, w.fired⟩ p (renormalize s1) hg]
        by_cases hfire : toUInt32 (toInt32 (((renormalize s1).timer_event_stack p).next_event - 1))
            ≤ toUInt32 ((hal_timer_getvalue (renormalize s1) : Nat) : Int)
        · rw [if_pos hfire]
          have hstep := completed_bounded cbs (w.st.timer_event_count + 1) F
            ⟨{ renormalize s1 with timer_next_event_position := p.val }, w.fired⟩ p hcnt1
            (by clear * - hF; omega)
            (renormalize_inv _ hinv1) rfl hpo
            (by
              intro j c' hj s
              have hj' : ((renormalize s1).timer_event_stack j).f = some c' := hj
              rw [renormalize_f, hstack1 j] at hj'
              by_cases hji : j = i
              · simp only [hji, if_true, Option.some.injEq] at hj'
                rw [← hj']; exact hc s
              · simp only [hji, if_false] at hj'
                rw [renormalize_f] at hj'
                exact hcb j c' hj' s)
          rcases hstep with ⟨w2, hres2, _, _, hlen2, _⟩ |
            ⟨w2, hres2, h22, hfar2, hlen2, hinv2, htr2⟩
          · rw [hres2]
            left
            refine ⟨true, w2, rfl, ?_⟩
            have hlen2' : w2.fired.length + w2.st.timer_event_count
                = w.fired.length + (w.st.timer_event_count + 1) := hlen2
            rw [if_pos rfl]
            clear * - hlen2'
            omega
          · rw [hres2]
            right
            refine ⟨w2, rfl, h22, hfar2, ?_, hinv2, i, ?_⟩
            · have hlen2' : w2.fired.length + w2.st.timer_event_count
                  = w.fired.length + (w.st.timer_event_count + 1) := hlen2
              clear * - hlen2'
              omega
            · intro j hj
              obtain ⟨hjS, hjd⟩ := htr2 j hj
              have hjR : occ (renormalize s1) j := hjS
              rcases htrackS j hjR with hji | ⟨hjo, hjv⟩
              · exact Or.inl hji
              · right
                refine ⟨hjo, ?_⟩
                have hr := renormalize_range s1 j hjR
                have h0 : toInt32 ((0 : Nat) : Int) = 0 := by decide
                have hjd' : dl w2.st j
                    = toInt32 (dl (renormalize s1) j - toInt32 ((0 : Nat) : Int)) := hjd
                rw [hjd', h0, Int.sub_zero, toInt32_of_range _ hr.1 hr.2]
                exact hjv
        · rw [if_neg hfire]
          left
          refine ⟨true, _, rfl, ?_⟩
          show w.fired.length + (renormalize s1).timer_event_count = _
          rw [renormalize_count, hcnt1, if_pos rfl]
          omega
      · have hne1 : s1.timer_event_count ≠ 1 := fun h => hnear (Or.inl h)
        have hfar : ∀ j, occ (renormalize s1) j → 16777215 < dl (renormalize s1) j := by
          intro j hj
          by_contra hle
          exact hnear (Or.inr ⟨j, hj, by
            show dl (renormalize s1) j ≤ 16777215
            clear * - hle
            omega⟩)
        have h2 : 2 ≤ s1.timer_event_count := by
          rw [hcnt1] at hne1 ⊢
          clear * - hne1
          omega
        rw [timer_configure_error cbs F ⟨s1, w.fired⟩ _ (get_next_far s1 hinv1 h2 hfar)]
        right
        refine ⟨⟨renormalize s1, w.fired⟩, rfl, ?_, hfar, ?_, renormalize_inv _ hinv1, i,
          htrackS⟩
        · show 2 ≤ (renormalize s1).timer_event_count
          rw [renormalize_count]; exact h2
        · show w.fired.length + (renormalize s1).timer_event_count = _
          rw [renormalize_count, hcnt1]
          omega
    · rw [if_neg hrun]
      left
      refine ⟨true, _, rfl, ?_⟩
      show w.fired.length + s1.timer_event_count = _
      rw [hcnt1, if_pos rfl]
      omega

/-- Claim C20, counterexample. On stores satisfying the count invariant with
callbacks that admit nothing: admitting an event with a NULL callback ends in
the trap of `timer_update_stack`; `timer_completed` on the empty store calls
through NULL; admitting a third event when every deadline exceeds 0xFFFFFF
returns an unassigned position. -/
theorem dispatch_not_always_returning :
    (count_invariant (timer_init id one_due) ∧
      fault_of (timer_add_event no_callbacks 3 ⟨none, 10⟩ ⟨timer_init id one_due, []⟩)
        = some Fault.trap) ∧
    fault_of (timer_completed no_callbacks 3 ⟨timer_init id one_due, []⟩)
      = some Fault.undefined ∧
    (count_invariant two_far ∧
      fault_of (timer_add_event no_callbacks 3 ⟨some 3, 16777216⟩ ⟨two_far, []⟩)
        = some Fault.undefined) := by
  refine ⟨⟨by decide, by decide⟩, by decide, by decide, by decide⟩

/-- Claim C20, amended. Bounded synchronous dispatch: on a store whose count
`n` matches the occupied slots and whose pending callbacks admit nothing,
`timer_completed`, entered with `timer_next_event_position` on an occupied
slot, and `timer_add_event`, for any deadline and a non-NULL callback that
admits nothing, come to an end within the call depth `2 * n + 5`. Each level
of the recursion fires one callback and lowers the count by one: the number
of invocations plus the count is conserved (plus one for the event admitted),
so `timer_completed` fires at most `n` callbacks and `timer_add_event` at
most `n + 1`. The call returns, unless `timer_get_next_event` is entered with
two or more pending events whose deadlines all exceed 0xFFFFFF, where it
reads its unassigned `next_event_position`; no trap is reached. In
particular both calls return when every pending deadline is at most 0xFFFFFF
once the elapsed time is subtracted. -/
theorem synchronous_dispatch_bounded (cbs : Callbacks) (m : Nat) (w : Sys)
    (hinv : w.st.timer_event_count = occupied_count w.st)
    (hcb : ∀ j c, (w.st.timer_event_stack j).f = some c → ∀ s, cbs c s = []) :
    (∀ p : Fin 20, w.st.timer_next_event_position = p.val →
      (w.st.timer_event_stack p).f ≠ none →
      (∃ w', timer_completed cbs (m + 2 * w.st.timer_event_count + 1) w = .ok w' ∧
        w'.st.timer_event_count < w.st.timer_event_count ∧
        w'.fired.length + w'.st.timer_event_count
          = w.fired.length + w.st.timer_event_count) ∨
      (∃ w', timer_completed cbs (m + 2 * w.st.timer_event_count + 1) w
          = .error (.undefined, w') ∧
        2 ≤ w'.st.timer_event_count ∧
        (∀ j, (w'.st.timer_event_stack j).f ≠ none →
          16777215 < (w'.st.timer_event_stack j).next_event) ∧
        w'.fired.length + w'.st.timer_event_count
          = w.fired.length + w.st.timer_event_count)) ∧
    (∀ (c : Nat) (d : Int), (∀ s, cbs c s = []) →
      (∃ b w', timer_add_event cbs (m + 2 * w.st.timer_event_count + 5) ⟨some c, d⟩ w
          = .ok (b, w') ∧
        w'.fired.length + w'.st.timer_event_count
          = w.fired.length + w.st.timer_event_count + (if b = true then 1 else 0)) ∨
      (∃ w', timer_add_event cbs (m + 2 * w.st.timer_event_count + 5) ⟨some c, d⟩ w
          = .error (.undefined, w') ∧
        2 ≤ w'.st.timer_event_count ∧
        (∀ j, (w'.st.timer_event_stack j).f ≠ none →
          16777215 < (w'.st.timer_event_stack j).next_event) ∧
        w'.fired.length + w'.st.timer_event_count
          = w.fired.length + w.st.timer_event_count + 1)) ∧
    ((∀ j, (w.st.timer_event_stack j).f ≠ none → remaining w.st j ≤ 16777215) →
      (∀ p : Fin 20, w.st.timer_next_event_position = p.val →
        (w.st.timer_event_stack p).f ≠ none →
        ∃ w', timer_completed cbs (m + 2 * w.st.timer_event_count + 1) w = .ok w') ∧
      (∀ (c : Nat) (d : Int), (∀ s, cbs c s = []) →
        ∃ b w', timer_add_event cbs (m + 2 * w.st.timer_event_count + 5) ⟨some c, d⟩ w
          = .ok (b, w'))) := by
  refine ⟨?_, ?_, ?_⟩
  · intro p hp hpo
    rcases completed_bounded cbs w.st.timer_event_count
      (m + 2 * w.st.timer_event_count + 1) w p rfl (by omega) hinv hp hpo hcb with
      ⟨w', hres, _, hlt, hlen, _⟩ | ⟨w', hres, h2, hfar, hlen, _, _⟩
    · exact Or.inl ⟨w', hres, hlt, hlen⟩
    · exact Or.inr ⟨w', hres, h2, hfar, hlen⟩
  · intro c d hc
    rcases add_event_bounded cbs (m + 2 * w.st.timer_event_count + 3) w c d (by omega)
      hinv hcb hc with ⟨b, w', hres, hlen⟩ | ⟨w', hres, h2, hfar, hlen, _, _⟩
    · exact Or.inl ⟨b, w', hres, hlen⟩
    · exact Or.inr ⟨w', hres, h2, hfar, hlen⟩
  · intro hb
    constructor
    · intro p hp hpo
      rcases completed_bounded cbs w.st.timer_event_count
        (m + 2 * w.st.timer_event_count + 1) w p rfl (by omega) hinv hp hpo hcb with
        ⟨w', hres, _⟩ | ⟨w', _, h2, hfar, _, hinv', htr⟩
      · exact ⟨w', hres⟩
      · exfalso
        have hinv'' : w'.st.timer_event_count = occupied_count w'.st := hinv'
        obtain ⟨j, hj⟩ := occ_exists w'.st (by omega)
        obtain ⟨hjo, hjd⟩ := htr j hj
        have h1 := hfar j hj
        have h3 := hb j hjo
        rw [hjd] at h1
        omega
    · intro c d hc
      rcases add_event_bounded cbs (m + 2 * w.st.timer_event_count + 3) w c d (by omega)
        hinv hcb hc with ⟨b, w', hres, _⟩ | ⟨w', _, h2, hfar, _, hinv', i, htr⟩
      · exact ⟨b, w', hres⟩
      · exfalso
        have hinv'' : w'.st.timer_event_count = occupied_count w'.st := hinv'
        obtain ⟨j, hji, hj⟩ := occ_other w'.st i (by omega)
        rcases htr j hj with h | ⟨hjo, hjd⟩
        · exact hji h
        · have h1 := hfar j hj
          have h3 := hb j hjo
          rw [hjd] at h1
          omega

/-- Claim C20, witness: the two pending events of `two_pending` with callbacks
that admit nothing. -/
theorem synchronous_dispatch_bounded_witness :
    (∀ p : Fin 20, two_pending.timer_next_event_position = p.val →
      (two_pending.timer_event_stack p).f ≠ none →
      (∃ w', timer_completed no_callbacks (0 + 2 * two_pending.timer_event_count + 1)
          ⟨two_pending, []⟩ = .ok w' ∧
        w'.st.timer_event_count < two_pending.timer_event_count ∧
        w'.fired.length + w'.st.timer_event_count
          = ([] : List (Nat × State)).length + two_pending.timer_event_count) ∨
      (∃ w', timer_completed no_callbacks (0 + 2 * two_pending.timer_event_count + 1)
          ⟨two_pending, []⟩ = .error (.undefined, w') ∧
        2 ≤ w'.st.timer_event_count ∧
        (∀ j, (w'.st.timer_event_stack j).f ≠ none →
          16777215 < (w'.st.timer_event_stack j).next_event) ∧
        w'.fired.length + w'.st.timer_event_count
          = ([] : List (Nat × State)).length + two_pending.timer_event_count)) ∧
    (∀ (c : Nat) (d : Int), (∀ s, no_callbacks c s = []) →
      (∃ b w', timer_add_event no_callbacks (0 + 2 * two_pending.timer_event_count + 5)
          ⟨some c, d⟩ ⟨two_pending, []⟩ = .ok (b, w') ∧
        w'.fired.length + w'.st.timer_event_count
          = ([] : List (Nat × State)).length + two_pending.timer_event_count
            + (if b = true then 1 else 0)) ∨
      (∃ w', timer_add_event no_callbacks (0 + 2 * two_pending.timer_event_count + 5)
          ⟨some c, d⟩ ⟨two_pending, []⟩ = .error (.undefined, w') ∧
        2 ≤ w'.st.timer_event_count ∧
        (∀ j, (w'.st.timer_event_stack j).f ≠ none →
          16777215 < (w'.st.timer_event_stack j).next_event) ∧
        w'.fired.length + w'.st.timer_event_count
          = ([] : List (Nat × State)).length + two_pending.timer_event_count + 1)) ∧
    ((∀ j, (two_pending.timer_event_stack j).f ≠ none →
        remaining two_pending j ≤ 16777215) →
      (∀ p : Fin 20, two_pending.timer_next_event_position = p.val →
        (two_pending.timer_event_stack p).f ≠ none →
        ∃ w', timer_completed no_callbacks (0 + 2 * two_pending.timer_event_count + 1)
          ⟨two_pending, []⟩ = .ok w') ∧
      (∀ (c : Nat) (d : Int), (∀ s, no_callbacks c s = []) →
        ∃ b w', timer_add_event no_callbacks (0 + 2 * two_pending.timer_event_count + 5)
          ⟨some c, d⟩ ⟨two_pending, []⟩ = .ok (b, w'))) :=
  synchronous_dispatch_bounded no_callbacks 0 ⟨two_pending, []⟩ (by decide)
    (fun _ _ _ _ => rfl)

/-! ## Exhaustion, then one event fires -/

theorem occupied_count_full (s : State) (h : ∀ j, (s.timer_event_stack j).f ≠ none) :
    occupied_count s = 20 := by
  have hall : ∀ i ∈ slots, (fun i => (s.timer_event_stack i).f.isSome) i = true := by
    intro i _
    show (s.timer_event_stack i).f.isSome = true
    cases hf : (s.timer_event_stack i).f with
    | none => exact absurd hf (h i)
    | some c => rfl
  unfold occupied_count
  rw [List.countP_eq_length.mpr hall]
  rfl

theorem completed_fires_one (cbs : Callbacks) (n : Nat) (w : Sys) (p : Fin 20) (c : Nat)
    (hinv : count_invariant w.st) (h2 : 2 ≤ w.st.timer_event_count)
    (hp : w.st.timer_next_event_position = p.val)
    (hc : (w.st.timer_event_stack p).f = some c)
    (hcb : cbs c (dispatch_state w.st p) = [])
    (hnd : ∀ j, occ w.st j → j ≠ p → 2 ≤ toInt32 (dl w.st j - toInt32 w.st.hal.counter))
    (hnear : ∃ j, occ w.st j ∧ j ≠ p ∧
      toInt32 (dl w.st j - toInt32 w.st.hal.counter) ≤ 16777215) :
    ∃ q : Fin 20,
      timer_completed cbs (n + 2) w
        = .ok (end_running
            ⟨arm (toInt32 (dl (renormalize (dispatch_state w.st p)) q - 1))
              { renormalize (dispatch_state w.st p) with timer_next_event_position := q.val },
              w.fired ++ [(c, dispatch_state w.st p)]⟩) ∧
      occ (renormalize (dispatch_state w.st p)) q := by
  rw [completed_single cbs (n + 1) w p c hp hc, hcb, run_callback_nil]
  dsimp only
  obtain ⟨hinv1, hcnt1⟩ := dispatch_inv_of_inv w.st p c hc hinv
  have hpos1 : (dispatch_state w.st p).timer_event_count > 0 := by omega
  rw [if_pos hpos1]
  have hval := renormalize_dispatch_slot w.st p
  obtain ⟨j0, hj0, hj0p, hj0le⟩ := hnear
  obtain ⟨q, hg, hqo, _⟩ := get_next_spec (dispatch_state w.st p) hinv1
    (by clear * - hpos1; omega)
    (Or.inr ⟨j0, (hval j0 hj0 hj0p).1, by
      show dl (renormalize (dispatch_state w.st p)) j0 ≤ _
      rw [(hval j0 hj0 hj0p).2]; exact hj0le⟩)
  have hqw : occ w.st q ∧ q ≠ p := by
    have hq' : occ (dispatch_state w.st p) q := by
      show ((dispatch_state w.st p).timer_event_stack q).f ≠ none
      rw [← renormalize_f]; exact hqo
    exact (dispatch_occ w.st p q).mp hq'
  have hq2 : 2 ≤ dl (renormalize (dispatch_state w.st p)) q := by
    rw [(hval q hqw.1 hqw.2).2]; exact hnd q hqw.1 hqw.2
  have hqr := renormalize_range (dispatch_state w.st p) q hqo
  rw [timer_configure_signed cbs n
    ⟨dispatch_state w.st p, w.fired ++ [(c, dispatch_state w.st p)]⟩
    q (renormalize (dispatch_state w.st p)) hg
    (by
      have hq2' : 2 ≤ ((renormalize (dispatch_state w.st p)).timer_event_stack q).next_event :=
        hq2
      have hqr' : ((renormalize (dispatch_state w.st p)).timer_event_stack q).next_event
          ≤ 2147483647 := hqr.2
      rw [toInt32_of_range _ (by clear * - hq2'; omega) (by clear * - hqr'; omega)]
      clear * - hq2'
      omega)
    (by show (0 : Nat) < 4294967296; decide)]
  have hnf : ¬ toInt32 (((renormalize (dispatch_state w.st p)).timer_event_stack q).next_event - 1)
      ≤ ((hal_timer_getvalue (renormalize (dispatch_state w.st p)) : Nat) : Int) := by
    have hq2' : 2 ≤ ((renormalize (dispatch_state w.st p)).timer_event_stack q).next_event := hq2
    have hqr' : ((renormalize (dispatch_state w.st p)).timer_event_stack q).next_event
        ≤ 2147483647 := hqr.2
    rw [toInt32_of_range _ (by clear * - hq2'; omega) (by clear * - hqr'; omega)]
    show ¬ _ ≤ ((0 : Nat) : Int)
    clear * - hq2'
    omega
  rw [if_neg hnf]
  exact ⟨q, rfl, hqo⟩

theorem configure_arms_min (cbs : Callbacks) (n : Nat) (w : Sys) (q : Fin 20)
    (hinv : count_invariant w.st) (h1 : 1 ≤ w.st.timer_event_count)
    (hqo : occ (renormalize w.st) q)
    (hqmin : ∀ j, occ (renormalize w.st) j → dl (renormalize w.st) q ≤ dl (renormalize w.st) j)
    (hqnear : w.st.timer_event_count = 1 ∨ dl (renormalize w.st) q ≤ 16777215)
    (hnt : ¬ found_elapsed (toInt32 (dl (renormalize w.st) q - 1)) 0) :
    ∃ p : Fin 20,
      timer_configure_next_event cbs (n + 1) w
        = .ok ⟨arm (toInt32 (dl (renormalize w.st) p - 1))
            { renormalize w.st with timer_next_event_position := p.val }, w.fired⟩ ∧
      occ (renormalize w.st) p ∧ dl (renormalize w.st) p = dl (renormalize w.st) q := by
  obtain ⟨p, hg, hpo, hpmin⟩ := get_next_spec w.st hinv h1
    (hqnear.imp id (fun h => ⟨q, hqo, h⟩))
  have heq : dl (renormalize w.st) p = dl (renormalize w.st) q :=
    le_antisymm (hpmin q hqo) (hqmin p hpo)
  rw [timer_configure_succ cbs n w p (renormalize w.st) hg]
  have hnf : ¬ toUInt32 (toInt32 (((renormalize w.st).timer_event_stack p).next_event - 1))
      ≤ toUInt32 ((hal_timer_getvalue (renormalize w.st) : Nat) : Int) := by
    show ¬ found_elapsed (toInt32 (dl (renormalize w.st) p - 1)) 0
    rw [heq]
    exact hnt
  rw [if_neg hnf]
  exact ⟨p, rfl, hpo, heq⟩

theorem add_event_arms_min (cbs : Callbacks) (n : Nat) (w : Sys) (c : Nat) (d : Int)
    (hinv : count_invariant w.st) (hrun : w.st.timer_event_running = false)
    (i : Fin 20) (hif : (w.st.timer_event_stack i).f = none)
    (himin : ∀ j, j < i → (w.st.timer_event_stack j).f ≠ none)
    (q : Fin 20)
    (hqo : occ (renormalize (insert_at (renormalize w.st) i ⟨some c, d⟩)) q)
    (hqmin : ∀ j, occ (renormalize (insert_at (renormalize w.st) i ⟨some c, d⟩)) j →
      dl (renormalize (insert_at (renormalize w.st) i ⟨some c, d⟩)) q
        ≤ dl (renormalize (insert_at (renormalize w.st) i ⟨some c, d⟩)) j)
    (hqnear : w.st.timer_event_count = 0 ∨
      dl (renormalize (insert_at (renormalize w.st) i ⟨some c, d⟩)) q ≤ 16777215)
    (hnt : ¬ found_elapsed
      (toInt32 (dl (renormalize (insert_at (renormalize w.st) i ⟨some c, d⟩)) q - 1)) 0) :
    ∃ p : Fin 20,
      timer_add_event cbs (n + 2) ⟨some c, d⟩ w
        = .ok (true,
            ⟨arm (toInt32 (dl (renormalize (insert_at (renormalize w.st) i ⟨some c, d⟩)) p - 1))
              { renormalize (insert_at (renormalize w.st) i ⟨some c, d⟩) with
                timer_next_event_position := p.val }, w.fired⟩) := by
  obtain ⟨k, hkf, hkmin, hres⟩ := add_in_stack_free ⟨some c, d⟩ w.st ⟨i, hif⟩
  have hki := first_free_unique w.st i k hif himin hkf hkmin
  subst hki
  rw [update_stack_ok w.st hinv] at hres
  replace hres : timer_add_event_in_stack ⟨some c, d⟩ w.st
      = .ok (true, insert_at (renormalize w.st) k ⟨some c, d⟩) := hres
  have hkf' : ((renormalize w.st).timer_event_stack k).f = none := by
    rw [renormalize_f]; exact hkf
  obtain ⟨hinv1, hcnt1⟩ := insert_at_inv (renormalize w.st) k c d (renormalize_inv _ hinv) hkf'
  rw [renormalize_count] at hcnt1
  have hrun1 : (insert_at (renormalize w.st) k ⟨some c, d⟩).timer_event_running = false := hrun
  obtain ⟨p, hconf, _, _⟩ := configure_arms_min cbs n
    ⟨insert_at (renormalize w.st) k ⟨some c, d⟩, w.fired⟩ q hinv1
    (by
      show 1 ≤ (insert_at (renormalize w.st) k ⟨some c, d⟩).timer_event_count
      rw [hcnt1]; omega)
    hqo hqmin
    (hqnear.imp (fun h => by
      show (insert_at (renormalize w.st) k ⟨some c, d⟩).timer_event_count = 1
      rw [hcnt1, h]) id)
    hnt
  refine ⟨p, ?_⟩
  rw [timer_add_event_succ, hres]
  dsimp only
  rw [if_pos hrun1, hconf]

theorem completed_fires_only (cbs : Callbacks) (n : Nat) (w : Sys) (p : Fin 20) (c : Nat)
    (hinv : count_invariant w.st) (h2 : 2 ≤ w.st.timer_event_count)
    (hp : w.st.timer_next_event_position = p.val)
    (hc : (w.st.timer_event_stack p).f = some c)
    (hcb : cbs c (dispatch_state w.st p) = [])
    (q : Fin 20) (hqo : occ w.st q) (hqp : q ≠ p)
    (hqmin : ∀ j, occ w.st j → j ≠ p → remaining w.st q ≤ remaining w.st j)
    (hqnear : w.st.timer_event_count = 2 ∨ remaining w.st q ≤ 16777215)
    (hqnd : ¬ found_elapsed (toInt32 (remaining w.st q - 1)) 0) :
    ∃ q' : Fin 20,
      timer_completed cbs (n + 2) w
        = .ok (end_running
            ⟨arm (toInt32 (dl (renormalize (dispatch_state w.st p)) q' - 1))
              { renormalize (dispatch_state w.st p) with timer_next_event_position := q'.val },
              w.fired ++ [(c, dispatch_state w.st p)]⟩) := by
  rw [completed_single cbs (n + 1) w p c hp hc, hcb, run_callback_nil]
  dsimp only
  obtain ⟨hinv1, hcnt1⟩ := dispatch_inv_of_inv w.st p c hc hinv
  have hpos1 : (dispatch_state w.st p).timer_event_count > 0 := by omega
  rw [if_pos hpos1]
  have hval := renormalize_dispatch_slot w.st p
  have hback : ∀ j, occ (renormalize (dispatch_state w.st p)) j → occ w.st j ∧ j ≠ p := by
    intro j hj
    have hj' : occ (dispatch_state w.st p) j := by
      show ((dispatch_state w.st p).timer_event_stack j).f ≠ none
      rw [← renormalize_f]; exact hj
    exact (dispatch_occ w.st p j).mp hj'
  obtain ⟨q', hconf, _, _⟩ := configure_arms_min cbs n
    ⟨dispatch_state w.st p, w.fired ++ [(c, dispatch_state w.st p)]⟩ q hinv1
    (by
      show 1 ≤ (dispatch_state w.st p).timer_event_count
      clear * - hpos1
      omega)
    (hval q hqo hqp).1
    (by
      intro j hj
      obtain ⟨hjo, hjp⟩ := hback j hj
      rw [(hval q hqo hqp).2, (hval j hjo hjp).2]
      exact hqmin j hjo hjp)
    (hqnear.imp
      (fun h => by
        show (dispatch_state w.st p).timer_event_count = 1
        clear * - h hcnt1
        omega)
      (fun h => by
        rw [(hval q hqo hqp).2]
        exact h))
    (by
      rw [(hval q hqo hqp).2]
      exact hqnd)
  rw [hconf]
  exact ⟨q', rfl⟩

theorem full_store_fires_one (cbs : Callbacks) (n : Nat) (w : Sys) (p q : Fin 20) (c : Nat)
    (hfull : ∀ j, (w.st.timer_event_stack j).f ≠ none)
    (hcnt : w.st.timer_event_count = 20)
    (hp : w.st.timer_next_event_position = p.val)
    (hc : (w.st.timer_event_stack p).f = some c)
    (hcb : cbs c (dispatch_state w.st p) = [])
    (hqp : q ≠ p)
    (hqmin : ∀ j, j ≠ p → remaining w.st q ≤ remaining w.st j)
    (hqnear : remaining w.st q ≤ 16777215)
    (hqnd : ¬ found_elapsed (toInt32 (remaining w.st q - 1)) 0) :
    ∃ w1, timer_completed cbs (n + 2) w = .ok w1 ∧
      w1.fired = w.fired ++ [(c, dispatch_state w.st p)] ∧
      w1.st.timer_event_stack = (renormalize (dispatch_state w.st p)).timer_event_stack ∧
      w1.st.timer_event_count = 19 ∧
      w1.st.timer_event_running = false ∧ w1.st.hal.counter = 0 ∧
      count_invariant w1.st := by
  have hinv : count_invariant w.st := by
    show w.st.timer_event_count = occupied_count w.st
    rw [occupied_count_full w.st hfull, hcnt]
  obtain ⟨hinvD, hcntD⟩ := dispatch_inv_of_inv w.st p c hc hinv
  obtain ⟨q', hres⟩ := completed_fires_only cbs n w p c hinv (by omega) hp hc hcb
    q (hfull q) hqp (fun j _ hjp => hqmin j hjp) (Or.inr hqnear) hqnd
  refine ⟨_, hres, rfl, rfl, ?_, rfl, rfl, ?_⟩
  · show (dispatch_state w.st p).timer_event_count = 19
    omega
  · exact count_invariant_congr (renormalize (dispatch_state w.st p)) _ rfl rfl
      (renormalize_inv _ hinvD)

theorem admit_one_tick_fires (cbs : Callbacks) (m : Nat) (w1 : Sys) (p : Fin 20) (c2 : Nat)
    (hinv1 : count_invariant w1.st) (hrun1 : w1.st.timer_event_running = false)
    (hctr1 : w1.st.hal.counter = 0)
    (hif : (w1.st.timer_event_stack p).f = none)
    (himin : ∀ j, j < p → (w1.st.timer_event_stack j).f ≠ none)
    (hge2 : ∀ j, occ w1.st j → 2 ≤ dl w1.st j ∧ dl w1.st j ≤ 2147483647)
    (hnear : ∃ j, occ w1.st j ∧ dl w1.st j ≤ 16777215)
    (hcb : ∀ s, cbs c2 s = []) :
    ∃ w2, timer_add_event cbs (m + 4) ⟨some c2, 1⟩ w1 = .ok (true, w2) ∧
      (∃ s, w2.fired = w1.fired ++ [(c2, s)]) ∧
      (w2.st.timer_event_stack p).f = none ∧
      w2.st.timer_event_count = w1.st.timer_event_count := by
  have hsame : renormalize w1.st = w1.st :=
    renormalize_same w1.st hctr1 (fun j hj => ⟨by have := (hge2 j hj).1; omega, (hge2 j hj).2⟩)
  obtain ⟨k, hkf, hkmin, hres⟩ := add_in_stack_free ⟨some c2, 1⟩ w1.st ⟨p, hif⟩
  have hkp := first_free_unique w1.st p k hif himin hkf hkmin
  subst hkp
  rw [update_stack_ok w1.st hinv1, hsame] at hres
  replace hres : timer_add_event_in_stack ⟨some c2, 1⟩ w1.st
      = .ok (true, insert_at w1.st k ⟨some c2, 1⟩) := hres
  obtain ⟨hinvS, hcntS⟩ := insert_at_inv w1.st k c2 1 hinv1 hif
  generalize hS : insert_at w1.st k ⟨some c2, 1⟩ = S at hres hinvS hcntS
  have hstack : ∀ j, S.timer_event_stack j
      = if j = k then ⟨some c2, 1⟩ else w1.st.timer_event_stack j := by
    intro j; rw [← hS]; exact insert_at_stack _ _ _ _
  have hcS : S.hal.counter = 0 := by rw [← hS]; exact hctr1
  have hrunS : S.timer_event_running = false := by rw [← hS]; exact hrun1
  have hkS : S.timer_event_stack k = ⟨some c2, 1⟩ := by rw [hstack k, if_pos rfl]
  have hotherS : ∀ j, j ≠ k → occ S j → occ w1.st j ∧ dl S j = dl w1.st j := by
    intro j hjk hj
    have hj' : (S.timer_event_stack j).f ≠ none := hj
    rw [hstack j, if_neg hjk] at hj'
    refine ⟨hj', ?_⟩
    show (S.timer_event_stack j).next_event = _
    rw [hstack j, if_neg hjk]
  have hrangeS : ∀ j, occ S j → -2147483648 ≤ dl S j ∧ dl S j ≤ 2147483647 := by
    intro j hj
    by_cases hjk : j = k
    · subst hjk
      show -2147483648 ≤ (S.timer_event_stack j).next_event
        ∧ (S.timer_event_stack j).next_event ≤ 2147483647
      rw [hkS]
      show -2147483648 ≤ (1 : Int) ∧ (1 : Int) ≤ 2147483647
      decide
    · obtain ⟨hjw, hjd⟩ := hotherS j hjk hj
      rw [hjd]
      have := hge2 j hjw
      clear * - this
      omega
  have hsameS : renormalize S = S := renormalize_same S hcS hrangeS
  have hkocc : occ S k := by
    show (S.timer_event_stack k).f ≠ none
    rw [hkS]; simp
  obtain ⟨p', hg, hp'o, hp'min⟩ := get_next_spec S hinvS (by rw [hcntS]; omega)
    (Or.inr ⟨k, by rw [hsameS]; exact hkocc, by
      rw [hsameS, hkS]
      show (1 : Int) ≤ 16777215
      decide⟩)
  rw [hsameS] at hg hp'o hp'min
  have hp'k : p' = k := by
    by_contra hne
    obtain ⟨hp'w, hp'd⟩ := hotherS p' hne hp'o
    have h1 : dl S p' ≤ dl S k := hp'min k hkocc
    have h2 : dl S k = 1 := by
      show (S.timer_event_stack k).next_event = 1
      rw [hkS]
    have h3 := (hge2 p' hp'w).1
    rw [hp'd, h2] at h1
    clear * - h1 h3
    omega
  subst hp'k
  rw [timer_add_event_succ, hres]
  dsimp only
  have hconf : timer_configure_next_event cbs (m + 3) ⟨S, w1.fired⟩ = _ :=
    timer_configure_succ cbs (m + 2) ⟨S, w1.fired⟩ p' S hg
  rw [if_pos hrunS, hconf]
  have hfire : toUInt32 (toInt32 ((S.timer_event_stack p').next_event - 1))
      ≤ toUInt32 ((hal_timer_getvalue S : Nat) : Int) := by
    rw [hkS]
    show toUInt32 (toInt32 (1 - 1)) ≤ toUInt32 ((S.hal.counter : Nat) : Int)
    rw [hcS]
    decide
  rw [if_pos hfire]
  have hcntS2 : 2 ≤ S.timer_event_count := by
    obtain ⟨j, hj, _⟩ := hnear
    have hpos : 1 ≤ occupied_count w1.st := by
      unfold occupied_count
      exact List.countP_pos_iff.mpr ⟨j, mem_slots j, by
        cases hf : (w1.st.timer_event_stack j).f with
        | none => exact absurd hf hj
        | some _ => rfl⟩
    have hi1 : w1.st.timer_event_count = occupied_count w1.st := hinv1
    rw [hcntS]
    clear * - hpos hi1
    omega
  obtain ⟨q, hres2, hqo⟩ := completed_fires_one cbs m
    ⟨{ S with timer_next_event_position := p'.val }, w1.fired⟩ p' c2
    (count_invariant_congr S _ rfl rfl hinvS) hcntS2 rfl
    (by show (S.timer_event_stack p').f = some c2; rw [hkS]) (hcb _)
    (by
      intro j hj hjk
      obtain ⟨hjw, hjd⟩ := hotherS j hjk hj
      show 2 ≤ toInt32 (dl S j - toInt32 ((S.hal.counter : Nat) : Int))
      rw [hcS, hjd]
      have h0 : toInt32 ((0 : Nat) : Int) = 0 := by decide
      have hr := hge2 j hjw
      rw [h0, Int.sub_zero, toInt32_of_range _ (by clear * - hr; omega) hr.2]
      exact hr.1)
    (by
      obtain ⟨j, hj, hle⟩ := hnear
      have hjk : j ≠ p' := by
        intro hjk
        apply hj
        rw [hjk]; exact hif
      have hjS : occ S j := by
        show (S.timer_event_stack j).f ≠ none
        rw [hstack j, if_neg hjk]; exact hj
      refine ⟨j, hjS, hjk, ?_⟩
      show toInt32 (dl S j - toInt32 ((S.hal.counter : Nat) : Int)) ≤ 16777215
      rw [hcS, (hotherS j hjk hjS).2]
      have h0 : toInt32 ((0 : Nat) : Int) = 0 := by decide
      have hr := hge2 j hj
      rw [h0, Int.sub_zero, toInt32_of_range _ (by clear * - hr; omega) hr.2]
      exact hle)
  have hres2' : timer_completed cbs (m + 2)
      ⟨{ S with timer_next_event_position := p'.val }, w1.fired⟩ = _ := hres2
  rw [hres2']
  refine ⟨_, rfl, ⟨_, rfl⟩, ?_, ?_⟩
  · show ((renormalize (dispatch_state
      { S with timer_next_event_position := p'.val } p')).timer_event_stack p').f = none
    rw [renormalize_f, dispatch_stack, if_pos rfl]
  · show (dispatch_state { S with timer_next_event_position := p'.val } p').timer_event_count
      = w1.st.timer_event_count
    have hd := (dispatch_inv_of_inv { S with timer_next_event_position := p'.val } p' c2
      (by show (S.timer_event_stack p').f = some c2; rw [hkS])
      (count_invariant_congr S _ rfl rfl hinvS)).2
    have hd' : (dispatch_state { S with timer_next_event_position := p'.val } p').timer_event_count
        + 1 = S.timer_event_count := hd
    exact Nat.add_right_cancel (hd'.trans hcntS)

/-- Claim C14, amended. Exhaustion then fire frees capacity: for every state
with all 20 slots occupied (`timer_event_count = 20`) whose
`timer_next_event_position` is `p`, `timer_add_event` returns false and leaves
the state as it is. When the callback of slot `p` admits nothing and the
earliest of the other events, slot `q`, has a deadline of at most 0xFFFFFF
once the elapsed time is subtracted and is not found elapsed by the test of
`timer_configure_next_event`, one `timer_completed` invokes only the callback
of slot `p` and leaves 19 events with slot `p` free. The immediately
following `timer_add_event` of an event with a non-NULL callback, whose
deadline is not found elapsed by that test either when it is the earliest,
returns true, invokes no callback, stores the event in slot `p` and brings
`timer_event_count` back to 20. -/
theorem exhaustion_then_fire (cbs : Callbacks) (n m : Nat) (w : Sys) (p q : Fin 20)
    (c c2 : Nat) (d : Int) (e0 : timer_event)
    (hfull : ∀ j, (w.st.timer_event_stack j).f ≠ none)
    (hcnt : w.st.timer_event_count = 20)
    (hp : w.st.timer_next_event_position = p.val)
    (hc : (w.st.timer_event_stack p).f = some c)
    (hcb : cbs c (dispatch_state w.st p) = [])
    (hqp : q ≠ p)
    (hqmin : ∀ j, j ≠ p → remaining w.st q ≤ remaining w.st j)
    (hqnear : remaining w.st q ≤ 16777215)
    (hqnd : ¬ found_elapsed (toInt32 (remaining w.st q - 1)) 0)
    (hd : -2147483648 ≤ d ∧ d ≤ 2147483647)
    (hdnd : d < remaining w.st q → ¬ found_elapsed (toInt32 (d - 1)) 0) :
    timer_add_event cbs (n + 1) e0 w = .ok (false, w) ∧
    ∃ w1, timer_completed cbs (n + 2) w = .ok w1 ∧
      w1.fired = w.fired ++ [(c, dispatch_state w.st p)] ∧
      w1.st.timer_event_count = 19 ∧ (w1.st.timer_event_stack p).f = none ∧
      ∃ w2, timer_add_event cbs (m + 2) ⟨some c2, d⟩ w1 = .ok (true, w2) ∧
        w2.st.timer_event_stack p = ⟨some c2, d⟩ ∧ w2.st.timer_event_count = 20 ∧
        w2.fired = w1.fired := by
  constructor
  · rw [timer_add_event_succ, add_in_stack_full _ w.st hfull]
  obtain ⟨w1, hw1, hfired1, hstack1, hcount1, hrun1, hctr1, hinv1⟩ :=
    full_store_fires_one cbs n w p q c hfull hcnt hp hc hcb hqp hqmin hqnear hqnd
  have hf1 : ∀ j, (w1.st.timer_event_stack j).f
      = if j = p then none else (w.st.timer_event_stack j).f := by
    intro j
    rw [hstack1, renormalize_f, dispatch_stack]
    by_cases hjp : j = p
    · rw [if_pos hjp, if_pos hjp]
    · rw [if_neg hjp, if_neg hjp]
  have hif : (w1.st.timer_event_stack p).f = none := by rw [hf1 p, if_pos rfl]
  have hval1 : ∀ j, j ≠ p → (w1.st.timer_event_stack j).next_event = remaining w.st j := by
    intro j hjp
    rw [hstack1]
    exact (renormalize_dispatch_slot w.st p j (hfull j) hjp).2
  have hocc1 : ∀ j, occ w1.st j → j ≠ p := by
    intro j hj hjp
    apply hj
    rw [hjp]; exact hif
  have hrange1 : ∀ j, occ w1.st j → -2147483648 ≤ dl w1.st j ∧ dl w1.st j ≤ 2147483647 := by
    intro j hj
    show -2147483648 ≤ (w1.st.timer_event_stack j).next_event
      ∧ (w1.st.timer_event_stack j).next_event ≤ 2147483647
    rw [hval1 j (hocc1 j hj)]
    exact toInt32_range _
  have hsame : renormalize w1.st = w1.st := renormalize_same w1.st hctr1 hrange1
  -- the store holding the new event, which renormalization leaves as it is
  have hstS : ∀ j, (insert_at w1.st p ⟨some c2, d⟩).timer_event_stack j
      = if j = p then ⟨some c2, d⟩ else w1.st.timer_event_stack j :=
    fun j => insert_at_stack _ _ _ j
  have hSp : (insert_at w1.st p ⟨some c2, d⟩).timer_event_stack p = ⟨some c2, d⟩ := by
    rw [hstS p, if_pos rfl]
  have hSo : ∀ j, j ≠ p → (insert_at w1.st p ⟨some c2, d⟩).timer_event_stack j
      = w1.st.timer_event_stack j := by
    intro j hjp
    rw [hstS j, if_neg hjp]
  have hSval : ∀ j, j ≠ p →
      dl (insert_at w1.st p ⟨some c2, d⟩) j = remaining w.st j := by
    intro j hjp
    show ((insert_at w1.st p ⟨some c2, d⟩).timer_event_stack j).next_event = _
    rw [hSo j hjp]
    exact hval1 j hjp
  have hSd : dl (insert_at w1.st p ⟨some c2, d⟩) p = d := by
    show ((insert_at w1.st p ⟨some c2, d⟩).timer_event_stack p).next_event = d
    rw [hSp]
  have hSocc : ∀ j, j ≠ p → occ (insert_at w1.st p ⟨some c2, d⟩) j := by
    intro j hjp
    show ((insert_at w1.st p ⟨some c2, d⟩).timer_event_stack j).f ≠ none
    rw [hSo j hjp, hf1 j, if_neg hjp]
    exact hfull j
  have hSpocc : occ (insert_at w1.st p ⟨some c2, d⟩) p := by
    show ((insert_at w1.st p ⟨some c2, d⟩).timer_event_stack p).f ≠ none
    rw [hSp]; simp
  have hsameS : renormalize (insert_at w1.st p ⟨some c2, d⟩) = insert_at w1.st p ⟨some c2, d⟩ := by
    refine renormalize_same (insert_at w1.st p ⟨some c2, d⟩) hctr1 ?_
    intro j _
    by_cases hjp : j = p
    · rw [hjp, hSd]; exact hd
    · rw [hSval j hjp]; exact toInt32_range _
  have hS : renormalize (insert_at (renormalize w1.st) p ⟨some c2, d⟩)
      = insert_at w1.st p ⟨some c2, d⟩ := by
    rw [hsame, hsameS]
  refine ⟨w1, hw1, hfired1, hcount1, hif, ?_⟩
  have himin : ∀ j, j < p → (w1.st.timer_event_stack j).f ≠ none := by
    intro j hj
    rw [hf1 j, if_neg (Fin.ne_of_lt hj)]
    exact hfull j
  have hadd : ∃ p2 : Fin 20, timer_add_event cbs (m + 2) ⟨some c2, d⟩ w1
      = .ok (true,
          ⟨arm (toInt32 (dl (insert_at w1.st p ⟨some c2, d⟩) p2 - 1))
            { insert_at w1.st p ⟨some c2, d⟩ with
              timer_next_event_position := p2.val }, w1.fired⟩) := by
    by_cases hlt : d < remaining w.st q
    · -- the new event is the earliest
      have h := add_event_arms_min cbs m w1 c2 d hinv1 hrun1 p hif himin p
        (by rw [hS]; exact hSpocc)
        (by
          rw [hS]
          intro j _
          by_cases hjp : j = p
          · rw [hjp]
          · rw [hSd, hSval j hjp]
            have := hqmin j hjp
            clear * - this hlt
            omega)
        (Or.inr (by
          rw [hS, hSd]
          clear * - hlt hqnear
          omega))
        (by
          rw [hS, hSd]
          exact hdnd hlt)
      rw [hS] at h
      exact h
    · -- slot `q` stays the earliest
      have h := add_event_arms_min cbs m w1 c2 d hinv1 hrun1 p hif himin q
        (by rw [hS]; exact hSocc q hqp)
        (by
          rw [hS]
          intro j _
          by_cases hjp : j = p
          · rw [hjp, hSd, hSval q hqp]
            clear * - hlt
            omega
          · rw [hSval q hqp, hSval j hjp]
            exact hqmin j hjp)
        (Or.inr (by
          rw [hS, hSval q hqp]
          exact hqnear))
        (by
          rw [hS, hSval q hqp]
          exact hqnd)
      rw [hS] at h
      exact h
  obtain ⟨p2, hadd⟩ := hadd
  refine ⟨_, hadd, hSp, ?_, rfl⟩
  show (insert_at w1.st p ⟨some c2, d⟩).timer_event_count = 20
  rw [(insert_at_inv w1.st p c2 d hinv1 hif).2, hcount1]

/-- Claim C14, witness: the full store `full_one_due`, whose slot 0 fires and
takes the event admitted next, here with a deadline of 20000000 ticks. -/
theorem exhaustion_then_fire_witness :
    timer_add_event no_callbacks (0 + 1) ⟨some 99, 20000000⟩ ⟨full_one_due, []⟩
      = .ok (false, ⟨full_one_due, []⟩) ∧
    ∃ w1, timer_completed no_callbacks (0 + 2) ⟨full_one_due, []⟩ = .ok w1 ∧
      w1.fired = [] ++ [(0, dispatch_state full_one_due 0)] ∧
      w1.st.timer_event_count = 19 ∧ (w1.st.timer_event_stack 0).f = none ∧
      ∃ w2, timer_add_event no_callbacks (0 + 2) ⟨some 99, 20000000⟩ w1 = .ok (true, w2) ∧
        w2.st.timer_event_stack 0 = ⟨some 99, 20000000⟩ ∧ w2.st.timer_event_count = 20 ∧
        w2.fired = w1.fired :=
  exhaustion_then_fire no_callbacks 0 0 ⟨full_one_due, []⟩ 0 1 0 99 20000000
    ⟨some 99, 20000000⟩
    (by decide) rfl rfl rfl rfl (by decide) (by decide) (by decide) (by decide) (by decide)
    (by decide)

theorem full_two_due_chain :
    ∃ w1, timer_completed no_callbacks 4 ⟨full_two_due, []⟩ = .ok w1 ∧
      w1.fired.map Prod.fst = [1, 0] ∧ w1.st.timer_event_count = 18 ∧
      ∃ w2, timer_add_event no_callbacks 2 ⟨some 99, 500⟩ w1 = .ok (true, w2) ∧
        (w2.st.timer_event_stack 0).f = some 99 ∧
        (w2.st.timer_event_stack 1).f = none ∧ w2.st.timer_event_count = 19 := by
  -- the armed event fires
  have hcb1 : no_callbacks 1 (dispatch_state full_two_due 1) = [] := rfl
  rw [completed_single no_callbacks 3 ⟨full_two_due, []⟩ 1 1 rfl rfl, hcb1, run_callback_nil]
  dsimp only
  rw [if_pos (by decide)]
  -- the event of slot 0 is the next one, and it is due
  obtain ⟨q, hg, hqo, hmin⟩ := get_next_spec (dispatch_state full_two_due 1) (by decide)
    (by decide) (Or.inr ⟨0, by decide, by decide⟩)
  have hq0 : ∀ q : Fin 20, occ (renormalize (dispatch_state full_two_due 1)) q →
      dl (renormalize (dispatch_state full_two_due 1)) q ≤ dl (renormalize (dispatch_state full_two_due 1)) 0 → q = 0 := by decide
  obtain rfl : q = 0 := hq0 q hqo (hmin 0 (by decide))
  rw [timer_configure_succ no_callbacks 2 ⟨dispatch_state full_two_due 1, [] ++ [(1, dispatch_state full_two_due 1)]⟩ 0
    (renormalize (dispatch_state full_two_due 1)) hg]
  rw [if_pos (by decide)]
  -- it fires as well, and the remaining events are armed
  obtain ⟨q2, hres, _⟩ := completed_fires_one no_callbacks 0
    ⟨{ renormalize (dispatch_state full_two_due 1) with timer_next_event_position := (0 : Fin 20).val },
      [] ++ [(1, dispatch_state full_two_due 1)]⟩ 0 0
    (by decide) (by decide) rfl rfl rfl (by decide) ⟨2, by decide, by decide, by decide⟩
  have hres' : timer_completed no_callbacks 2
      ⟨{ renormalize (dispatch_state full_two_due 1) with timer_next_event_position := (0 : Fin 20).val },
        [] ++ [(1, dispatch_state full_two_due 1)]⟩ = _ := hres
  rw [hres']
  dsimp only
  have h18 : (renormalize (dispatch_state { renormalize (dispatch_state full_two_due 1) with timer_next_event_position := (0 : Fin 20).val } 0)).timer_event_count = 18 := by decide
  have hinvS : count_invariant (renormalize (dispatch_state { renormalize (dispatch_state full_two_due 1) with timer_next_event_position := (0 : Fin 20).val } 0)) := by decide
  have hslotsS : ∀ j, (j = 0 ∨ j = 1 → ((renormalize (dispatch_state { renormalize (dispatch_state full_two_due 1) with timer_next_event_position := (0 : Fin 20).val } 0)).timer_event_stack j).f = none) ∧
      (((renormalize (dispatch_state { renormalize (dispatch_state full_two_due 1) with timer_next_event_position := (0 : Fin 20).val } 0)).timer_event_stack j).f ≠ none →
        ((renormalize (dispatch_state { renormalize (dispatch_state full_two_due 1) with timer_next_event_position := (0 : Fin 20).val } 0)).timer_event_stack j).next_event = 991) := by decide
  have hfacts : ∃ w1 : Sys, w1 = end_running (end_running
        ⟨arm (toInt32 (dl (renormalize (dispatch_state { renormalize (dispatch_state full_two_due 1) with timer_next_event_position := (0 : Fin 20).val } 0)) q2 - 1))
          { renormalize (dispatch_state { renormalize (dispatch_state full_two_due 1) with timer_next_event_position := (0 : Fin 20).val } 0) with
            timer_next_event_position := q2.val },
          ([] ++ [(1, dispatch_state full_two_due 1)]) ++
            [(0, dispatch_state { renormalize (dispatch_state full_two_due 1) with timer_next_event_position := (0 : Fin 20).val } 0)]⟩) ∧
      w1.fired.map Prod.fst = [1, 0] ∧
      w1.st.timer_event_stack = (renormalize (dispatch_state { renormalize (dispatch_state full_two_due 1) with timer_next_event_position := (0 : Fin 20).val } 0)).timer_event_stack ∧
      w1.st.timer_event_count = (renormalize (dispatch_state { renormalize (dispatch_state full_two_due 1) with timer_next_event_position := (0 : Fin 20).val } 0)).timer_event_count ∧
      w1.st.timer_event_running = false ∧ w1.st.hal.counter = 0 :=
    ⟨_, rfl, rfl, rfl, rfl, rfl, rfl⟩
  obtain ⟨w1, hw1, hfired1, hstack1, hcount1, hrun1, hctr1⟩ := hfacts
  rw [← hw1]
  have hinv1 : count_invariant w1.st := count_invariant_congr _ w1.st hstack1 hcount1 hinvS
  rw [h18] at hcount1
  have hslots : ∀ j, (j = 0 ∨ j = 1 → (w1.st.timer_event_stack j).f = none) ∧
      ((w1.st.timer_event_stack j).f ≠ none → (w1.st.timer_event_stack j).next_event = 991) := by
    rw [hstack1]
    exact hslotsS
  have hsame : renormalize w1.st = w1.st :=
    renormalize_same w1.st hctr1 (fun j hj => by
      have h : (w1.st.timer_event_stack j).next_event = 991 := (hslots j).2 hj
      show -2147483648 ≤ (w1.st.timer_event_stack j).next_event
        ∧ (w1.st.timer_event_stack j).next_event ≤ 2147483647
      rw [h]
      decide)
  have hif : (w1.st.timer_event_stack 0).f = none := (hslots 0).1 (Or.inl rfl)
  refine ⟨w1, rfl, hfired1, hcount1, ?_⟩
  obtain ⟨p2, hadd, _, _⟩ := add_event_arms no_callbacks 0 w1 99 500 hinv1 hrun1 0 hif
    (fun j hj => absurd hj (Fin.not_lt_zero j)) (by decide)
    (by
      intro j hj
      rw [hsame]
      have h : (w1.st.timer_event_stack j).next_event = 991 := (hslots j).2 hj
      show 2 ≤ (w1.st.timer_event_stack j).next_event
      rw [h]
      decide)
  rw [hsame] at hadd
  refine ⟨_, hadd, ?_, ?_, ?_⟩
  · show ((insert_at w1.st 0 ⟨some 99, 500⟩).timer_event_stack 0).f = some 99
    rw [insert_at_stack, if_pos rfl]
  · show ((insert_at w1.st 0 ⟨some 99, 500⟩).timer_event_stack 1).f = none
    rw [insert_at_stack, if_neg (by decide)]
    exact (hslots 1).1 (Or.inr rfl)
  · show (insert_at w1.st 0 ⟨some 99, 500⟩).timer_event_count = 19
    rw [(insert_at_inv w1.st 0 99 500 hinv1 hif).2, hcount1]

theorem full_far_stops :
    fault_of (timer_completed no_callbacks 3 ⟨full_far, []⟩) = some Fault.undefined := by
  have hcb : no_callbacks 0 (dispatch_state full_far 0) = [] := rfl
  rw [completed_single no_callbacks 2 ⟨full_far, []⟩ 0 0 rfl rfl, hcb, run_callback_nil]
  dsimp only
  rw [if_pos (by decide),
    timer_configure_error no_callbacks 1
      ⟨dispatch_state full_far 0, [] ++ [(0, dispatch_state full_far 0)]⟩ _
      (get_next_far (dispatch_state full_far 0) (by decide) (by decide) (by decide))]
  rfl

theorem full_one_due_one_tick :
    ∃ w1, timer_completed no_callbacks 2 ⟨full_one_due, []⟩ = .ok w1 ∧
      w1.st.timer_event_count = 19 ∧
      ∃ w2, timer_add_event no_callbacks 4 ⟨some 99, 1⟩ w1 = .ok (true, w2) ∧
        w2.fired.map Prod.fst = [0, 99] ∧
        (w2.st.timer_event_stack 0).f = none ∧ w2.st.timer_event_count = 19 := by
  obtain ⟨w1, hw1, hfired1, hstack1, hcount1, hrun1, hctr1, hinv1⟩ :=
    full_store_fires_one no_callbacks 0 ⟨full_one_due, []⟩ 0 1 0 (by decide) rfl rfl rfl rfl
      (by decide) (by decide) (by decide) (by decide)
  have hslotsS : ∀ j,
      (j = 0 → ((renormalize (dispatch_state full_one_due 0)).timer_event_stack j).f = none) ∧
      (((renormalize (dispatch_state full_one_due 0)).timer_event_stack j).f ≠ none →
        ((renormalize (dispatch_state full_one_due 0)).timer_event_stack j).next_event
          = 991) := by
    decide
  have hslots : ∀ j, (j = 0 → (w1.st.timer_event_stack j).f = none) ∧
      ((w1.st.timer_event_stack j).f ≠ none → (w1.st.timer_event_stack j).next_event = 991) := by
    rw [hstack1]
    exact hslotsS
  have hocc1 : (w1.st.timer_event_stack 1).f ≠ none := by
    rw [hstack1]
    decide
  obtain ⟨w2, hadd, ⟨s, hfired2⟩, hfree2, hcount2⟩ :=
    admit_one_tick_fires no_callbacks 0 w1 0 99 hinv1 hrun1 hctr1 ((hslots 0).1 rfl)
      (fun j hj => absurd hj (Fin.not_lt_zero j))
      (by
        intro j hj
        have h : (w1.st.timer_event_stack j).next_event = 991 := (hslots j).2 hj
        show 2 ≤ (w1.st.timer_event_stack j).next_event
          ∧ (w1.st.timer_event_stack j).next_event ≤ 2147483647
        rw [h]
        decide)
      ⟨1, hocc1, by
        have h : (w1.st.timer_event_stack 1).next_event = 991 := (hslots 1).2 hocc1
        show (w1.st.timer_event_stack 1).next_event ≤ 16777215
        rw [h]
        decide⟩
      (fun _ => rfl)
  refine ⟨w1, hw1, hcount1, w2, hadd, ?_, hfree2, by rw [hcount2, hcount1]⟩
  rw [hfired2, hfired1]
  rfl

/-- Claim C14, counterexample. Three full stores with an armed slot and
callbacks that admit nothing. In `full_two_due` slot 1 is armed and slot 0
holds the same deadline: one `timer_completed` fires both events and leaves
18, and the immediately following `timer_add_event` returns true with the
event stored in slot 0, slot 1 left empty and `timer_event_count = 19`. In
`full_far` every other deadline exceeds 0xFFFFFF and `timer_completed` does
not return. In `full_one_due` one event fires, and the following
`timer_add_event` of a deadline of one tick fires that event too, leaving
slot 0 empty and `timer_event_count = 19`. -/
theorem full_store_two_fire_together :
    ((∀ j, (full_two_due.timer_event_stack j).f ≠ none) ∧
      full_two_due.timer_event_count = 20 ∧ armed full_two_due ∧
      ∃ w1, timer_completed no_callbacks 4 ⟨full_two_due, []⟩ = .ok w1 ∧
        w1.fired.map Prod.fst = [1, 0] ∧ w1.st.timer_event_count = 18 ∧
        ∃ w2, timer_add_event no_callbacks 2 ⟨some 99, 500⟩ w1 = .ok (true, w2) ∧
          (w2.st.timer_event_stack 0).f = some 99 ∧
          (w2.st.timer_event_stack 1).f = none ∧ w2.st.timer_event_count = 19) ∧
    ((∀ j, (full_far.timer_event_stack j).f ≠ none) ∧
      full_far.timer_event_count = 20 ∧ armed full_far ∧
      fault_of (timer_completed no_callbacks 3 ⟨full_far, []⟩) = some Fault.undefined) ∧
    ((∀ j, (full_one_due.timer_event_stack j).f ≠ none) ∧
      full_one_due.timer_event_count = 20 ∧ armed full_one_due ∧
      ∃ w1, timer_completed no_callbacks 2 ⟨full_one_due, []⟩ = .ok w1 ∧
        w1.st.timer_event_count = 19 ∧
        ∃ w2, timer_add_event no_callbacks 4 ⟨some 99, 1⟩ w1 = .ok (true, w2) ∧
          w2.fired.map Prod.fst = [0, 99] ∧
          (w2.st.timer_event_stack 0).f = none ∧ w2.st.timer_event_count = 19) :=
  ⟨⟨by decide, rfl, fun _ => ⟨1, rfl, by decide, by decide, by decide, by decide, rfl⟩,
      full_two_due_chain⟩,
    ⟨by decide, rfl, fun _ => ⟨0, rfl, by decide, by decide, by decide, by decide, rfl⟩,
      full_far_stops⟩,
    ⟨by decide, rfl, fun _ => ⟨0, rfl, by decide, by decide, by decide, by decide, rfl⟩,
      full_one_due_one_tick⟩⟩

/-! ## The first admission after initialisation -/

theorem first_admission (w : State) (c : Nat) (d : Int)
    (hempty : ∀ j, (w.timer_event_stack j).f = none)
    (hcount : w.timer_event_count = 0)
    (hd : -2147483648 ≤ d ∧ d ≤ 2147483647) :
    timer_add_event_in_stack ⟨some c, d⟩ w
      = .ok (true, insert_at (hal_timer_counter_reset w) 0 ⟨some c, d⟩) ∧
    timer_get_next_event (insert_at (hal_timer_counter_reset w) 0 ⟨some c, d⟩)
      = .ok ((0 : Fin 20).val, insert_at (hal_timer_counter_reset w) 0 ⟨some c, d⟩) ∧
    count_invariant (insert_at (hal_timer_counter_reset w) 0 ⟨some c, d⟩) ∧
    (insert_at (hal_timer_counter_reset w) 0 ⟨some c, d⟩).timer_event_count = 1 ∧
    ∀ j, j ≠ 0 →
      ((insert_at (hal_timer_counter_reset w) 0 ⟨some c, d⟩).timer_event_stack j).f = none := by
  obtain ⟨i, _, himin, hres⟩ := add_in_stack_free ⟨some c, d⟩ w ⟨0, hempty 0⟩
  have hi : i = 0 := by
    by_contra h
    exact himin 0 (Fin.pos_of_ne_zero h) (hempty 0)
  subst hi
  rw [update_stack_zero w hcount] at hres
  replace hres : timer_add_event_in_stack ⟨some c, d⟩ w
      = .ok (true, insert_at (hal_timer_counter_reset w) 0 ⟨some c, d⟩) := hres
  have hinv0 : count_invariant (hal_timer_counter_reset w) := by
    show w.timer_event_count = slots.countP (fun i => (w.timer_event_stack i).f.isSome)
    rw [hcount]
    symm
    rw [List.countP_eq_zero]
    intro j _
    rw [hempty j]
    simp
  obtain ⟨hinv1, hcnt1⟩ := insert_at_inv (hal_timer_counter_reset w) 0 c d hinv0 (hempty 0)
  have hcnt1' : (insert_at (hal_timer_counter_reset w) 0 ⟨some c, d⟩).timer_event_count = 1 := by
    rw [hcnt1]
    show w.timer_event_count + 1 = 1
    rw [hcount]
  have hst : ∀ j, (insert_at (hal_timer_counter_reset w) 0 ⟨some c, d⟩).timer_event_stack j
      = if j = 0 then ⟨some c, d⟩ else w.timer_event_stack j :=
    fun j => insert_at_stack _ _ _ j
  have hfree : ∀ j, j ≠ 0 →
      ((insert_at (hal_timer_counter_reset w) 0 ⟨some c, d⟩).timer_event_stack j).f = none := by
    intro j hj
    rw [hst j, if_neg hj]
    exact hempty j
  have hsame : renormalize (insert_at (hal_timer_counter_reset w) 0 ⟨some c, d⟩)
      = insert_at (hal_timer_counter_reset w) 0 ⟨some c, d⟩ := by
    apply renormalize_same _ rfl
    intro j hj
    have hj0 : j = 0 := by
      by_contra h
      exact hj (hfree j h)
    subst hj0
    show -2147483648 ≤ ((insert_at (hal_timer_counter_reset w) 0 ⟨some c, d⟩).timer_event_stack 0).next_event
      ∧ ((insert_at (hal_timer_counter_reset w) 0 ⟨some c, d⟩).timer_event_stack 0).next_event
        ≤ 2147483647
    rw [hst 0, if_pos rfl]
    exact hd
  obtain ⟨p, hg, hpo, _⟩ := get_next_spec _ hinv1 (by rw [hcnt1']) (Or.inl hcnt1')
  rw [hsame] at hg hpo
  have hp0 : p = 0 := by
    by_contra h
    exact hpo (hfree p h)
  subst hp0
  exact ⟨hres, hg, hinv1, hcnt1', hfree⟩

theorem first_admission_outcome (cbs : Callbacks) (n : Nat) (w : Sys) (c : Nat)
    (hempty : ∀ j, (w.st.timer_event_stack j).f = none)
    (hcount : w.st.timer_event_count = 0)
    (hrun : w.st.timer_event_running = false)
    (hcb : ∀ s, cbs c s = []) :
    (∃ w', timer_add_event cbs (n + 4) ⟨some c, 1⟩ w = .ok (true, w') ∧
        (∃ s, w'.fired = w.fired ++ [(c, s)] ∧ (s.timer_event_stack 0).f = none ∧
          s.timer_event_running = true) ∧
        (∀ j, (w'.st.timer_event_stack j).f = none) ∧
        w'.st.timer_event_count = 0 ∧
        w'.st.timer_event_running = false ∧
        w'.st.hal.interrupt_enabled = false) ∧
    (∀ d : Int, -2147483648 < d → d ≤ 2147483647 → d ≠ 1 →
      ∃ w', timer_add_event cbs (n + 4) ⟨some c, d⟩ w = .ok (true, w') ∧
        w'.fired = w.fired ∧
        w'.st.timer_event_stack 0 = ⟨some c, d⟩ ∧
        (∀ j, j ≠ 0 → (w'.st.timer_event_stack j).f = none) ∧
        w'.st.timer_event_count = 1 ∧
        w'.st.timer_next_event_position = 0 ∧
        w'.st.hal.compare = toUInt32 (d - 1) ∧
        (2 ≤ d → (w'.st.hal.compare : Int) = d - 1) ∧
        w'.st.hal.interrupt_enabled = true ∧
        w'.st.timer_event_running = false) := by
  have hst : ∀ d j, (insert_at (hal_timer_counter_reset w.st) 0 ⟨some c, d⟩).timer_event_stack j
      = if j = 0 then ⟨some c, d⟩ else w.st.timer_event_stack j :=
    fun d j => insert_at_stack _ _ _ j
  have hrun1 : ∀ d,
      (insert_at (hal_timer_counter_reset w.st) 0 ⟨some c, d⟩).timer_event_running = false :=
    fun _ => hrun
  constructor
  · obtain ⟨hres, hg, hinv1, hcnt1, hfree⟩ := first_admission w.st c 1 hempty hcount
      ⟨by omega, by omega⟩
    rw [timer_add_event_succ, hres]
    dsimp only
    have hconf : timer_configure_next_event cbs (n + 3)
        ⟨insert_at (hal_timer_counter_reset w.st) 0 ⟨some c, 1⟩, w.fired⟩ = _ :=
      timer_configure_succ cbs (n + 2)
        ⟨insert_at (hal_timer_counter_reset w.st) 0 ⟨some c, 1⟩, w.fired⟩ 0 _ hg
    rw [if_pos (hrun1 1), hconf]
    have hfire : toUInt32 (toInt32 (((insert_at (hal_timer_counter_reset w.st) 0
          ⟨some c, 1⟩).timer_event_stack 0).next_event - 1))
        ≤ toUInt32 ((hal_timer_getvalue (insert_at (hal_timer_counter_reset w.st) 0
            ⟨some c, 1⟩) : Nat) : Int) := by
      rw [hst 1 0, if_pos rfl]
      show toUInt32 (toInt32 (1 - 1)) ≤ toUInt32 ((0 : Nat) : Int)
      decide
    rw [if_pos hfire]
    have hc0 : (({ insert_at (hal_timer_counter_reset w.st) 0 ⟨some c, 1⟩ with
        timer_next_event_position := (0 : Fin 20).val } : State).timer_event_stack 0).f
          = some c := by
      show ((insert_at (hal_timer_counter_reset w.st) 0 ⟨some c, 1⟩).timer_event_stack 0).f = _
      rw [hst 1 0, if_pos rfl]
    have hcomp : timer_completed cbs (n + 2)
        ⟨{ insert_at (hal_timer_counter_reset w.st) 0 ⟨some c, 1⟩ with
          timer_next_event_position := (0 : Fin 20).val }, w.fired⟩ = _ :=
      completed_single cbs (n + 1)
        ⟨{ insert_at (hal_timer_counter_reset w.st) 0 ⟨some c, 1⟩ with
          timer_next_event_position := (0 : Fin 20).val }, w.fired⟩ 0 c rfl hc0
    rw [hcomp, hcb, run_callback_nil]
    dsimp only
    have hz : ¬ ((dispatch_state { insert_at (hal_timer_counter_reset w.st) 0 ⟨some c, 1⟩ with
        timer_next_event_position := (0 : Fin 20).val } 0).timer_event_count > 0) := by
      rw [dispatch_count]
      show ¬ (toUInt8 (((insert_at (hal_timer_counter_reset w.st) 0
        ⟨some c, 1⟩).timer_event_count : Int) - 1) > 0)
      rw [hcnt1]
      decide
    rw [if_neg hz]
    have hfreed : ∀ j, ((dispatch_state
        { insert_at (hal_timer_counter_reset w.st) 0 ⟨some c, 1⟩ with
          timer_next_event_position := (0 : Fin 20).val } 0).timer_event_stack j).f = none := by
      intro j
      rw [dispatch_stack]
      by_cases hj : j = 0
      · rw [if_pos hj]
      · rw [if_neg hj]
        exact hfree j hj
    refine ⟨_, rfl, ⟨_, rfl, hfreed 0, rfl⟩, hfreed, ?_, rfl, rfl⟩
    show (dispatch_state { insert_at (hal_timer_counter_reset w.st) 0 ⟨some c, 1⟩ with
        timer_next_event_position := (0 : Fin 20).val } 0).timer_event_count = 0
    omega
  · intro d hd1 hd2 hd3
    obtain ⟨hres, hg, hinv1, hcnt1, hfree⟩ := first_admission w.st c d hempty hcount
      ⟨by omega, by omega⟩
    rw [timer_add_event_succ, hres]
    dsimp only
    have hconf : timer_configure_next_event cbs (n + 3)
        ⟨insert_at (hal_timer_counter_reset w.st) 0 ⟨some c, d⟩, w.fired⟩ = _ :=
      timer_configure_succ cbs (n + 2)
        ⟨insert_at (hal_timer_counter_reset w.st) 0 ⟨some c, d⟩, w.fired⟩ 0 _ hg
    rw [if_pos (hrun1 d), hconf]
    have het : toInt32 (((insert_at (hal_timer_counter_reset w.st) 0
          ⟨some c, d⟩).timer_event_stack 0).next_event - 1) = d - 1 := by
      rw [hst d 0, if_pos rfl]
      show toInt32 (d - 1) = d - 1
      exact toInt32_of_range _ (by omega) (by omega)
    have hnf : ¬ toUInt32 (toInt32 (((insert_at (hal_timer_counter_reset w.st) 0
          ⟨some c, d⟩).timer_event_stack 0).next_event - 1))
        ≤ toUInt32 ((hal_timer_getvalue (insert_at (hal_timer_counter_reset w.st) 0
            ⟨some c, d⟩) : Nat) : Int) := by
      rw [het]
      show ¬ toUInt32 (d - 1) ≤ toUInt32 ((0 : Nat) : Int)
      rw [unsigned_test_zero _ (by omega) (by omega)]
      omega
    rw [if_neg hnf, het]
    refine ⟨_, rfl, rfl, ?_, hfree, hcnt1, rfl, rfl, ?_, rfl, hrun1 d⟩
    · show (insert_at (hal_timer_counter_reset w.st) 0 ⟨some c, d⟩).timer_event_stack 0 = _
      rw [hst d 0, if_pos rfl]
    · intro hd4
      show ((toUInt32 (d - 1) : Nat) : Int) = d - 1
      exact toUInt32_of_range _ (by omega) (by omega)

/-- Claim C21, evaluated at a failing input. After `timer_init`,
`timer_add_event` of an event with a deadline of 0 ticks whose callback admits
nothing returns true without having invoked the callback: the event is left
pending in slot 0 with `timer_event_count = 1`, the interrupt enabled and the
compare register at 4294967295, which is `(uint32_t)(-1)`. -/
theorem zero_deadline_left_pending :
    timer_add_event no_callbacks 4 ⟨some 7, 0⟩ ⟨timer_init id one_due, []⟩
      = .ok (true, outcome_add
          (timer_add_event no_callbacks 4 ⟨some 7, 0⟩ ⟨timer_init id one_due, []⟩)) ∧
    (outcome_add (timer_add_event no_callbacks 4 ⟨some 7, 0⟩
      ⟨timer_init id one_due, []⟩)).fired.length = 0 ∧
    ((outcome_add (timer_add_event no_callbacks 4 ⟨some 7, 0⟩
      ⟨timer_init id one_due, []⟩)).st.timer_event_stack 0).f = some 7 ∧
    (outcome_add (timer_add_event no_callbacks 4 ⟨some 7, 0⟩
      ⟨timer_init id one_due, []⟩)).st.timer_event_count = 1 ∧
    (outcome_add (timer_add_event no_callbacks 4 ⟨some 7, 0⟩
      ⟨timer_init id one_due, []⟩)).st.hal.compare = 4294967295 ∧
    (outcome_add (timer_add_event no_callbacks 4 ⟨some 7, 0⟩
      ⟨timer_init id one_due, []⟩)).st.hal.interrupt_enabled = true := by
  refine ⟨by with_unfolding_all rfl, by decide, by decide, by decide, by decide, by decide⟩

end Timer
